import Mathlib

/-!
Verification development for the yeet JIT front-end.

The definitions below are a shallow embedding of the C++ sources:
  * `src/edn/edn.cpp`      — lexer, atom predicates, parser, pretty printer
  * `src/engine/engine.cpp` — type mapping, code generation, driver

C++ `std::string` values are modelled as `List Char` (one `Char` per byte;
all inputs of interest are ASCII).  Fallible code (C++ `throw`) is modelled
with `Except String`.  Code paths that are undefined behaviour in C++
(dereferencing an end iterator, reading an uninitialised field) are modelled
as explicit errors or arbitrarily chosen values and are marked by comments;
no claim below depends on such a path.
-/

namespace Edn

/-- Token kinds, from `enum TokenType` in `edn.hpp`. -/
inductive TokenType where
  | TokenString
  | TokenAtom
  | TokenParen
deriving DecidableEq, Repr

/-- Tokens, from `struct EdnToken` in `edn.hpp`. -/
structure EdnToken where
  type : TokenType
  line : Nat
  column : Nat
  value : List Char
deriving DecidableEq, Repr

/-- Node kinds, from `enum NodeType` in `edn.hpp`. -/
inductive NodeType where
  | EdnNil
  | EdnSymbol
  | EdnKeyword
  | EdnBool
  | EdnInt
  | EdnFloat
  | EdnString
  | EdnChar
  | EdnList
  | EdnVector
  | EdnMap
  | EdnSet
  | EdnDiscard
  | EdnTagged
deriving DecidableEq, Repr

/-- Syntax nodes, from `struct EdnNode` in `edn.hpp` (`metadata` is a
string-to-string map used only for the key `"type"`; modelled as an
association list). -/
inductive EdnNode where
  | mk (type : NodeType) (line : Nat) (column : Nat) (value : List Char)
       (values : List EdnNode) (metadata : List (List Char × List Char))

def EdnNode.type : EdnNode → NodeType
  | .mk t _ _ _ _ _ => t

def EdnNode.line : EdnNode → Nat
  | .mk _ l _ _ _ _ => l

def EdnNode.column : EdnNode → Nat
  | .mk _ _ c _ _ _ => c

def EdnNode.value : EdnNode → List Char
  | .mk _ _ _ v _ _ => v

def EdnNode.values : EdnNode → List EdnNode
  | .mk _ _ _ _ vs _ => vs

def EdnNode.metadata : EdnNode → List (List Char × List Char)
  | .mk _ _ _ _ _ m => m

/-- `createToken` from `edn.cpp`: append a token to the stream. -/
def createToken (type : TokenType) (line column : Nat) (value : List Char)
    (tokens : List EdnToken) : List EdnToken :=
  tokens ++ [⟨type, line, column, value⟩]

/-! ## Lexer (`lex` in `edn.cpp`)

The C++ lexer is a single loop over the input bytes carrying mutable state;
`LexState` is that state and `lexStep` is one loop iteration (including the
`++column` of the `for` header, which also runs on `continue`). -/

structure LexState where
  line : Nat
  column : Nat
  escaping : Bool
  inString : Bool
  stringContent : List Char
  inComment : Bool
  token : List Char
  tokens : List EdnToken
deriving Repr

def initLexState : LexState :=
  ⟨1, 1, false, false, [], false, [], []⟩

/-- The six bracket characters recognised by the lexer. -/
def isParenChar (c : Char) : Prop :=
  c = '(' ∨ c = ')' ∨ c = '[' ∨ c = ']' ∨ c = '{' ∨ c = '}'

instance (c : Char) : Decidable (isParenChar c) := by
  unfold isParenChar; infer_instance

/-- The separator characters of the big `else if` in `lex` (brackets,
whitespace, comma). -/
def isSepChar (c : Char) : Prop :=
  isParenChar c ∨ c = '\t' ∨ c = '\n' ∨ c = '\r' ∨ c = ' ' ∨ c = ','

instance (c : Char) : Decidable (isSepChar c) := by
  unfold isSepChar; infer_instance

/-- Flush the pending atom token if nonempty (the repeated
`if (token != "") createToken(TokenAtom, ...)` pattern in `lex`). -/
def flushToken (st : LexState) : LexState :=
  if st.token ≠ [] then
    { st with tokens := createToken .TokenAtom st.line st.column st.token st.tokens,
              token := [] }
  else st

/-- One iteration of the `lex` loop for character `c`, without the trailing
column increment. -/
def lexStepCore (st : LexState) (c : Char) : LexState :=
  -- if (*it == '\n' || *it == '\r') { line++; column = 1; }
  let st := if c = '\n' ∨ c = '\r' then { st with line := st.line + 1, column := 1 } else st
  -- if (!inString && *it == ';' && !escaping) inComment = true;
  let st := if ¬ st.inString ∧ c = ';' ∧ ¬ st.escaping then { st with inComment := true } else st
  -- if (inComment) { if (*it == '\n') { ...; continue; } }
  -- (for other characters inside a comment there is no continue: they fall
  -- through to the rest of the loop body)
  if st.inComment ∧ c = '\n' then
    flushToken { st with inComment := false }
  -- if (*it == '"' && !escaping) { ...; continue; }
  else if c = '"' ∧ ¬ st.escaping then
    if st.inString then
      { st with tokens := createToken .TokenString st.line st.column st.stringContent st.tokens,
                inString := false }
    else
      { st with stringContent := [], inString := true }
  else if st.inString then
    -- if (*it == escapeChar && !escaping) { escaping = true; continue; }
    if c = '\\' ∧ ¬ st.escaping then
      { st with escaping := true }
    else
      -- if (escaping) { escaping = false; if (t n f r) stringContent += '\\'; }
      -- stringContent += *it;
      let st :=
        if st.escaping then
          { st with escaping := false,
                    stringContent :=
                      if c = 't' ∨ c = 'n' ∨ c = 'f' ∨ c = 'r' then
                        st.stringContent ++ ['\\']
                      else st.stringContent }
        else st
      { st with stringContent := st.stringContent ++ [c] }
  else if isSepChar c then
    let st := flushToken st
    if isParenChar c then
      { st with tokens := createToken .TokenParen st.line st.column [c] st.tokens }
    else st
  else
    -- if (escaping) escaping = false; else if (*it == escapeChar) escaping = true;
    let st :=
      if st.escaping then { st with escaping := false }
      else if c = '\\' then { st with escaping := true }
      else st
    -- if (token == "#_" || (token.length()==2 && token[0]==escapeChar)) { emit; }
    let st :=
      if st.token = ['#', '_'] ∨ (st.token.length = 2 ∧ st.token.headD ' ' = '\\') then
        flushToken st
      else st
    { st with token := st.token ++ [c] }

/-- One iteration of the `lex` loop including `++column` from the `for`
header (which runs on every path, `continue` included). -/
def lexStep (st : LexState) (c : Char) : LexState :=
  let st := lexStepCore st c
  { st with column := st.column + 1 }

def lexRun (st : LexState) (cs : List Char) : LexState :=
  cs.foldl lexStep st

/-- `lex` from `edn.cpp`: run the loop and flush a trailing atom. -/
def lex (cs : List Char) : List EdnToken :=
  (flushToken (lexRun initLexState cs)).tokens

/-! ## Atom predicates (`validSymbol` and friends in `edn.cpp`) -/

/-- `validSymbolChars` from `edn.cpp`. -/
def validSymbolChars : List Char :=
  ['0','1','2','3','4','5','6','7','8','9',
   'A','B','C','D','E','F','G','H','I','J','K','L','M',
   'N','O','P','Q','R','S','T','U','V','W','X','Y','Z',
   '.','*','+','!','-','_','?','$','%','&','=',':','#','/','>','<',';']

/-- C++ `std::string::substr(start, stop)`: out-of-range `start` throws in
C++; the only such call sites here are unreachable for nonempty inputs and
are modelled as returning `[]` (see the comments at `validInt`). -/
def cppSubstr (s : List Char) (start stop : Nat) : List Char :=
  (s.drop start).take stop

/-- `strRangeIn(str, range, start, stop)` from `edn.cpp`:
`strspn(str.substr(start, stop), range) == substr.length()`, i.e. every
character of the selected slice lies in `range`.  (True for the empty
slice, exactly as `strspn` behaves.) -/
def strRangeIn (s : List Char) (range : List Char) (start : Nat := 0) (stop : Nat := 1) : Prop :=
  ∀ c ∈ cppSubstr s start stop, c ∈ range

instance (s range : List Char) (start stop : Nat) :
    Decidable (strRangeIn s range start stop) := by
  unfold strRangeIn; infer_instance

/-- C++ `::toupper` on ASCII, applied characterwise (`uppercase` in
`edn.cpp`). -/
def uppercase (s : List Char) : List Char :=
  s.map Char.toUpper

def digits : List Char := ['0','1','2','3','4','5','6','7','8','9']

/-- `validSymbol` from `edn.cpp`. -/
def validSymbol (value : List Char) : Prop :=
  let v := uppercase value
  (∀ c ∈ v, c ∈ validSymbolChars) ∧
  ¬ strRangeIn v digits ∧
  ¬ (strRangeIn v [':', '#', '/'] ∧ ¬ (v.length = 1 ∧ v.headD ' ' = '/')) ∧
  ¬ (strRangeIn v ['-', '+', '.'] ∧ v.length > 1 ∧ strRangeIn v digits 1) ∧
  ¬ (v.count '/' > 1)

instance (value : List Char) : Decidable (validSymbol value) := by
  unfold validSymbol; infer_instance

/-- `validKeyword` from `edn.cpp` (`value[0]` on an empty C++ string reads
the terminating NUL, which is not `':'`, so the empty string is rejected
exactly as in C++). -/
def validKeyword (value : List Char) : Prop :=
  value.headD '\x00' = ':' ∧ validSymbol (cppSubstr value 1 (value.length - 1))

instance (value : List Char) : Decidable (validKeyword value) := by
  unfold validKeyword; infer_instance

/-- `validNil` from `edn.cpp`. -/
def validNil (value : List Char) : Prop :=
  value = ['n', 'i', 'l']

instance (value : List Char) : Decidable (validNil value) := by
  unfold validNil; infer_instance

/-- `validBool` from `edn.cpp`. -/
def validBool (value : List Char) : Prop :=
  value = ['t','r','u','e'] ∨ value = ['f','a','l','s','e']

instance (value : List Char) : Decidable (validBool value) := by
  unfold validBool; infer_instance

/-- `validInt` from `edn.cpp`.  Note two faithful quirks of the source:
the `N`/`M` suffix strip removes TWO characters
(`value.substr(0, value.length() - 2)`, the source's own comment says it
removes the suffix), and for a one-character value `value.length() - 2`
underflows to `npos` so the whole string is kept.  On the empty string the
C++ code throws `std::out_of_range` from `substr(npos, 1)`; the model
instead accepts it vacuously, and no claim depends on the empty string
(the parser never classifies an empty atom). -/
def validInt (value : List Char) (allowSign : Bool := true) : Prop :=
  let v1 :=
    if strRangeIn value ['-', '+'] ∧ value.length > 1 ∧ allowSign then
      cppSubstr value 1 (value.length - 1)
    else value
  -- substr(0, length - 2): for length 1 the count underflows to npos and
  -- the whole string is kept; for length 0 both give the empty string
  let v2 :=
    if strRangeIn v1 ['N', 'M'] (v1.length - 1) 1 then
      if v1.length ≥ 2 then cppSubstr v1 0 (v1.length - 2) else v1
    else v1
  ∀ c ∈ v2, c ∈ digits

instance (value : List Char) (allowSign : Bool) :
    Decidable (validInt value allowSign) := by
  unfold validInt; infer_instance

/-- C++ `string::find_first_of` as used in `validFloat`, where the
`size_t` result is stored into an `int`: "not found" becomes `-1`. -/
def findFirstOf (s : List Char) (c : Char) : Int :=
  match s.findIdx? (· = c) with
  | some i => (i : Int)
  | none => -1

/-- `validFloat` from `edn.cpp`.  Faithful quirks: the period position is
stored in an `int` and tested with `if (periodPos)`, so "no period" (`-1`)
takes the has-period branch with `front` = the whole string and `back` =
the whole string, while a leading period (`0`) takes the else branch with
`front = ""` and `back` = the whole string (period included).  On inputs
such as `"1."` or `"1.E5"` the C++ code throws `std::out_of_range` inside a
nested `substr` (via `validInt` of an empty string); the model accepts those
vacuously and no claim depends on such inputs. -/
def validFloat (value : List Char) : Prop :=
  let v := uppercase value
  let periodPos := findFirstOf v '.'
  -- substr(0, periodPos) with periodPos = -1 converts to npos and keeps
  -- the whole string; substr(periodPos + 1) is then substr(0)
  let front := if periodPos ≠ 0 then
                 (if periodPos = -1 then v else cppSubstr v 0 periodPos.toNat)
               else []
  let back := if periodPos ≠ 0 then v.drop (periodPos + 1).toNat else v
  (front = [] ∨ validInt front) ∧
  (let epos := findFirstOf back 'E'
   if epos > -1 then
     ¬ (epos.toNat = back.length - 1) ∧
     validInt (cppSubstr back 0 epos.toNat) false ∧
     validInt (back.drop (epos + 1).toNat)
   else
     let back' := if strRangeIn back ['M'] (back.length - 1) 1 then
                    cppSubstr back 0 (back.length - 1)
                  else back
     validInt back' false)

instance (value : List Char) : Decidable (validFloat value) := by
  unfold validFloat; infer_instance

/-- `validChar` from `edn.cpp`. -/
def validChar (value : List Char) : Prop :=
  value.headD '\x00' = '\\' ∧ value.length = 2

instance (value : List Char) : Decidable (validChar value) := by
  unfold validChar; infer_instance

end Edn

namespace Edn

/-! ## Parser (`handleAtom`, `handleCollection`, `handleTagged`, `readAhead`,
`read` in `edn.cpp`) -/

/-- `handleAtom` from `edn.cpp`: classify an atom token by running the
predicates in the source order (note that `validNil` is tested even before
the string-token check, exactly as in the source). -/
def handleAtom (token : EdnToken) : Except String EdnNode :=
  let ty : Except String NodeType :=
    if validNil token.value then .ok .EdnNil
    else if token.type = .TokenString then .ok .EdnString
    else if validChar token.value then .ok .EdnChar
    else if validBool token.value then .ok .EdnBool
    else if validInt token.value then .ok .EdnInt
    else if validFloat token.value then .ok .EdnFloat
    else if validKeyword token.value then .ok .EdnKeyword
    else if validSymbol token.value then .ok .EdnSymbol
    else .error "Could not parse atom"
  ty.map (fun t => .mk t token.line token.column token.value [] [])

/-- `handleCollection` from `edn.cpp`.  For an opener other than `(` `[` `{`
the C++ node type is left uninitialised (undefined behaviour, reachable only
through a stray closer token); the model arbitrarily uses `EdnNil` there.
No claim depends on that path. -/
def handleCollection (token : EdnToken) (values : List EdnNode) : EdnNode :=
  let t : NodeType :=
    if token.value = ['('] then .EdnList
    else if token.value = ['['] then .EdnVector
    else if token.value = ['{'] then .EdnMap
    else .EdnNil
  .mk t token.line token.column [] values []

/-- `handleTagged` from `edn.cpp`.  The `symToken.column` field is never
assigned in C++ (an uninitialised `int`); the model uses 0.  No claim reads
that field. -/
def handleTagged (token : EdnToken) (value : EdnNode) : Except String EdnNode :=
  let tagName := cppSubstr token.value 1 (token.value.length - 1)
  if tagName = [] then
    -- special case where we return early as # followed by a map is a set
    if value.type ≠ .EdnMap then
      .error "Was expection a \x7b \x7d after hash to build set"
    else
      .ok (.mk .EdnSet token.line token.column [] value.values [])
  else
    let nodeType : NodeType := if tagName = ['_'] then .EdnDiscard else .EdnTagged
    if ¬ validSymbol tagName then
      .error "Invalid tag name"
    else
      (handleAtom ⟨.TokenAtom, token.line, 0, tagName⟩).map
        (fun sym => .mk nodeType token.line token.column [] [sym, value] [])

/-- Placeholder token (never observed: every access is guarded by an
emptiness check mirroring the C++). -/
def defaultToken : EdnToken := ⟨.TokenAtom, 0, 0, []⟩

mutual

/-- `readAhead` from `edn.cpp`, with explicit fuel for termination (the
collection loop is `readSeq`).  `read` always supplies sufficient fuel.
Faithful quirks kept from the source: the matching closer of a PAREN token
that is itself a closer stays the empty string (such a "collection" can only
be closed by an empty string token); a non-paren token whose text starts
with `#` becomes a tagged form, and `shiftToken` on an exhausted token list
(undefined behaviour in C++, `front()` on an empty `std::list`) is an
error. -/
def readAhead (fuel : Nat) (token : EdnToken) (tokens : List EdnToken) :
    Except String (EdnNode × List EdnToken) :=
  match fuel with
  | 0 => .error "out of fuel"
  | fuel + 1 =>
    if token.type = .TokenParen then
      readSeq fuel token
        (if token.value = ['('] then [')']
         else if token.value = ['['] then [']']
         else if token.value = ['{'] then ['}']
         else []) [] tokens
    else if token.value = [')'] ∨ token.value = [']'] ∨ token.value = ['}'] then
      .error ("Unexpected " ++ token.value.asString)
    else if token.value ≠ [] ∧ token.value.headD ' ' = '#' then
      -- shiftToken: front() then pop_front(); empty input is C++ UB
      if tokens.isEmpty then .error "shiftToken on empty token list"
      else
        match readAhead fuel (tokens.headD defaultToken) tokens.tail with
        | .error e => .error e
        | .ok (payload, rest) => (handleTagged token payload).map (fun n => (n, rest))
    else
      (handleAtom token).map (fun n => (n, tokens))

/-- The `while (true)` collection loop inside `readAhead`. -/
def readSeq (fuel : Nat) (token : EdnToken) (closeParen : List Char)
    (L : List EdnNode) (tokens : List EdnToken) :
    Except String (EdnNode × List EdnToken) :=
  match fuel with
  | 0 => .error "out of fuel"
  | fuel + 1 =>
    if tokens.isEmpty then .error "unexpected end of list"
    else if (tokens.headD defaultToken).value = closeParen then
      .ok (handleCollection token L, tokens.tail)
    else
      match readAhead fuel (tokens.headD defaultToken) tokens.tail with
      | .error e => .error e
      | .ok (n, rest2) => readSeq fuel token closeParen (L ++ [n]) rest2

end

/-- `read` minus the lexing step: error on an empty token stream, then parse
one form from the front and drop whatever tokens remain. -/
def readTokens (fuel : Nat) (tokens : List EdnToken) : Except String EdnNode :=
  match tokens with
  | [] => .error "No parsable tokens found in string"
  | t :: ts => (readAhead fuel t ts).map Prod.fst

/-- Fuel that always suffices for `readAhead`: every parser step either
consumes a token or alternates into `readSeq`, so twice the token count
plus a constant bounds the call depth. -/
def readFuel (tokens : List EdnToken) : Nat :=
  2 * tokens.length + 2

/-- `read` from `edn.cpp`: lex, reject an empty token stream, parse the
first form, discard the rest. -/
def read (cs : List Char) : Except String EdnNode :=
  readTokens (readFuel (lex cs)) (lex cs)

/-! ## Pretty printer (`pprint`, `escapeQuotes` in `edn.cpp`) -/

/-- `escapeQuotes` from `edn.cpp`.  Faithful quirk: for `"` and `\` the
`switch` appends the backslash and breaks without appending the original
character, so both characters are REPLACED by a lone backslash. -/
def escapeQuotes (before : List Char) : List Char :=
  before.map (fun c => if c = '"' ∨ c = '\\' then '\\' else c)

mutual

/-- `pprint(node, indent, multiline)` from `edn.cpp`. -/
def pprint (node : EdnNode) (indent : Nat) (multiline : Bool) : List Char :=
  match node with
  | .mk t _ _ v vs _ =>
    if t = .EdnList ∨ t = .EdnSet ∨ t = .EdnVector ∨ t = .EdnMap then
      let vals := pprintLoop vs (t = .EdnMap) (List.replicate indent ' ') indent multiline []
      if t = .EdnList then '(' :: vals ++ [')']
      else if t = .EdnVector then '[' :: vals ++ [']']
      else if t = .EdnMap then '{' :: vals ++ ['}']
      else '#' :: '{' :: vals ++ ['}']
    else if t = .EdnTagged then
      -- output = "#" + pprint(front) + " " + pprint(back); with a single
      -- child front() and back() coincide; C++ front()/back() on an empty
      -- child list is undefined behaviour, modelled as "# "
      match vs with
      | [] => ['#', ' ']
      | f :: rest =>
        '#' :: pprint f indent multiline ++ [' '] ++
          pprintLastD rest (pprint f indent multiline) indent multiline
    else if t = .EdnString then
      '"' :: escapeQuotes v ++ ['"']
    else
      v

/-- `pprint` of the last element of a list, or the supplied default text
when the list is empty (structural helper for the tagged case, whose
default is the already-printed front). -/
def pprintLastD (rest : List EdnNode) (d : List Char) (indent : Nat) (multiline : Bool) :
    List Char :=
  match rest with
  | [] => d
  | [g] => pprint g indent multiline
  | _ :: rest2 => pprintLastD rest2 d indent multiline

/-- The child loop of `pprint`.  `vals` is the accumulated text (the C++
separator test is `vals.length() > 0`, on the text, not on the child
count).  For a map with an odd child count the C++ loop dereferences the
end iterator (undefined behaviour); the model appends the separating space
and stops.  No claim depends on odd maps. -/
def pprintLoop (nodes : List EdnNode) (isMap : Bool) (pad : List Char)
    (indent : Nat) (multiline : Bool) (vals : List Char) : List Char :=
  match nodes with
  | [] => vals
  | x :: rest =>
    let vals := if vals.length > 0 then
                  (if multiline then vals ++ pad else vals ++ [' '])
                else vals
    let vals := vals ++ pprint x (indent + 1) multiline
    if isMap then
      match rest with
      | [] => vals ++ [' ']
      | y :: rest2 =>
        let vals := vals ++ [' '] ++ pprint y 1 multiline
        let vals := if multiline ∧ rest2.length ≠ 0 then vals ++ ['\n'] else vals
        pprintLoop rest2 isMap pad indent multiline vals
    else
      let vals := if multiline ∧ rest.length ≠ 0 then vals ++ ['\n'] else vals
      pprintLoop rest isMap pad indent multiline vals

end

/-- The canonical single-line rendering (`pprint(node, 0, false)`), as used
by the diagnostics channel (`YeetCompileException` passes exactly these
arguments). -/
def pprintSL (node : EdnNode) : List Char :=
  pprint node 0 false

/-! ## Structural identity (same kinds, texts and child structure,
ignoring positions and metadata) -/

mutual

def shapeEq : EdnNode → EdnNode → Bool
  | .mk t _ _ v vs _, .mk t' _ _ v' vs' _ =>
    t == t' && v == v' && shapeEqList vs vs'

def shapeEqList : List EdnNode → List EdnNode → Bool
  | [], [] => true
  | a :: as, b :: bs => shapeEq a b && shapeEqList as bs
  | [], _ :: _ => false
  | _ :: _, [] => false

end

end Edn

namespace Engine

open Edn

/-! ## LLVM types (`getLLVMType` and the type surface used by
`engine.cpp`)

Struct types are identified by name; their field types live in the
`llvmStructTypes` registry of the engine state (LLVM stores them inside the
`StructType` object; `CreateStructGEP` call sites below receive the field
list from the registry exactly where the C++ passes the looked-up
`StructType*`). -/

inductive LTy where
  | int (w : Nat)
  | f32
  | f64
  | voidT
  | ptr (pointee : LTy)
  | structT (name : List Char)
deriving DecidableEq, Repr

def LTy.isIntegerTy : LTy → Bool
  | .int _ => true
  | _ => false

def LTy.isFloatingPointTy : LTy → Bool
  | .f32 => true
  | .f64 => true
  | _ => false

/-- LLVM `isFloatTy` is specifically the 32-bit float type. -/
def LTy.isFloatTy : LTy → Bool
  | .f32 => true
  | _ => false

def LTy.isDoubleTy : LTy → Bool
  | .f64 => true
  | _ => false

def LTy.isPointerTy : LTy → Bool
  | .ptr _ => true
  | _ => false

/-- `llvm::Type::getIntegerBitWidth`, which asserts that the type is an
integer type (an assertion failure is modelled as an error). -/
def LTy.getIntegerBitWidth : LTy → Except String Nat
  | .int w => .ok w
  | _ => .error "getIntegerBitWidth on a non-integer type (LLVM assertion)"

/-- `Engine::getLLVMType` from `engine.cpp`, on the reversed tag: the C++
strips a trailing `*` (`!typeStr.empty() && typeStr.back() == '*'`) and
recurses on `substr(0, size-1)`; recursing structurally over the reversed
string is the same computation and keeps the function kernel-computable. -/
def primResolve (r : List Char) : Except String LTy :=
  let ts := r.reverse
  if ts = "int8".toList then .ok (.int 8)
  else if ts = "int16".toList then .ok (.int 16)
  else if ts = "int32".toList then .ok (.int 32)
  else if ts = "int64".toList then .ok (.int 64)
  else if ts = "float32".toList then .ok .f32
  else if ts = "float64".toList then .ok .f64
  else if ts = "void".toList then .ok .voidT
  else .error ("Unknown type string for LLVM type: " ++ ts.asString)

def getLLVMTypeRev : List Char → Except String LTy
  | [] => primResolve []
  | c :: rest =>
    if c = '*' then (getLLVMTypeRev rest).map LTy.ptr
    else primResolve (c :: rest)

/-- `Engine::getLLVMType`: strip trailing `*` into pointer types, then map
primitive tags; anything else is a fatal compile error. -/
def getLLVMType (ts : List Char) : Except String LTy :=
  getLLVMTypeRev ts.reverse

/-! ## LLVM values and instructions

`Value` mirrors `llvm::Value*`: a constant integer, a constant float, or an
opaque SSA value (instruction result, function argument) identified by a
fresh id.  Every value carries its LLVM type (`getType`).  Rational numbers
stand in for IEEE doubles; all concrete constants in this development are
small integers, on which the two agree exactly. -/

inductive Value where
  | cint (w : Nat) (n : Int)
  | cfp (ty : LTy) (q : ℚ)
  | inst (id : Nat) (ty : LTy)
deriving DecidableEq, Repr

/-- `llvm::Value::getType`. -/
def Value.ty : Value → LTy
  | .cint w _ => .int w
  | .cfp t _ => t
  | .inst _ t => t

/-- Instructions, as emitted by the `IRBuilder` call sites in `engine.cpp`.
Basic blocks are identified by numeric ids.  The `id` of a producing
instruction is the id of its `Value.inst` result. -/
inductive Instr where
  | alloca (id : Nat) (ty : LTy) (name : List Char)
  | store (v ptrv : Value)
  | load (id : Nat) (ty : LTy) (ptrv : Value)
  | sitofp (id : Nat) (v : Value) (ty : LTy)
  | fptosi (id : Nat) (v : Value) (ty : LTy)
  | intcast (id : Nat) (v : Value) (ty : LTy)
  | fpext (id : Nat) (v : Value) (ty : LTy)
  | uitofp (id : Nat) (v : Value) (ty : LTy)
  | icmp (id : Nat) (pred : String) (a b : Value)
  | fcmp (id : Nat) (pred : String) (a b : Value)
  | arith (id : Nat) (op : String) (a b : Value)
  | gep (id : Nat) (fields : List LTy) (ptrv : Value) (idx : Nat)
  | br (target : Nat)
  | condbr (c : Value) (bbTrue bbFalse : Nat)
  | phi (id : Nat) (ty : LTy) (incoming : List (Value × Nat))
  | call (id : Nat) (fn : List Char) (args : List Value)
  | retv (v : Value)
  | retVoid
deriving DecidableEq, Repr

/-- Association-list lookup (`std::unordered_map::find` /
`std::map::find`). -/
def lookupA {α : Type} (k : List Char) (m : List (List Char × α)) : Option α :=
  (m.find? (fun p => p.1 == k)).map Prod.snd

/-- Association-list insert-or-overwrite (`map[k] = v`); a later binding
shadows an earlier one. -/
def insertA {α : Type} (k : List Char) (v : α) (m : List (List Char × α)) :
    List (List Char × α) :=
  (k, v) :: m

/-- The engine state: insertion point, emission log, module contents and
the four engine tables (`llvmSymbolTable`, `llvmStructTypes`,
`yeetStructTable`, `yeetFunctionTable` with `yeetFunctionReturnTypes`).
`moduleFuncs` records each function present in the LLVM module together
with its return type; `emissionLog` records, in order, every
`llvm::Function::Create` (so a function body emitted twice would appear
twice). -/
structure EngState where
  nextId : Nat
  nextBlock : Nat
  curFunc : List Char
  curBlock : Nat
  instrs : List (List Char × Nat × Instr)
  moduleFuncs : List (List Char × LTy)
  emissionLog : List (List Char)
  llvmSymbolTable : List (List Char × (Value × List Char))
  llvmStructTypes : List (List Char × List LTy)
  yeetStructTable : List (List Char × List (List Char × List Char))
  yeetFunctionTable : List (List Char × (List (List Char × List Char) × List EdnNode))
  yeetFunctionReturnTypes : List (List Char × List Char)

/-- The compile-time engine monad: state plus fatal compile errors.  (On a
C++ exception the mutated engine state survives in the `Engine` object but
is never observed again; the model simply discards it.) -/
def EngM (α : Type) : Type := EngState → Except String (α × EngState)

def EngM.pure {α : Type} (a : α) : EngM α := fun s => .ok (a, s)

def EngM.bind {α β : Type} (x : EngM α) (f : α → EngM β) : EngM β := fun s =>
  match x s with
  | .error e => .error e
  | .ok (a, s') => f a s'

instance : Monad EngM where
  pure := EngM.pure
  bind := EngM.bind

def throwE {α : Type} (msg : String) : EngM α := fun _ => .error msg

def getS : EngM EngState := fun s => .ok (s, s)

def modifyS (f : EngState → EngState) : EngM Unit := fun s => .ok ((), f s)

/-- Lift an `Except` result (e.g. `getLLVMType`) into the monad. -/
def liftE {α : Type} (x : Except String α) : EngM α := fun s =>
  match x with
  | .error e => .error e
  | .ok a => .ok (a, s)

/-- Mint a fresh SSA value id. -/
def freshId : EngM Nat := fun s =>
  .ok (s.nextId, { s with nextId := s.nextId + 1 })

/-- `llvm::BasicBlock::Create`: mint a fresh block id. -/
def createBasicBlock : EngM Nat := fun s =>
  .ok (s.nextBlock, { s with nextBlock := s.nextBlock + 1 })

/-- `builder.SetInsertPoint`. -/
def setInsertPoint (func : List Char) (bb : Nat) : EngM Unit := fun s =>
  .ok ((), { s with curFunc := func, curBlock := bb })

/-- Append an instruction at the current insertion point. -/
def emit (i : Instr) : EngM Unit := fun s =>
  .ok ((), { s with instrs := s.instrs ++ [(s.curFunc, s.curBlock, i)] })

/-- Signed wrap-around of `n` into `w` bits (two's complement). -/
def signedWrap (w : Nat) (n : Int) : Int :=
  (n + 2 ^ (w - 1)) % 2 ^ w - 2 ^ (w - 1)

/-! ## IRBuilder call surface

The builder helpers mirror `llvm::IRBuilder` with its default constant
folder: an operation on constants yields the folded constant, anything
else emits an instruction.  Operand-type preconditions that LLVM enforces
with assertions are modelled as errors; no claim depends on such a path.
Rational arithmetic stands in for IEEE arithmetic (exact on the small
constants appearing in this development); a constant `sdiv`/`fdiv` by zero
is not folded but emitted (LLVM folds these to poison values). -/

def createAlloca (ty : LTy) (name : List Char) : EngM Value := do
  let id ← freshId
  emit (.alloca id ty name)
  pure (.inst id (.ptr ty))

def createStore (v ptrv : Value) : EngM Value := do
  if ¬ ptrv.ty.isPointerTy then throwE "CreateStore to a non-pointer (LLVM assertion)"
  else
    let id ← freshId
    emit (.store v ptrv)
    pure (.inst id .voidT)

def createLoad (ty : LTy) (ptrv : Value) : EngM Value := do
  if ¬ ptrv.ty.isPointerTy then throwE "CreateLoad from a non-pointer (LLVM assertion)"
  else
    let id ← freshId
    emit (.load id ty ptrv)
    pure (.inst id ty)

def createSIToFP (v : Value) (ty : LTy) : EngM Value := do
  if ¬ v.ty.isIntegerTy then throwE "CreateSIToFP on a non-integer operand (LLVM assertion)"
  else if ¬ ty.isFloatingPointTy then throwE "CreateSIToFP to a non-float type (LLVM assertion)"
  else
    match v with
    | .cint _ n => pure (.cfp ty (n : ℚ))
    | _ => do
      let id ← freshId
      emit (.sitofp id v ty)
      pure (.inst id ty)

def createUIToFP (v : Value) (ty : LTy) : EngM Value := do
  if ¬ v.ty.isIntegerTy then throwE "CreateUIToFP on a non-integer operand (LLVM assertion)"
  else if ¬ ty.isFloatingPointTy then throwE "CreateUIToFP to a non-float type (LLVM assertion)"
  else
    match v with
    | .cint w n => pure (.cfp ty ((n.emod (2 ^ w) : Int) : ℚ))
    | _ => do
      let id ← freshId
      emit (.uitofp id v ty)
      pure (.inst id ty)

/-- Truncation toward zero, the `fptosi` rounding mode. -/
def ratTrunc (q : ℚ) : Int :=
  if q ≥ 0 then ⌊q⌋ else ⌈q⌉

def createFPToSI (v : Value) (ty : LTy) : EngM Value := do
  if ¬ v.ty.isFloatingPointTy then throwE "CreateFPToSI on a non-float operand (LLVM assertion)"
  else if ¬ ty.isIntegerTy then throwE "CreateFPToSI to a non-integer type (LLVM assertion)"
  else
    match v with
    | .cfp _ q => pure (.cint (match ty with | .int w => w | _ => 0) (ratTrunc q))
    | _ => do
      let id ← freshId
      emit (.fptosi id v ty)
      pure (.inst id ty)

def createFPExt (v : Value) (ty : LTy) : EngM Value := do
  if ¬ v.ty.isFloatingPointTy ∨ ¬ ty.isFloatingPointTy then
    throwE "CreateFPExt on non-float types (LLVM assertion)"
  else
    match v with
    | .cfp _ q => pure (.cfp ty q)
    | _ => do
      let id ← freshId
      emit (.fpext id v ty)
      pure (.inst id ty)

/-- `CreateIntCast(v, ty, true)`: signed extension or truncation; a cast to
the same type returns the operand unchanged. -/
def createIntCast (v : Value) (ty : LTy) : EngM Value := do
  if ¬ v.ty.isIntegerTy ∨ ¬ ty.isIntegerTy then
    throwE "CreateIntCast on non-integer types (LLVM assertion)"
  else if v.ty = ty then pure v
  else
    match v, ty with
    | .cint _ n, .int w2 => pure (.cint w2 (signedWrap w2 n))
    | _, _ => do
      let id ← freshId
      emit (.intcast id v ty)
      pure (.inst id ty)

/-- Shared shape of the six integer comparisons (`CreateICmpEQ` ...):
operands of one common integer type, result `i1`. -/
def createICmp (pred : String) (cmp : Int → Int → Bool) (a b : Value) : EngM Value := do
  if a.ty ≠ b.ty ∨ ¬ a.ty.isIntegerTy then
    throwE "CreateICmp operand type mismatch (LLVM assertion)"
  else
    match a, b with
    | .cint _ m, .cint _ n => pure (.cint 1 (if cmp m n then 1 else 0))
    | _, _ => do
      let id ← freshId
      emit (.icmp id pred a b)
      pure (.inst id (.int 1))

/-- Shared shape of the floating comparisons (`CreateFCmpUEQ` ...); the
rational model has no NaNs, so the unordered comparisons coincide with the
plain ones. -/
def createFCmp (pred : String) (cmp : ℚ → ℚ → Bool) (a b : Value) : EngM Value := do
  if a.ty ≠ b.ty ∨ ¬ a.ty.isFloatingPointTy then
    throwE "CreateFCmp operand type mismatch (LLVM assertion)"
  else
    match a, b with
    | .cfp _ p, .cfp _ q => pure (.cint 1 (if cmp p q then 1 else 0))
    | _, _ => do
      let id ← freshId
      emit (.fcmp id pred a b)
      pure (.inst id (.int 1))

/-- Shared shape of `CreateAdd`/`CreateSub`/`CreateMul` (and `CreateSDiv`,
which passes `fold = none` on a zero divisor so the division is emitted
rather than folded). -/
def createIntArith (op : String) (a b : Value) (fold : Option (Int → Int → Int)) :
    EngM Value := do
  if a.ty ≠ b.ty ∨ ¬ a.ty.isIntegerTy then
    throwE "integer binop operand type mismatch (LLVM assertion)"
  else
    match fold, a, b with
    | some f, .cint w m, .cint _ n => pure (.cint w (signedWrap w (f m n)))
    | _, _, _ => do
      let id ← freshId
      emit (.arith id op a b)
      pure (.inst id a.ty)

def createFloatArith (op : String) (a b : Value) (fold : Option (ℚ → ℚ → ℚ)) :
    EngM Value := do
  if a.ty ≠ b.ty ∨ ¬ a.ty.isFloatingPointTy then
    throwE "float binop operand type mismatch (LLVM assertion)"
  else
    match fold, a, b with
    | some f, .cfp t p, .cfp _ q => pure (.cfp t (f p q))
    | _, _, _ => do
      let id ← freshId
      emit (.arith id op a b)
      pure (.inst id a.ty)

def createBr (target : Nat) : EngM Unit := emit (.br target)

def createCondBr (c : Value) (bbTrue bbFalse : Nat) : EngM Unit := do
  if c.ty ≠ .int 1 then throwE "CreateCondBr condition is not i1 (LLVM assertion)"
  else emit (.condbr c bbTrue bbFalse)

def createPhi (ty : LTy) (incoming : List (Value × Nat)) : EngM Value := do
  let id ← freshId
  emit (.phi id ty incoming)
  pure (.inst id ty)

def createCall (fn : List Char) (retTy : LTy) (args : List Value) : EngM Value := do
  let id ← freshId
  emit (.call id fn args)
  pure (.inst id retTy)

/-- `CreateRet(v)`; LLVM turns `CreateRet(nullptr)` into `ret void`. -/
def createRet (v : Option Value) : EngM Unit :=
  match v with
  | some v => emit (.retv v)
  | none => emit .retVoid

/-- Dereference of a possibly null `llvm::Value*` (using a null value in a
further builder call is undefined behaviour in C++; modelled as an
error).  A `none` here arises only from value-less forms (`defn`,
`struct`) in value position. -/
def need (v : Option Value) : EngM Value :=
  match v with
  | some v => EngM.pure v
  | none => throwE "use of a void value (null Value pointer in C++)"

end Engine

namespace Engine

open Edn

/-! ## Codegen helpers (non-recursive parts of `engine.cpp`) -/

def digitVal (c : Char) : Nat := c.toNat - '0'.toNat

def digitsToNat (ds : List Char) : Nat := ds.foldl (fun a c => 10 * a + digitVal c) 0

/-- `std::stoi`: optional sign, then a nonempty digit prefix (remaining
characters ignored); `invalid_argument`/`out_of_range` are modelled as
errors. -/
def stoiM (cs : List Char) : Except String Int :=
  let sr : Int × List Char :=
    match cs with
    | '-' :: r => (-1, r)
    | '+' :: r => (1, r)
    | r => (1, r)
  let ds := sr.2.takeWhile (fun c => c ∈ digits)
  if ds = [] then .error "stoi: invalid argument"
  else
    let n : Int := sr.1 * (digitsToNat ds : Int)
    if n < -(2 ^ 31) ∨ n > 2 ^ 31 - 1 then .error "stoi: out of range"
    else .ok n

/-- `std::stod` (and `std::stof`): optional sign, digits with an optional
fractional part, an optional exponent; the remaining characters are
ignored.  The value is kept as an exact rational (IEEE rounding is not
modelled; all concrete literals in this development are exactly
representable). -/
def stodM (cs : List Char) : Except String ℚ :=
  let sr : ℚ × List Char :=
    match cs with
    | '-' :: r => (-1, r)
    | '+' :: r => (1, r)
    | r => (1, r)
  let ipart := sr.2.takeWhile (fun c => c ∈ digits)
  let rest2 := sr.2.drop ipart.length
  let fr : List Char × List Char :=
    match rest2 with
    | '.' :: r => (r.takeWhile (fun c => c ∈ digits), r.drop (r.takeWhile (fun c => c ∈ digits)).length)
    | r => ([], r)
  let fpart := fr.1
  if ipart = [] ∧ fpart = [] then .error "stod: invalid argument"
  else
    let mant : ℚ := (digitsToNat ipart : ℚ) + (digitsToNat fpart : ℚ) / ((10 : ℚ) ^ fpart.length)
    let expo : Int :=
      match fr.2 with
      | c :: r =>
        if c = 'e' ∨ c = 'E' then
          let er : Int × List Char :=
            match r with
            | '-' :: rr => (-1, rr)
            | '+' :: rr => (1, rr)
            | rr => (1, rr)
          let eds := er.2.takeWhile (fun c => c ∈ digits)
          if eds = [] then 0 else er.1 * (digitsToNat eds : Int)
        else 0
      | [] => 0
    .ok (sr.1 * mant * (10 : ℚ) ^ expo)

/-- `CreateStructGEP(structTypeDef, ptr, idx)`: field address inside a
struct; LLVM asserts a pointer operand and an in-range field index. -/
def createStructGEP (fields : List LTy) (ptrv : Value) (idx : Nat) : EngM Value := do
  if ¬ ptrv.ty.isPointerTy then throwE "CreateStructGEP on a non-pointer (LLVM assertion)"
  else if idx ≥ fields.length then throwE "CreateStructGEP index out of range (LLVM assertion)"
  else do
    let id ← freshId
    emit (.gep id fields ptrv idx)
    pure (.inst id (.ptr (fields.getD idx .voidT)))

/-- Placeholder node for list accesses that the C++ guards with length
checks; never observed. -/
def dummyNode : EdnNode := .mk .EdnNil 0 0 [] [] []

/-- `Engine::codegenInt`.  `ConstantInt::get` asserts an integer type and
truncates the `int` coming out of `std::stoi` to the type width. -/
def codegenInt (node : EdnNode) : EngM Value := do
  match lookupA "type".toList node.metadata with
  | some typeStr => do
      let lty ← liftE (getLLVMType typeStr)
      let n ← liftE (stoiM node.value)
      match lty with
      | .int w => EngM.pure (.cint w (signedWrap w n))
      | _ => throwE "ConstantInt::get on a non-integer type (LLVM assertion)"
  | none => do
      let n ← liftE (stoiM node.value)
      EngM.pure (.cint 32 (signedWrap 32 n))

/-- `Engine::codegenFloat`. -/
def codegenFloat (node : EdnNode) : EngM Value := do
  match lookupA "type".toList node.metadata with
  | some ts =>
      if ts = "float32".toList then do
        let q ← liftE (stodM node.value)
        EngM.pure (.cfp .f32 q)
      else if ts = "float64".toList then do
        let q ← liftE (stodM node.value)
        EngM.pure (.cfp .f64 q)
      else throwE ("Unknown float type: " ++ ts.asString)
  | none => do
      let q ← liftE (stodM node.value)
      EngM.pure (.cfp .f64 q)

/-- `Engine::codegenSymbol`: the reserved truthy literal `else`, otherwise
a load from the storage slot with the declared type. -/
def codegenSymbol (node : EdnNode) : EngM Value := do
  if node.value = "else".toList then EngM.pure (.cint 32 1)
  else do
    let s ← getS
    match lookupA node.value s.llvmSymbolTable with
    | none => throwE ("Unknown variable: " ++ node.value.asString)
    | some (slot, typeStr) => do
        let varType ← liftE (getLLVMType typeStr)
        createLoad varType slot

/-- `Engine::codegenReference`: `(ref sym)` yields the storage slot. -/
def codegenReference (node : EdnNode) : EngM Value := do
  if node.values.length ≠ 2 then throwE "Reference operator expects one argument"
  else
    match node.values with
    | [_, targetNode] =>
      if targetNode.type ≠ .EdnSymbol then throwE "Reference operator expects a symbol argument"
      else do
        let s ← getS
        match lookupA targetNode.value s.llvmSymbolTable with
        | none => throwE ("Unknown variable for reference: " ++ targetNode.value.asString)
        | some (slot, _) => EngM.pure slot
    | _ => throwE "Reference operator expects one argument"

/-- The argument list parse of `Engine::codegenDefn`: `(name :type)` pairs
or bare symbols typed `int32`. -/
def parseDefnArgs : List EdnNode → Except String (List (List Char × List Char))
  | [] => .ok []
  | arg :: rest => do
    let p ←
      (match arg.values with
       | [a, b] =>
         if arg.type = .EdnList ∧ a.type = .EdnSymbol ∧ b.type = .EdnKeyword then
           Except.ok (a.value, b.value.drop 1)
         else if arg.type = .EdnSymbol then Except.ok (arg.value, "int32".toList)
         else Except.error "defn: all arguments must be symbols or (name :type)"
       | _ =>
         if arg.type = .EdnSymbol then Except.ok (arg.value, "int32".toList)
         else Except.error "defn: all arguments must be symbols or (name :type)")
    let ps ← parseDefnArgs rest
    .ok (p :: ps)

/-- `Engine::codegenDefn`: record the function and its return type; no
value is produced. -/
def codegenDefn (node : EdnNode) : EngM (Option Value) := do
  if node.values.length < 5 then
    throwE "defn requires a return type, name, arg list, and body"
  else
    match node.values with
    | _ :: retTypeNode :: nameNode :: argsNode :: bodyRest =>
      if retTypeNode.type ≠ .EdnKeyword then throwE "defn: first argument must be return type keyword"
      else if nameNode.type ≠ .EdnSymbol then throwE "defn: function name must be a symbol"
      else if argsNode.type ≠ .EdnList then throwE "defn: argument list must be a list"
      else do
        let retType := retTypeNode.value.drop 1
        let args ← liftE (parseDefnArgs argsNode.values)
        modifyS (fun s =>
          { s with yeetFunctionTable := insertA nameNode.value (args, bodyRest) s.yeetFunctionTable,
                   yeetFunctionReturnTypes := insertA nameNode.value retType s.yeetFunctionReturnTypes })
        EngM.pure none
    | _ => throwE "defn requires a return type, name, arg list, and body"

/-- `Engine::defineStructType`: redefinition is fatal; the field list is
recorded in `yeetStructTable` before the LLVM field types are resolved
(so a bad field type leaves the entry behind in C++ — unobservable, since
the compile aborts). -/
def defineStructType (name : List Char) (fields : List (List Char × List Char)) : EngM Unit := do
  let s ← getS
  if (lookupA name s.llvmStructTypes).isSome then
    throwE ("Struct type already defined: " ++ name.asString)
  else do
    modifyS (fun s => { s with yeetStructTable := insertA name fields s.yeetStructTable })
    let llvmFields ← liftE (fields.mapM (fun f => getLLVMType f.2))
    modifyS (fun s => { s with llvmStructTypes := insertA name llvmFields s.llvmStructTypes })

/-- The field list parse of the `struct` special form in
`Engine::codegenList`. -/
def parseStructFields : List EdnNode → Except String (List (List Char × List Char))
  | [] => .ok []
  | field :: rest =>
    match field.values with
    | [a, b] =>
      if field.type = .EdnList ∧ a.type = .EdnSymbol ∧ b.type = .EdnKeyword then do
        let ps ← parseStructFields rest
        .ok ((a.value, b.value.drop 1) :: ps)
      else .error "struct: each field must be (name :type)"
    | _ => .error "struct: each field must be (name :type)"

/-- The `struct` branch of `Engine::codegenList`. -/
def codegenStructDef (node : EdnNode) : EngM (Option Value) := do
  if node.values.length ≠ 3 then throwE "struct requires a name and a field list"
  else
    match node.values with
    | [_, nameNode, fieldsNode] =>
      if nameNode.type ≠ .EdnSymbol then throwE "struct: name must be a symbol"
      else if fieldsNode.type ≠ .EdnList then throwE "struct: fields must be a list"
      else do
        let fields ← liftE (parseStructFields fieldsNode.values)
        defineStructType nameNode.value fields
        EngM.pure none
    | _ => throwE "struct requires a name and a field list"

/-- `Engine::codegenStructAccess`: `(. target :field)` locates the field
and loads it with the declared field type. -/
def codegenStructAccess (node : EdnNode) : EngM Value := do
  if node.values.length ≠ 3 then throwE "Struct field access must be of form (. target :field)"
  else
    match node.values with
    | [dotNode, structTargetNode, fieldNode] =>
      if ¬ (dotNode.type = .EdnSymbol ∧ dotNode.value = ".".toList) then
        throwE "Struct field access must start with a dot"
      else if structTargetNode.type ≠ .EdnSymbol then
        throwE "Struct field access target must be a symbol"
      else if fieldNode.type ≠ .EdnKeyword then
        throwE "Struct field must be a keyword"
      else do
        let s ← getS
        match lookupA structTargetNode.value s.llvmSymbolTable with
        | none => throwE ("Struct target not defined: " ++ structTargetNode.value.asString)
        | some (structPtr, structName) =>
          let fieldName := fieldNode.value.drop 1
          match lookupA structName s.yeetStructTable with
          | none => throwE ("Struct not defined: " ++ structName.asString)
          | some yeetFields =>
            match lookupA structName s.llvmStructTypes with
            | none => throwE ("Struct type not defined: " ++ structName.asString)
            | some llvmFields =>
              match yeetFields.findIdx? (fun p => p.1 == fieldName) with
              | none => throwE ("Field not a member of struct: " ++ fieldName.asString)
              | some i => do
                let fieldType := (yeetFields.getD i ([], [])).2
                let g ← createStructGEP llvmFields structPtr i
                let lty ← liftE (getLLVMType fieldType)
                createLoad lty g
    | _ => throwE "Struct field access must be of form (. target :field)"

/-- The parameter-binding loop at the start of a lazy function emission in
`Engine::codegenCall`: pointer parameters are bound to the incoming
argument value directly, every other parameter is copied into a fresh
stack slot.  Bindings go into the single global symbol table (the
documented scoping leak of the source). -/
def bindParams : List (List Char × List Char) → List LTy → EngM Unit
  | [], _ => EngM.pure ()
  | (an, ats) :: restA, ty :: restT => do
      let argId ← freshId
      if ty.isPointerTy then
        modifyS (fun s =>
          { s with llvmSymbolTable := insertA an (Value.inst argId ty, ats) s.llvmSymbolTable })
      else do
        let slot ← createAlloca ty an
        let _ ← createStore (Value.inst argId ty) slot
        modifyS (fun s =>
          { s with llvmSymbolTable := insertA an (slot, ats) s.llvmSymbolTable })
      bindParams restA restT
  | _ :: _, [] => throwE "unreachable: parameter/type count mismatch"

/-- The ten binary operators of `Engine::codegenList`. -/
def isBinop (op : List Char) : Bool :=
  op == "+".toList || op == "-".toList || op == "*".toList || op == "/".toList ||
  op == "==".toList || op == "!=".toList || op == "<".toList || op == "<=".toList ||
  op == ">".toList || op == ">=".toList

end Engine

namespace Engine

open Edn

/-- `CreateSDiv`: signed division; LLVM truncates toward zero.  A constant
division by zero is emitted rather than folded (LLVM folds it to a poison
value, which nothing here inspects). -/
def createSDiv (a b : Value) : EngM Value := do
  if a.ty ≠ b.ty ∨ ¬ a.ty.isIntegerTy then
    throwE "integer binop operand type mismatch (LLVM assertion)"
  else
    match a, b with
    | .cint w m, .cint _ n =>
      if n = 0 then do
        let id ← freshId
        emit (.arith id "sdiv" a b)
        pure (.inst id a.ty)
      else pure (.cint w (signedWrap w (Int.tdiv m n)))
    | _, _ => do
      let id ← freshId
      emit (.arith id "sdiv" a b)
      pure (.inst id a.ty)

/-- `CreateFDiv`: a constant division by zero is emitted rather than folded
(IEEE would give an infinity, which the rational model cannot express). -/
def createFDiv (a b : Value) : EngM Value := do
  if a.ty ≠ b.ty ∨ ¬ a.ty.isFloatingPointTy then
    throwE "float binop operand type mismatch (LLVM assertion)"
  else
    match a, b with
    | .cfp t p, .cfp _ q =>
      if q = 0 then do
        let id ← freshId
        emit (.arith id "fdiv" a b)
        pure (.inst id a.ty)
      else pure (.cfp t (p / q))
    | _, _ => do
      let id ← freshId
      emit (.arith id "fdiv" a b)
      pure (.inst id a.ty)

/-- The field-store loop of `Engine::codegenAssignStruct` (GEP each field
index in declaration order and store the collected value). -/
def storeFields (fields : List LTy) (ptrv : Value) :
    List (Option Value) → Nat → EngM Unit
  | [], _ => EngM.pure ()
  | v :: rest, i => do
      let g ← createStructGEP fields ptrv i
      let vv ← need v
      let _ ← createStore vv g
      storeFields fields ptrv rest (i + 1)

/-- The operand type inference of `codegenBinop` (the `lhsType`/`rhsType`
computation, written once here where the C++ repeats it for each side): a
`Symbol` operand adopts its bound declared type when present, a `Float`
literal is `float64`, anything else (including an unbound symbol such as
`else`) is `int32`. -/
def binopOperandType (n : EdnNode) (symtab : List (List Char × (Value × List Char))) :
    List Char :=
  if n.type = .EdnSymbol then
    match lookupA n.value symtab with
    | some (_, ts) => ts
    | none => "int32".toList
  else if n.type = .EdnFloat then "float64".toList
  else "int32".toList

/-- The four arithmetic operators among the binary operators. -/
def isArithOp (op : List Char) : Bool :=
  op == "+".toList || op == "-".toList || op == "*".toList || op == "/".toList

/-- The six comparison operators among the binary operators. -/
def isCmpOp (op : List Char) : Bool :=
  op == "==".toList || op == "!=".toList || op == "<".toList ||
  op == "<=".toList || op == ">".toList || op == ">=".toList

/-- The set of type tags `getLLVMType` resolves: the star-closure of the
primitive tags (claim C9 reads "a pointer-suffixed primitive" this way;
registered struct names are NOT resolved by `getLLVMType`, which is
consistent with the claim since it only asserts which tags must error). -/
def primTagCheck (r : List Char) : Bool :=
  let ts := r.reverse
  ts == "int8".toList || ts == "int16".toList || ts == "int32".toList ||
  ts == "int64".toList || ts == "float32".toList || ts == "float64".toList ||
  ts == "void".toList

def primStarRev : List Char → Bool
  | [] => primTagCheck []
  | c :: rest => if c = '*' then primStarRev rest else primTagCheck (c :: rest)

def primStarClosure (ts : List Char) : Bool :=
  primStarRev ts.reverse

/-- The operator dispatch tail of `Engine::codegenBinop` in the integer
case (both value operands already promoted to the common width): the
`if/else if` chain on the operator text, written once here as a named
function. -/
def intBinopOps (op : List Char) (lhs rhs : Value) : EngM Value :=
  if op = "==".toList then createICmp "eq" (fun m n => m == n) lhs rhs
  else if op = "!=".toList then createICmp "ne" (fun m n => m != n) lhs rhs
  else if op = "<".toList then createICmp "slt" (fun m n => decide (m < n)) lhs rhs
  else if op = "<=".toList then createICmp "sle" (fun m n => decide (m ≤ n)) lhs rhs
  else if op = ">".toList then createICmp "sgt" (fun m n => decide (m > n)) lhs rhs
  else if op = ">=".toList then createICmp "sge" (fun m n => decide (m ≥ n)) lhs rhs
  else if op = "+".toList then createIntArith "add" lhs rhs (some (· + ·))
  else if op = "-".toList then createIntArith "sub" lhs rhs (some (· - ·))
  else if op = "*".toList then createIntArith "mul" lhs rhs (some (· * ·))
  else if op = "/".toList then createSDiv lhs rhs
  else throwE ("Unknown operator: " ++ op.asString)

/-- The operator dispatch tail of `Engine::codegenBinop` in the floating
case (the operands already converted as the float path prescribes): each
comparison result is wrapped in `CreateUIToFP` to `double`. -/
def floatBinopOps (op : List Char) (lhs rhs : Value) : EngM Value :=
  if op = "==".toList then do
    let c ← createFCmp "ueq" (fun p q => p == q) lhs rhs
    createUIToFP c .f64
  else if op = "!=".toList then do
    let c ← createFCmp "une" (fun p q => p != q) lhs rhs
    createUIToFP c .f64
  else if op = "<".toList then do
    let c ← createFCmp "ult" (fun p q => decide (p < q)) lhs rhs
    createUIToFP c .f64
  else if op = "<=".toList then do
    let c ← createFCmp "ule" (fun p q => decide (p ≤ q)) lhs rhs
    createUIToFP c .f64
  else if op = ">".toList then do
    let c ← createFCmp "ugt" (fun p q => decide (p > q)) lhs rhs
    createUIToFP c .f64
  else if op = ">=".toList then do
    let c ← createFCmp "uge" (fun p q => decide (p ≥ q)) lhs rhs
    createUIToFP c .f64
  else if op = "+".toList then createFloatArith "fadd" lhs rhs (some (· + ·))
  else if op = "-".toList then createFloatArith "fsub" lhs rhs (some (· - ·))
  else if op = "*".toList then createFloatArith "fmul" lhs rhs (some (· * ·))
  else if op = "/".toList then createFDiv lhs rhs
  else throwE ("Unknown operator: " ++ op.asString)

mutual

/-- `Engine::codegenExpr`: the main dispatcher.  All recursion is fuelled;
every entry point supplies ample fuel and every theorem below quantifies
over it or fixes a concrete sufficient amount. -/
def codegenExpr (fuel : Nat) (node : EdnNode) : EngM (Option Value) :=
  match fuel with
  | 0 => throwE "out of fuel"
  | fuel + 1 =>
    match node.type with
    | .EdnInt => some <$> codegenInt node
    | .EdnFloat => some <$> codegenFloat node
    | .EdnSymbol => some <$> codegenSymbol node
    | .EdnList => codegenList fuel node
    | _ => throwE "Unsupported expression"

/-- `Engine::codegenList`: sequence detection, then special-form and
operator dispatch on the head symbol. -/
def codegenList (fuel : Nat) (node : EdnNode) : EngM (Option Value) :=
  match fuel with
  | 0 => throwE "out of fuel"
  | fuel + 1 =>
    let allAreLists := node.values.all (fun v =>
      v.type == .EdnList || v.type == .EdnInt || v.type == .EdnSymbol || v.type == .EdnFloat)
    if allAreLists ∧ node.values.length > 1 ∧ (node.values.headD dummyNode).type = .EdnList then
      codegenSeq fuel node.values none
    else
      match node.values with
      | [] => throwE "operator position of an empty list (C++ UB: front() of an empty list)"
      | opNode :: _ =>
        if opNode.type ≠ .EdnSymbol then throwE "Expected operator symbol"
        else
          let op := opNode.value
          if op = ".".toList then some <$> codegenStructAccess node
          else if op = "ref".toList then some <$> codegenReference node
          else if op = "deref".toList then some <$> codegenDereference fuel node
          else if op = "defn".toList then codegenDefn node
          else if op = "cond".toList then some <$> codegenCond fuel node
          else if op = "=".toList then some <$> codegenAssign fuel node
          else if op = "put".toList then some <$> codegenAssignPointer fuel node
          else if op = "while".toList then some <$> codegenWhile fuel node
          else if op = "struct".toList then codegenStructDef node
          else if isBinop op then some <$> codegenBinop fuel node
          else do
            let s ← getS
            if (lookupA op s.yeetFunctionTable).isSome then some <$> codegenCall fuel node
            else throwE ("Unknown operator: " ++ op.asString)

/-- The sequence loop shared by the sequence branch of `codegenList` and
the body emission of `codegenCall`: lower each node in order, keep the last
value. -/
def codegenSeq (fuel : Nat) (nodes : List EdnNode) (acc : Option Value) :
    EngM (Option Value) :=
  match fuel with
  | 0 => throwE "out of fuel"
  | fuel + 1 =>
    match nodes with
    | [] => EngM.pure acc
    | n :: rest => do
        let v ← codegenExpr fuel n
        codegenSeq fuel rest v

/-- The field-value collection loop of `codegenAssignStruct` (all field
expressions are lowered before any store). -/
def codegenOptList (fuel : Nat) (nodes : List EdnNode) : EngM (List (Option Value)) :=
  match fuel with
  | 0 => throwE "out of fuel"
  | fuel + 1 =>
    match nodes with
    | [] => EngM.pure []
    | n :: rest => do
        let v ← codegenExpr fuel n
        let vs ← codegenOptList fuel rest
        EngM.pure (v :: vs)

/-- `Engine::codegenAssign`: dispatch on child count and target shape. -/
def codegenAssign (fuel : Nat) (node : EdnNode) : EngM Value :=
  match fuel with
  | 0 => throwE "out of fuel"
  | fuel + 1 =>
    if node.values.length < 3 then throwE "Expected target and value"
    else if node.values.length = 3 then
      match node.values with
      | _ :: target :: _ =>
        if target.type = .EdnSymbol then codegenAssignStruct fuel node
        else if target.type = .EdnList then codegenAssignStructField fuel node
        else throwE "Assignment target must be a symbol or field access"
      | _ => throwE "Assignment target must be a symbol or field access"
    else if node.values.length = 4 then codegenAssignLiteral fuel node
    else throwE "Assignment target must be a symbol or field access"

/-- `Engine::codegenAssignStruct`: `(= target (StructName (v1 v2 ...)))`. -/
def codegenAssignStruct (fuel : Nat) (node : EdnNode) : EngM Value :=
  match fuel with
  | 0 => throwE "out of fuel"
  | fuel + 1 =>
    match node.values with
    | [_, targetNode, structDecl] =>
      if targetNode.type ≠ .EdnSymbol then
        throwE "Expected Struct assignment target to be a symbol"
      else if ¬ (structDecl.type = .EdnList ∧ structDecl.values.length ≥ 2) then
        throwE "Expected Struct assignment to be of form (StructName (Field1 Field2 ...))"
      else
        match structDecl.values with
        | structName :: fieldsNode :: _ =>
          if structName.type ≠ .EdnSymbol then throwE "Expected Struct name to be a symbol"
          else do
            let s ← getS
            if (lookupA structName.value s.llvmStructTypes).isNone then
              throwE ("Struct type not defined: " ++ structName.value.asString)
            else if fieldsNode.type ≠ .EdnList then throwE "Expected Struct fields"
            else do
              let fieldValues ← codegenOptList fuel fieldsNode.values
              let s2 ← getS
              let structFields := (lookupA structName.value s2.llvmStructTypes).getD []
              let structPtr ← createAlloca (.structT structName.value) targetNode.value
              storeFields structFields structPtr fieldValues 0
              modifyS (fun s =>
                { s with llvmSymbolTable :=
                    insertA targetNode.value (structPtr, structName.value) s.llvmSymbolTable })
              EngM.pure structPtr
        | _ => throwE "Expected Struct assignment to be of form (StructName (Field1 Field2 ...))"
    | _ => throwE "Expected Struct assignment target to be a symbol"

/-- `Engine::codegenAssignStructField`: `(= (. target :field) value)`;
returns the `CreateStore` result exactly as the source does. -/
def codegenAssignStructField (fuel : Nat) (node : EdnNode) : EngM Value :=
  match fuel with
  | 0 => throwE "out of fuel"
  | fuel + 1 =>
    match node.values with
    | [_, targetFieldNode, valueNode] =>
      if ¬ (targetFieldNode.type = .EdnList ∧ targetFieldNode.values.length = 3) then
        throwE "Expected Struct field assignment to be of form (= (. target :field) value)"
      else
        match targetFieldNode.values with
        | [dotNode, structTargetNode, fieldNode] =>
          if ¬ (dotNode.type = .EdnSymbol ∧ dotNode.value = ".".toList) then
            throwE "Expected Struct field access to start with a dot"
          else if structTargetNode.type ≠ .EdnSymbol then
            throwE "Expected Struct field access target to be a symbol"
          else if fieldNode.type ≠ .EdnKeyword then
            throwE "Expected Struct field to be a keyword"
          else do
            let s ← getS
            match lookupA structTargetNode.value s.llvmSymbolTable with
            | none => throwE ("Struct target not defined: " ++ structTargetNode.value.asString)
            | some (structPtr, structName) =>
              let fieldName := fieldNode.value.drop 1
              match lookupA structName s.yeetStructTable with
              | none => throwE ("Struct not defined: " ++ structName.asString)
              | some yeetFields =>
                match lookupA structName s.llvmStructTypes with
                | none => throwE ("Struct type not defined: " ++ structName.asString)
                | some llvmFields =>
                  match yeetFields.findIdx? (fun p => p.1 == fieldName) with
                  | none => throwE ("Field not a member of struct: " ++ fieldName.asString)
                  | some fieldIdx => do
                    let fieldType := (yeetFields.getD fieldIdx ([], [])).2
                    let valueO ← codegenExpr fuel valueNode
                    let value ← need valueO
                    let expectedTy ← liftE (getLLVMType fieldType)
                    if value.ty ≠ expectedTy then
                      throwE ("Value type mismatch for field: " ++ fieldName.asString)
                    else do
                      let g ← createStructGEP llvmFields structPtr fieldIdx
                      createStore value g
        | _ => throwE "Expected Struct field assignment to be of form (= (. target :field) value)"
    | _ => throwE "Expected Struct field assignment to be of form (= (. target :field) value)"

/-- `Engine::codegenAssignLiteral`: `(= target :type value)`, where the
declared type is propagated into literal metadata, the slot is created on
first assignment, and a list target is an lvalue expression that must lower
to a pointer. -/
def codegenAssignLiteral (fuel : Nat) (node : EdnNode) : EngM Value :=
  match fuel with
  | 0 => throwE "out of fuel"
  | fuel + 1 =>
    match node.values with
    | [_, targetNode, typeNode, valueNode] =>
      if typeNode.type ≠ .EdnKeyword then throwE "Expected type keyword"
      else do
        let typeStr := typeNode.value.drop 1
        let valueO ←
          if valueNode.type = .EdnInt ∨ valueNode.type = .EdnFloat then
            codegenExpr fuel
              (EdnNode.mk valueNode.type valueNode.line valueNode.column valueNode.value
                valueNode.values (insertA "type".toList typeStr valueNode.metadata))
          else if valueNode.type = .EdnSymbol then some <$> codegenSymbol valueNode
          else if valueNode.type = .EdnList then codegenList fuel valueNode
          else throwE "Expected value to be an int, float, symbol, or list."
        let llvmType ← liftE (getLLVMType typeStr)
        if targetNode.type = .EdnSymbol then do
          let value ← need valueO
          let s ← getS
          match lookupA targetNode.value s.llvmSymbolTable with
          | none => do
              let p ← createAlloca llvmType targetNode.value
              modifyS (fun s =>
                { s with llvmSymbolTable := insertA targetNode.value (p, typeStr) s.llvmSymbolTable })
              let _ ← createStore value p
              EngM.pure value
          | some (p, _) => do
              let _ ← createStore value p
              EngM.pure value
        else if targetNode.type = .EdnList then do
          let pO ← codegenList fuel targetNode
          match pO with
          | none => throwE "Assignment target list did not produce a pointer"
          | some p =>
            if ¬ p.ty.isPointerTy then throwE "Assignment target list did not produce a pointer"
            else do
              let value ← need valueO
              let _ ← createStore value p
              EngM.pure value
        else throwE "Assignment target must be a symbol or lvalue expression (list)"
    | _ => throwE "Expected type keyword"

/-- `Engine::codegenAssignPointer`: `(put target :type value)`. -/
def codegenAssignPointer (fuel : Nat) (node : EdnNode) : EngM Value :=
  match fuel with
  | 0 => throwE "out of fuel"
  | fuel + 1 =>
    if node.values.length ≠ 4 then throwE "put expects target, type, and value"
    else
      match node.values with
      | [_, targetNode, typeNode, valueNode] =>
        if typeNode.type ≠ .EdnKeyword then throwE "put expects type keyword"
        else do
          let typeStr := typeNode.value.drop 1
          let valueO ←
            if valueNode.type = .EdnInt ∨ valueNode.type = .EdnFloat then
              codegenExpr fuel
                (EdnNode.mk valueNode.type valueNode.line valueNode.column valueNode.value
                  valueNode.values (insertA "type".toList typeStr valueNode.metadata))
            else if valueNode.type = .EdnSymbol then some <$> codegenSymbol valueNode
            else if valueNode.type = .EdnList then codegenList fuel valueNode
            else throwE "put expects value to be int, float, symbol, or list"
          let _llvmType ← liftE (getLLVMType typeStr)
          if targetNode.type = .EdnSymbol then do
            let s ← getS
            match lookupA targetNode.value s.llvmSymbolTable with
            | none => throwE ("Unknown variable for pointer assignment: " ++ targetNode.value.asString)
            | some (p, tys2) => do
                let ty2 ← liftE (getLLVMType tys2)
                if ¬ ty2.isPointerTy then
                  throwE ("Variable " ++ targetNode.value.asString ++ " is not a pointer type")
                else do
                  let value ← need valueO
                  let _ ← createStore value p
                  EngM.pure value
          else if targetNode.type = .EdnList then do
            let pO ← codegenList fuel targetNode
            match pO with
            | none => throwE "put target did not produce a pointer"
            | some p =>
              if ¬ p.ty.isPointerTy then throwE "put target did not produce a pointer"
              else do
                let value ← need valueO
                let _ ← createStore value p
                EngM.pure value
          else throwE "put target must be a symbol or lvalue expression (list)"
      | _ => throwE "put expects target, type, and value"

/-- `Engine::codegenDereference`: `(deref p)`; the pointee type comes from
the declared type with one `*` stripped (symbol case), node metadata, or
defaults to `int32`. -/
def codegenDereference (fuel : Nat) (node : EdnNode) : EngM Value :=
  match fuel with
  | 0 => throwE "out of fuel"
  | fuel + 1 =>
    if node.values.length ≠ 2 then throwE "Dereference operator expects one argument"
    else
      match node.values with
      | [_, pointerNode] =>
        if pointerNode.type = .EdnSymbol then do
          let s ← getS
          match lookupA pointerNode.value s.llvmSymbolTable with
          | none => throwE ("Unknown pointer variable: " ++ pointerNode.value.asString)
          | some (pv, tys) => do
              let tys2 := if tys ≠ [] ∧ tys.getLastD ' ' = '*' then tys.dropLast else tys
              let pointee ← liftE (getLLVMType tys2)
              if ¬ pv.ty.isPointerTy then throwE "Dereference operator expects a pointer argument"
              else createLoad pointee pv
        else do
          let pvO ← codegenExpr fuel pointerNode
          let pointee ←
            match lookupA "type".toList pointerNode.metadata with
            | some ts => liftE (getLLVMType ts)
            | none => EngM.pure (LTy.int 32)
          let pv ← need pvO
          if ¬ pv.ty.isPointerTy then throwE "Dereference operator expects a pointer argument"
          else createLoad pointee pv
      | _ => throwE "Dereference operator expects one argument"

/-- `Engine::codegenCall`: lazy first-call emission of the recorded
function body, then a call with argument coercions. -/
def codegenCall (fuel : Nat) (node : EdnNode) : EngM Value :=
  match fuel with
  | 0 => throwE "out of fuel"
  | fuel + 1 =>
    match node.values with
    | [] => throwE "operator position of an empty list (C++ UB: front() of an empty list)"
    | opNode :: argNodes => do
      let s ← getS
      match lookupA opNode.value s.yeetFunctionTable with
      | none => throwE ("Unknown function: " ++ opNode.value.asString)
      | some (args, body) =>
        if argNodes.length ≠ args.length then throwE "Function argument count mismatch"
        else do
          let retType := (lookupA opNode.value s.yeetFunctionReturnTypes).getD "double".toList
          let llvmRetType ← liftE (getLLVMType retType)
          let argTypes ← liftE (args.mapM (fun a => getLLVMType a.2))
          let s1 ← getS
          if (s1.moduleFuncs.find? (fun p => p.1 == opNode.value)).isNone then do
            emitFunctionPhase fuel opNode.value args body retType llvmRetType argTypes
            setInsertPoint s1.curFunc s1.curBlock
          else EngM.pure ()
          let callArgs ← codegenCallArgs fuel argNodes argTypes
          createCall opNode.value llvmRetType callArgs

/-- The `if (!func)` block of `Engine::codegenCall` (`Function::Create`
through `CreateRet`): record the function in the module and the emission
log, then lower its code.  The record is appended FIRST, so any call site
reached while lowering the body already finds the function present. -/
def emitFunctionPhase (fuel : Nat) (name : List Char)
    (args : List (List Char × List Char)) (body : List EdnNode)
    (retType : List Char) (llvmRetType : LTy) (argTypes : List LTy) : EngM Unit :=
  match fuel with
  | 0 => throwE "out of fuel"
  | fuel + 1 => do
    modifyS (fun s =>
      { s with moduleFuncs := s.moduleFuncs ++ [(name, llvmRetType)],
               emissionLog := s.emissionLog ++ [name] })
    emitFunctionCode fuel name args body retType llvmRetType argTypes

/-- The code lowering of a lazily emitted function: entry block, parameter
binding, body, and the return with its result cast. -/
def emitFunctionCode (fuel : Nat) (name : List Char)
    (args : List (List Char × List Char)) (body : List EdnNode)
    (retType : List Char) (llvmRetType : LTy) (argTypes : List LTy) : EngM Unit :=
  match fuel with
  | 0 => throwE "out of fuel"
  | fuel + 1 => do
  let entry ← createBasicBlock
  setInsertPoint name entry
  bindParams args argTypes
  let result ← codegenSeq fuel body none
  if retType ≠ "void".toList then do
    let result2 ←
      match result with
      | some r =>
        if r.ty ≠ llvmRetType then
          if llvmRetType.isFloatingPointTy ∧ r.ty.isIntegerTy then
            some <$> createSIToFP r llvmRetType
          else if llvmRetType.isIntegerTy ∧ r.ty.isFloatingPointTy then
            some <$> createFPToSI r llvmRetType
          else if llvmRetType.isIntegerTy ∧ r.ty.isIntegerTy then
            some <$> createIntCast r llvmRetType
          else EngM.pure (some r)
        else EngM.pure (some r)
      | none => EngM.pure none
    createRet result2
  else
    createRet none

/-- The call-site argument loop of `Engine::codegenCall` with its
promotion casts. -/
def codegenCallArgs (fuel : Nat) (nodes : List EdnNode) (tys : List LTy) :
    EngM (List Value) :=
  match fuel with
  | 0 => throwE "out of fuel"
  | fuel + 1 =>
    match nodes, tys with
    | [], _ => EngM.pure []
    | n :: rest, expectedTy :: restT => do
        let vO ← codegenExpr fuel n
        let v ← need vO
        let v ←
          if expectedTy ≠ v.ty then
            if expectedTy.isFloatingPointTy ∧ v.ty.isIntegerTy then createSIToFP v expectedTy
            else if expectedTy.isIntegerTy ∧ v.ty.isFloatingPointTy then createFPToSI v expectedTy
            else if expectedTy.isIntegerTy ∧ v.ty.isIntegerTy then createIntCast v expectedTy
            else EngM.pure v
          else EngM.pure v
        let restV ← codegenCallArgs fuel rest restT
        EngM.pure (v :: restV)
    | _ :: _, [] => throwE "unreachable: argument/type count mismatch"

/-- `Engine::codegenWhile`: condition, body and after blocks; the loop
value is the double constant 0.0. -/
def codegenWhile (fuel : Nat) (node : EdnNode) : EngM Value :=
  match fuel with
  | 0 => throwE "out of fuel"
  | fuel + 1 =>
    if node.values.length ≠ 3 then throwE "while requires a test and a body"
    else
      match node.values with
      | [_, testNode, bodyNode] => do
        let condBB ← createBasicBlock
        let bodyBB ← createBasicBlock
        let afterBB ← createBasicBlock
        createBr condBB
        let s ← getS
        setInsertPoint s.curFunc condBB
        let condO ← codegenExpr fuel testNode
        let condV ← need condO
        let condV2 ←
          if condV.ty.isFloatingPointTy then
            createFCmp "one" (fun p q => p != q) condV (.cfp condV.ty 0)
          else
            match condV.ty with
            | .int w => createICmp "ne" (fun m n => m != n) condV (.cint w 0)
            | _ => throwE "ConstantInt::get on a non-integer type (LLVM assertion)"
        createCondBr condV2 bodyBB afterBB
        setInsertPoint s.curFunc bodyBB
        let _ ← codegenExpr fuel bodyNode
        createBr condBB
        setInsertPoint s.curFunc afterBB
        EngM.pure (.cfp .f64 0)
      | _ => throwE "while requires a test and a body"

/-- `Engine::codegenCond`: chained dispatch blocks, one clause block per
reachable clause, and a double-typed phi in the join block. -/
def codegenCond (fuel : Nat) (node : EdnNode) : EngM Value :=
  match fuel with
  | 0 => throwE "out of fuel"
  | fuel + 1 =>
    if node.values.length < 2 then throwE "cond requires at least one clause"
    else do
      let afterBB ← createBasicBlock
      let s ← getS
      let entries ← condDispatch fuel (node.values.drop 1) s.curBlock
      let incomings ← condFill fuel entries afterBB
      let s2 ← getS
      setInsertPoint s2.curFunc afterBB
      createPhi .f64 incomings

/-- The dispatch loop of `codegenCond`: each clause gets a clause block; a
one-child clause, an `else` test, or the final clause is branched to
unconditionally and terminates the chain, every other clause is entered by
a conditional branch on its lowered test. -/
def condDispatch (fuel : Nat) (clauses : List EdnNode) (dispatchBB : Nat) :
    EngM (List (EdnNode × Nat)) :=
  match fuel with
  | 0 => throwE "out of fuel"
  | fuel + 1 =>
    match clauses with
    | [] => EngM.pure []
    | clause :: rest => do
        let clauseBB ← createBasicBlock
        let s ← getS
        setInsertPoint s.curFunc dispatchBB
        let testVal? ←
          if clause.values.length = 2 then do
            let tv ← codegenExpr fuel (clause.values.headD dummyNode)
            EngM.pure (some tv)
          else EngM.pure none
        let isElse := clause.values.length = 2 ∧
          (clause.values.headD dummyNode).type = .EdnSymbol ∧
          (clause.values.headD dummyNode).value = "else".toList
        if clause.values.length = 1 ∨ isElse ∨ rest.length = 0 then do
          createBr clauseBB
          EngM.pure [(clause, clauseBB)]
        else do
          let nextBB ← createBasicBlock
          match testVal? with
          | none => throwE "cond: conditional branch on a missing test value (C++ UB)"
          | some none => throwE "cond: conditional branch on a null test value (C++ UB)"
          | some (some tv) => do
              createCondBr tv clauseBB nextBB
              let restEntries ← condDispatch fuel rest nextBB
              EngM.pure ((clause, clauseBB) :: restEntries)

/-- The fill loop of `codegenCond`: lower each dispatched clause value in
its clause block, coerce an integer (`CreateSIToFP`) or 32-bit float
(`CreateFPExt`) to double, branch to the join block, and collect the phi
incomings. -/
def condFill (fuel : Nat) (entries : List (EdnNode × Nat)) (afterBB : Nat) :
    EngM (List (Value × Nat)) :=
  match fuel with
  | 0 => throwE "out of fuel"
  | fuel + 1 =>
    match entries with
    | [] => EngM.pure []
    | (clause, bb) :: rest => do
        let s ← getS
        setInsertPoint s.curFunc bb
        match clause.values.getLast? with
        | none => throwE "cond: empty clause (C++ UB: decrementing a begin iterator)"
        | some exprNode => do
            let vO ← codegenExpr fuel exprNode
            let v ← need vO
            let castVal ←
              if v.ty.isIntegerTy then createSIToFP v .f64
              else if v.ty.isFloatTy ∧ ¬ v.ty.isDoubleTy then createFPExt v .f64
              else EngM.pure v
            createBr afterBB
            let restInc ← condFill fuel rest afterBB
            EngM.pure ((castVal, bb) :: restInc)

/-- `Engine::codegenBinop`: infer operand type strings from the nodes and
the symbol table, promote (float64 if either side is floating, otherwise
the wider integer width), then emit the comparison or arithmetic
instruction; a floating comparison result is converted back to double. -/
def codegenBinop (fuel : Nat) (node : EdnNode) : EngM Value :=
  match fuel with
  | 0 => throwE "out of fuel"
  | fuel + 1 =>
    match node.values with
    | [opNode, aN, bN] => do
      let op := opNode.value
      let lhsO ← codegenExpr fuel aN
      let rhsO ← codegenExpr fuel bN
      let s ← getS
      let lhsType := binopOperandType aN s.llvmSymbolTable
      let rhsType := binopOperandType bN s.llvmSymbolTable
      let lhsTy0 ← liftE (getLLVMType lhsType)
      let rhsTy0 ← liftE (getLLVMType rhsType)
      let lhs0 ← need lhsO
      let rhs0 ← need rhsO
      let isFloatOp := lhsTy0.isFloatingPointTy || rhsTy0.isFloatingPointTy
      if isFloatOp = false then do
        let wl ← liftE lhsTy0.getIntegerBitWidth
        let wr ← liftE rhsTy0.getIntegerBitWidth
        let w := max wl wr
        let promoted ←
          if w = 8 ∨ w = 16 ∨ w = 32 ∨ w = 64 then EngM.pure (LTy.int w)
          else throwE "Unsupported integer bitwidth"
        let lhs ← if lhsTy0 ≠ promoted then createIntCast lhs0 promoted else EngM.pure lhs0
        let rhs ← if rhsTy0 ≠ promoted then createIntCast rhs0 promoted else EngM.pure rhs0
        intBinopOps op lhs rhs
      else do
        let lhs ← if lhsTy0.isFloatingPointTy = false then createSIToFP lhs0 .f64 else EngM.pure lhs0
        let rhs ← if rhsTy0.isFloatingPointTy = false then createSIToFP rhs0 .f64 else EngM.pure rhs0
        floatBinopOps op lhs rhs
    | _ :: _ => throwE "Expected two operands"
    | [] => throwE "operator position of an empty list (C++ UB: front() of an empty list)"

end

end Engine

namespace Engine

open Edn

/-- The engine state at the start of `Engine::run`: a fresh module holding
the synthetic entry function `calc` (`double calc()`), the builder placed
at its entry block, and cleared tables (a fresh `Engine` has all tables
empty; `run` additionally clears `llvmSymbolTable`). -/
def initEngState : EngState :=
  { nextId := 0, nextBlock := 1, curFunc := "calc".toList, curBlock := 0,
    instrs := [], moduleFuncs := [("calc".toList, .f64)], emissionLog := ["calc".toList],
    llvmSymbolTable := [], llvmStructTypes := [], yeetStructTable := [],
    yeetFunctionTable := [], yeetFunctionReturnTypes := [] }

/-- The body of `Engine::run` after parsing: lower the top-level node; a
non-null result is converted to double (`CreateSIToFP` when integer) and
returned; a null result falls back to calling `main` when the module has
one, else returning 0.0.  Yields the operand of the emitted `ret`. -/
def runEntry (fuel : Nat) (node : EdnNode) : EngM Value := do
  let result ← codegenExpr fuel node
  match result with
  | some r => do
      let r2 ← if r.ty.isIntegerTy then createSIToFP r .f64 else EngM.pure r
      createRet (some r2)
      EngM.pure r2
  | none => do
      let s ← getS
      match s.moduleFuncs.find? (fun p => p.1 == "main".toList) with
      | some (_, mainRetTy) => do
          let callResult ← createCall "main".toList mainRetTy []
          createRet (some callResult)
          EngM.pure callResult
      | none => do
          createRet (some (.cfp .f64 0))
          EngM.pure (.cfp .f64 0)

/-- `Engine::run` up to the module hand-off: read the source (only the
first top-level form, see `Edn.read`), build the entry function and lower
into it.  Returns the return operand of `calc` and the final engine
state. -/
def runModel (fuel : Nat) (cs : List Char) : Except String (Value × EngState) :=
  match Edn.read cs with
  | .error e => .error e
  | .ok node => runEntry fuel node initEngState

/-- The number printed as `JIT result:` on standard output, modelled for
the case where the return operand of `calc` is an LLVM constant (then the
JIT invocation returns exactly that constant).  The JIT layer itself is an
out-of-scope external collaborator per the spec; executing non-constant
entry IR is not modelled and yields an error here. -/
def reportedResult (fuel : Nat) (cs : List Char) : Except String ℚ :=
  match runModel fuel cs with
  | .error e => .error e
  | .ok (v, _) =>
    match v with
    | .cfp _ q => .ok q
    | _ => .error "entry result is not an LLVM constant; JIT execution is not modelled"

end Engine

namespace Edn

/-- The atom classification cascade of `handleAtom` restricted to `ATOM`
tokens (string tokens take the `EdnString` branch instead). -/
def atomClassify (v : List Char) : Option NodeType :=
  if validNil v then some .EdnNil
  else if validChar v then some .EdnChar
  else if validBool v then some .EdnBool
  else if validInt v then some .EdnInt
  else if validFloat v then some .EdnFloat
  else if validKeyword v then some .EdnKeyword
  else if validSymbol v then some .EdnSymbol
  else none

/-- Modelled from the spec: the integer grammar of §3 — "signed, optional
`N`/`M` suffix on integers": an optional sign, a nonempty digit run, an
optional single `N` or `M` suffix.  Used only to compare the reader
invariant of claim C10 against the code's `validInt`. -/
def specIntText (v : List Char) : Bool :=
  let s1 := if v.headD ' ' = '+' ∨ v.headD ' ' = '-' then v.tail else v
  let s2 := if s1.getLastD ' ' = 'N' ∨ s1.getLastD ' ' = 'M' then s1.dropLast else s1
  decide (s2 ≠ []) && s2.all (fun c => decide (c ∈ digits))

/-- A character that the lexer simply accumulates into the pending atom:
not a separator, not a quote, not the escape character, and not the
comment character (which would flip the comment flag). -/
def plainAtomChar (c : Char) : Prop :=
  ¬ isSepChar c ∧ c ≠ '"' ∧ c ≠ '\\' ∧ c ≠ ';'

instance (c : Char) : Decidable (plainAtomChar c) := by
  unfold plainAtomChar; infer_instance

/-- The pending-token shapes that trigger the early-emission rule of the
lexer (`#_` and two-character runs led by a backslash). -/
def badPending (q : List Char) : Prop :=
  q = ['#', '_'] ∨ (q.length = 2 ∧ q.headD ' ' = '\\')

instance (q : List Char) : Decidable (badPending q) := by
  unfold badPending; infer_instance

/-- The string texts whose quoted rendering survives the round trip: no
quote (replaced, not escaped, by `escapeQuotes`), no backslash (ditto), no
newline (a pending comment flag would swallow it); not the exact text
`nil` (which `handleAtom` reclassifies to `EdnNil` even for string
tokens); not a lone closing bracket (the parser compares every token's
VALUE against the expected closer, string tokens included); and not
starting with `#` (the parser's tagged-form test also looks only at the
value). -/
def goodStringText (v : List Char) : Prop :=
  v ≠ ['n','i','l'] ∧ (∀ c ∈ v, c ≠ '"' ∧ c ≠ '\\' ∧ c ≠ '\n') ∧
  v ≠ [')'] ∧ v ≠ [']'] ∧ v ≠ ['}'] ∧ v.headD ' ' ≠ '#'

instance (v : List Char) : Decidable (goodStringText v) := by
  unfold goodStringText; infer_instance

mutual

/-- The well-formedness invariant under which the reader's trees round-trip
through the single-line pretty printer (the hypotheses of the amended claim
C5): leaf texts are nonempty, classify back to their own kind, do not start
with `#` and contain no separator byte; strings satisfy `goodStringText`;
maps have evenly many children; tagged nodes carry a valid tag symbol not
starting with `_`; `Discard` nodes (which print as nothing) are excluded. -/
def wfNode (t : EdnNode) : Bool :=
  match t with
  | .mk ty _ _ v vs _ =>
    match ty with
    | .EdnNil | .EdnSymbol | .EdnKeyword | .EdnBool | .EdnInt | .EdnFloat =>
      decide (v ≠ []) && (atomClassify v == some ty) && decide (v.headD ' ' ≠ '#') &&
        v.all (fun c => decide (plainAtomChar c)) && vs.isEmpty
    | .EdnChar =>
      (atomClassify v == some .EdnChar) &&
        (match v with
         | ['\\', c] => decide (plainAtomChar c)
         | _ => false) && vs.isEmpty
    | .EdnString => decide (goodStringText v) && vs.isEmpty
    | .EdnList => decide (v = []) && wfList vs
    | .EdnVector => decide (v = []) && wfList vs
    | .EdnMap => decide (v = []) && decide (vs.length % 2 = 0) && wfList vs
    | .EdnSet => decide (v = []) && wfList vs
    | .EdnTagged =>
      match vs with
      | [tagN, payload] =>
        decide (v = []) && tagN.values.isEmpty && tagN.metadata.isEmpty &&
        (atomClassify tagN.value == some tagN.type) &&
        decide (validSymbol tagN.value) &&
        decide (tagN.value ≠ []) && decide (tagN.value ≠ ['_']) &&
        decide (tagN.value.headD ' ' ≠ '_') &&
        decide (tagN.value.headD ' ' ≠ '#') &&
        tagN.value.all (fun c => decide (plainAtomChar c)) &&
        wfNode payload
      | _ => false
    | .EdnDiscard => false

def wfList (ts : List EdnNode) : Bool :=
  match ts with
  | [] => true
  | t :: rest => wfNode t && wfList rest

end

/-- The `(type, value)` pair of a token — the only parts of a token the
parser's control flow inspects. -/
def tokShape (tk : EdnToken) : TokenType × List Char := (tk.type, tk.value)

/-- The flush of a pending atom text, at the token-shape level. -/
def flushShape (p : List Char) : List (TokenType × List Char) :=
  if p = [] then [] else [(.TokenAtom, p)]

mutual

/-- Token shapes EMITTED while lexing the single-line print of a node;
the trailing pending text (flushed only by a following separator or the
end of input) is `nodePend`. -/
def nodeToks : EdnNode → List (TokenType × List Char)
  | .mk t _ _ v vs _ =>
    if t = .EdnList then
      (.TokenParen, ['(']) :: bodyToks vs ++ flushShape (seqPend vs) ++ [(.TokenParen, [')'])]
    else if t = .EdnVector then
      (.TokenParen, ['[']) :: bodyToks vs ++ flushShape (seqPend vs) ++ [(.TokenParen, [']'])]
    else if t = .EdnMap then
      (.TokenParen, ['{']) :: bodyToks vs ++ flushShape (seqPend vs) ++ [(.TokenParen, ['}'])]
    else if t = .EdnSet then
      (.TokenAtom, ['#']) :: (.TokenParen, ['{']) :: bodyToks vs ++ flushShape (seqPend vs) ++
        [(.TokenParen, ['}'])]
    else if t = .EdnString then [(.TokenString, v)]
    else if t = .EdnTagged then
      match vs with
      | [tagN, payload] => (.TokenAtom, '#' :: tagN.value) :: nodeToks payload
      | _ => []
    else []

/-- The pending (unflushed) text after lexing the single-line print of a
node. -/
def nodePend : EdnNode → List Char
  | .mk t _ _ v vs _ =>
    if t = .EdnList ∨ t = .EdnVector ∨ t = .EdnMap ∨ t = .EdnSet ∨ t = .EdnString then []
    else if t = .EdnTagged then
      match vs with
      | [_, payload] => nodePend payload
      | _ => []
    else v

/-- Emitted token shapes of a space-separated child sequence: each child
but the last has its pending text flushed by the following space; the
last child's pending text (`seqPend`) is left for the closing bracket. -/
def bodyToks : List EdnNode → List (TokenType × List Char)
  | [] => []
  | [x] => nodeToks x
  | x :: rest => nodeToks x ++ flushShape (nodePend x) ++ bodyToks rest

/-- Pending text after a space-separated child sequence. -/
def seqPend : List EdnNode → List Char
  | [] => []
  | [x] => nodePend x
  | _ :: rest => seqPend rest

end

mutual

/-- The canonical single-line text of a node: what `pprint node ind false`
produces (for any `ind`; the indent only matters in multiline mode), with
well-formed strings printed verbatim (`escapeQuotes` is the identity on
`goodStringText` texts). -/
def canonText : EdnNode → List Char
  | .mk ty _ _ v vs _ =>
    if ty = .EdnList then '(' :: canonJoin vs ++ [')']
    else if ty = .EdnVector then '[' :: canonJoin vs ++ [']']
    else if ty = .EdnMap then '{' :: canonJoin vs ++ ['}']
    else if ty = .EdnSet then '#' :: '{' :: canonJoin vs ++ ['}']
    else if ty = .EdnString then '"' :: v ++ ['"']
    else if ty = .EdnTagged then
      match vs with
      | [tagN, payload] => '#' :: tagN.value ++ ' ' :: canonText payload
      | _ => ['#', ' ']
    else v

/-- The canonical single-line text of a space-separated child sequence. -/
def canonJoin : List EdnNode → List Char
  | [] => []
  | [x] => canonText x
  | x :: rest => canonText x ++ ' ' :: canonJoin rest

end

/-- Re-scanning the original source for the byte at a 1-based
`(line, column)` position — the notion of "points into the original
source" used by the positioning claim C4: byte 1 of a line is column 1,
and a newline byte terminates its line.  `sourceAtFrom` carries the
position of the head byte. -/
def sourceAtFrom : List Char → Nat → Nat → Nat → Nat → Option Char
  | [], _, _, _, _ => none
  | c :: cs, ln, cl, line, col =>
    if ln = line ∧ cl = col then some c
    else if c = '\n' then sourceAtFrom cs (ln + 1) 1 line col
    else sourceAtFrom cs ln (cl + 1) line col

/-- The source byte at 1-based `(line, column)`. -/
def sourceAt (cs : List Char) (line col : Nat) : Option Char :=
  sourceAtFrom cs 1 1 line col

end Edn

/-- The source text of the spec's §8 "arithmetic on variables" scenario. -/
def C1srcChars : List Char := "(= x :int32 10) (= y :int32 (+ x 5)) (+ x y)".toList

/-- The syntax tree `Edn::read` returns for `C1srcChars`: the first
top-level form only (see claim C2). -/
def C1node : Edn.EdnNode :=
  .mk .EdnList 1 1 [] [ .mk .EdnSymbol 1 3 "=".toList [] [],
    .mk .EdnSymbol 1 5 "x".toList [] [],
    .mk .EdnKeyword 1 12 ":int32".toList [] [],
    .mk .EdnInt 1 15 "10".toList [] [] ] []

/-- The operand nodes and application nodes of the binary-operator claim:
the integer literals `1` and `2` and the applications `(== 1 2)` and
`(+ 1 2)`. -/
def C6one : Edn.EdnNode := .mk .EdnInt 1 5 "1".toList [] []

def C6two : Edn.EdnNode := .mk .EdnInt 1 8 "2".toList [] []

def C6eqSym : Edn.EdnNode := .mk .EdnSymbol 1 2 "==".toList [] []

def C6plusSym : Edn.EdnNode := .mk .EdnSymbol 1 2 "+".toList [] []

def C6cmpNode : Edn.EdnNode := .mk .EdnList 1 1 [] [C6eqSym, C6one, C6two] []

def C6addNode : Edn.EdnNode := .mk .EdnList 1 1 [] [C6plusSym, C6one, C6two] []

/-- The nodes of the cond claim: the form `(cond (else (ref x)))`, whose
single `else` clause produces a pointer value. -/
def C7xSym : Edn.EdnNode := .mk .EdnSymbol 1 20 "x".toList [] []

def C7refSym : Edn.EdnNode := .mk .EdnSymbol 1 16 "ref".toList [] []

def C7elseSym : Edn.EdnNode := .mk .EdnSymbol 1 7 "else".toList [] []

def C7refNode : Edn.EdnNode := .mk .EdnList 1 15 [] [C7refSym, C7xSym] []

def C7clause : Edn.EdnNode := .mk .EdnList 1 6 [] [C7elseSym, C7refNode] []

def C7condSym : Edn.EdnNode := .mk .EdnSymbol 1 2 "cond".toList [] []

def C7condNode : Edn.EdnNode := .mk .EdnList 1 1 [] [C7condSym, C7clause] []

/-- The storage slot `(= x :int32 10)` records for `x` (the `CreateAlloca`
result, `i32*`, with declared type `int32`), and the engine state after
that assignment as far as `codegenCond` consults it. -/
def C7slot : Engine.Value := .inst 0 (.ptr (.int 32))

def C7st : Engine.EngState :=
  { Engine.initEngState with
      nextId := 1,
      llvmSymbolTable := [("x".toList, (C7slot, "int32".toList))] }

/-- The state `codegenCond` leaves on the counterexample: the `cond.after`
block holds a `double` phi whose single incoming is the POINTER value
`C7slot`, joined without any conversion. -/
def C7stOut : Engine.EngState :=
  { C7st with
      nextId := 2,
      nextBlock := 3,
      curBlock := 1,
      instrs := [("calc".toList, 0, .br 2), ("calc".toList, 2, .br 1),
        ("calc".toList, 1, .phi 1 .f64 [(.inst 0 (.ptr (.int 32)), 2)])] }

/-- The scenario of the lazy-emission claim: a user function `f` with no
parameters, return type `float64` and body `7`, in a state where `f` has
already been emitted (it is in the module and appears once in the
emission log). -/
def C8fSym : Edn.EdnNode := .mk .EdnSymbol 1 2 "f".toList [] []

def C8callNode : Edn.EdnNode := .mk .EdnList 1 1 [] [C8fSym] []

def C8body : List Edn.EdnNode := [.mk .EdnInt 2 10 "7".toList [] []]

def C8st : Engine.EngState :=
  { Engine.initEngState with
      moduleFuncs := Engine.initEngState.moduleFuncs ++ [("f".toList, .f64)],
      emissionLog := Engine.initEngState.emissionLog ++ ["f".toList],
      yeetFunctionTable := [("f".toList, ([], C8body))],
      yeetFunctionReturnTypes := [("f".toList, "float64".toList)] }

def C8stOut : Engine.EngState :=
  { C8st with
      nextId := 1,
      instrs := [("calc".toList, 0, .call 0 "f".toList [])] }

/-! # Lemmas and theorems -/

namespace Engine

theorem EngM_bind_def {α β : Type} (x : EngM α) (f : α → EngM β) (s : EngState) :
    (x >>= f) s = match x s with
                  | .error e => .error e
                  | .ok (a, s') => f a s' := rfl

theorem EngM_pure_def {α : Type} (a : α) (s : EngState) :
    (pure a : EngM α) s = .ok (a, s) := rfl

theorem EngM_map_def {α β : Type} (g : α → β) (x : EngM α) (s : EngState) :
    (g <$> x) s = match x s with
                  | .error e => .error e
                  | .ok (a, s') => .ok (g a, s') := by
  show EngM.bind x (fun a => EngM.pure (g a)) s = _
  unfold EngM.bind EngM.pure
  rcases x s with e | ⟨a, s'⟩ <;> rfl

end Engine

namespace Edn

/-- Claim C3, counterexample: the string `nil` is accepted simultaneously
by the nil predicate and by the symbol predicate, so two distinct atom
predicates accept the same string. -/
theorem C3_counterexample :
    validNil ['n','i','l'] ∧ validSymbol ['n','i','l'] := by
  constructor
  · rfl
  · decide

/-- Claim C3, amended: the seven atom predicates are not pairwise
disjoint — `validSymbol` also accepts `nil`, `true` and `false`,
`validInt` and `validFloat` overlap (for instance on `1`), and the
two-character `N`/`M`-suffix acceptance of `validInt` makes it overlap
`validChar`, `validKeyword` and `validSymbol` — but `handleAtom` applies
the predicates in a fixed order so each atom still receives exactly one
classification.  The remaining twelve pairs are genuinely disjoint: `nil`
and `bool` against every predicate except symbol (and each other), and
`char`/`keyword`/`symbol` mutually. -/
theorem C3_amended (s : List Char) :
    (¬ (validNil s ∧ validBool s)) ∧
    (¬ (validNil s ∧ validChar s)) ∧
    (¬ (validNil s ∧ validInt s)) ∧
    (¬ (validNil s ∧ validFloat s)) ∧
    (¬ (validNil s ∧ validKeyword s)) ∧
    (¬ (validBool s ∧ validChar s)) ∧
    (¬ (validBool s ∧ validInt s)) ∧
    (¬ (validBool s ∧ validFloat s)) ∧
    (¬ (validBool s ∧ validKeyword s)) ∧
    (¬ (validChar s ∧ validKeyword s)) ∧
    (¬ (validChar s ∧ validSymbol s)) ∧
    (¬ (validKeyword s ∧ validSymbol s)) := by
  refine ⟨?_, ?_, ?_, ?_, ?_, ?_, ?_, ?_, ?_, ?_, ?_, ?_⟩
  -- pairs pinned by validNil
  case _ => rintro ⟨h1, h2⟩; have h : s = ['n','i','l'] := h1; subst h; revert h2; decide
  case _ => rintro ⟨h1, h2⟩; have h : s = ['n','i','l'] := h1; subst h; revert h2; decide
  case _ => rintro ⟨h1, h2⟩; have h : s = ['n','i','l'] := h1; subst h; revert h2; decide
  case _ => rintro ⟨h1, h2⟩; have h : s = ['n','i','l'] := h1; subst h; revert h2; decide
  case _ => rintro ⟨h1, h2⟩; have h : s = ['n','i','l'] := h1; subst h; revert h2; decide
  -- pairs pinned by validBool
  case _ =>
    rintro ⟨h1, h2⟩
    have h : s = ['t','r','u','e'] ∨ s = ['f','a','l','s','e'] := h1
    rcases h with h | h <;> subst h <;> revert h2 <;> decide
  case _ =>
    rintro ⟨h1, h2⟩
    have h : s = ['t','r','u','e'] ∨ s = ['f','a','l','s','e'] := h1
    rcases h with h | h <;> subst h <;> revert h2 <;> decide
  case _ =>
    rintro ⟨h1, h2⟩
    have h : s = ['t','r','u','e'] ∨ s = ['f','a','l','s','e'] := h1
    rcases h with h | h <;> subst h <;> revert h2 <;> decide
  case _ =>
    rintro ⟨h1, h2⟩
    have h : s = ['t','r','u','e'] ∨ s = ['f','a','l','s','e'] := h1
    rcases h with h | h <;> subst h <;> revert h2 <;> decide
  -- char versus keyword: the first character differs
  case _ =>
    rintro ⟨h1, h2⟩
    have hc : s.headD '\x00' = '\\' := h1.1
    have hk : s.headD '\x00' = ':' := h2.1
    exact absurd (hc.symm.trans hk) (by decide)
  -- char versus symbol: a backslash is not a symbol character
  case _ =>
    rintro ⟨h1, h2⟩
    cases s with
    | nil => exact absurd h1.2 (by decide)
    | cons a t =>
      have ha : a = '\\' := h1.1
      subst ha
      have hmem : Char.toUpper '\\' ∈ uppercase ('\\' :: t) := by
        simp [uppercase]
      exact absurd (h2.1 _ hmem) (by decide)
  -- keyword versus symbol: a leading colon is rejected by validSymbol
  case _ =>
    rintro ⟨h1, h2⟩
    cases s with
    | nil => exact absurd h1.1 (by decide)
    | cons a t =>
      have ha : a = ':' := h1.1
      subst ha
      have hrange : strRangeIn (uppercase (':' :: t)) [':', '#', '/'] := by
        intro c hc
        simp [uppercase, cppSubstr] at hc
        simp [hc]
      have hnot : ¬ ((uppercase (':' :: t)).length = 1 ∧
          (uppercase (':' :: t)).headD ' ' = '/') := by
        rintro ⟨_, hh⟩
        simp [uppercase] at hh
      exact h2.2.2.1 ⟨hrange, hnot⟩

/-- Witness for the amended claim C3 at the concrete string `a`. -/
theorem C3_amended_witness :
    (¬ (validNil ['a'] ∧ validBool ['a'])) ∧
    (¬ (validNil ['a'] ∧ validChar ['a'])) ∧
    (¬ (validNil ['a'] ∧ validInt ['a'])) ∧
    (¬ (validNil ['a'] ∧ validFloat ['a'])) ∧
    (¬ (validNil ['a'] ∧ validKeyword ['a'])) ∧
    (¬ (validBool ['a'] ∧ validChar ['a'])) ∧
    (¬ (validBool ['a'] ∧ validInt ['a'])) ∧
    (¬ (validBool ['a'] ∧ validFloat ['a'])) ∧
    (¬ (validBool ['a'] ∧ validKeyword ['a'])) ∧
    (¬ (validChar ['a'] ∧ validKeyword ['a'])) ∧
    (¬ (validChar ['a'] ∧ validSymbol ['a'])) ∧
    (¬ (validKeyword ['a'] ∧ validSymbol ['a'])) :=
  C3_amended ['a']

/-- Claim C10 (a bug in the code): the reader classifies the atom `xN` as
an `Int` node although its text does not belong to the numeric grammar of
the spec.  `validInt` removes TWO characters when stripping an `N`/`M`
suffix (`value.substr(0, value.length() - 2)`) although its own comment
says it removes just the suffix, so every two-character string ending in
`N` or `M` — here `xN` — is accepted as an integer. -/
theorem C10_reader_invariant_bug :
    (Edn.read ['x','N']).map (fun n => (n.type, n.value)) =
      Except.ok (NodeType.EdnInt, ['x','N']) ∧
    validInt ['x','N'] ∧
    specIntText ['x','N'] = false := by
  refine ⟨rfl, by decide, rfl⟩

end Edn

namespace Engine

theorem primResolve_error_of_not_prim (r : List Char)
    (h : primTagCheck r = false) : ∃ e, primResolve r = Except.error e := by
  rw [primTagCheck] at h
  simp only [Bool.or_eq_false_iff, beq_eq_false_iff_ne, ne_eq] at h
  obtain ⟨⟨⟨⟨⟨⟨h1, h2⟩, h3⟩, h4⟩, h5⟩, h6⟩, h7⟩ := h
  simp only [primResolve]
  rw [if_neg h1, if_neg h2, if_neg h3, if_neg h4, if_neg h5, if_neg h6, if_neg h7]
  exact ⟨_, rfl⟩

theorem getLLVMTypeRev_error_of_not_prim (r : List Char)
    (h : primStarRev r = false) : ∃ e, getLLVMTypeRev r = Except.error e := by
  induction r with
  | nil =>
    rw [primStarRev] at h
    obtain ⟨e, he⟩ := primResolve_error_of_not_prim [] h
    exact ⟨e, by rw [getLLVMTypeRev]; exact he⟩
  | cons c rest ih =>
    rw [primStarRev] at h
    rw [getLLVMTypeRev]
    by_cases hc : c = '*'
    · rw [if_pos hc] at h ⊢
      obtain ⟨e, he⟩ := ih h
      exact ⟨e, by rw [he]; rfl⟩
    · rw [if_neg hc] at h ⊢
      exact primResolve_error_of_not_prim _ h

theorem getLLVMType_error_of_not_prim (ts : List Char)
    (hp : primStarClosure ts = false) : ∃ e, getLLVMType ts = Except.error e := by
  rw [primStarClosure] at hp
  rw [getLLVMType]
  exact getLLVMTypeRev_error_of_not_prim _ hp

/-- Claim C9: registering a struct whose name is already bound in the
registry is a fatal compile error, and resolving a type tag outside the
star-closure of the primitive tags is a fatal compile error
(`getLLVMType` in fact rejects everything outside that closure, struct
names included; struct tags are resolved from `llvmStructTypes` at their
own call sites, consistent with the claim, which only asserts which tags
must raise an error). -/
theorem C9_type_registry_errors (name : List Char)
    (fields : List (List Char × List Char)) (st : EngState) (tag : List Char)
    (hdef : (lookupA name st.llvmStructTypes).isSome = true)
    (htag : primStarClosure tag = false) :
    (∃ e, defineStructType name fields st = Except.error e) ∧
    (∃ e, getLLVMType tag = Except.error e) := by
  constructor
  · refine ⟨"Struct type already defined: " ++ name.asString, ?_⟩
    unfold defineStructType
    rw [EngM_bind_def]
    simp only [getS]
    rw [if_pos hdef]
    rfl
  · exact getLLVMType_error_of_not_prim tag htag

/-- Witness for claim C9: redefining `P` in a state that already binds it,
and resolving the unregistered tag `Foo`. -/
theorem C9_type_registry_errors_witness :
    (∃ e, defineStructType "P".toList []
        { initEngState with llvmStructTypes := [("P".toList, [])] } = Except.error e) ∧
    (∃ e, getLLVMType "Foo".toList = Except.error e) :=
  C9_type_registry_errors "P".toList []
    { initEngState with llvmStructTypes := [("P".toList, [])] } "Foo".toList rfl rfl

end Engine

set_option maxRecDepth 10000 in
/-- The reader delivers only the first top-level form of the scenario
source to the engine (the staging lemma for claim C1). -/
theorem C1_read : Edn.read C1srcChars = Except.ok C1node := by rfl

set_option maxRecDepth 10000 in
/-- Claim C1, counterexample: compiling and running the scenario source
does not report 25.  `Edn.read` hands only the first top-level form to the
engine (see C2), so only `(= x :int32 10)` is compiled; the entry returns
the stored constant converted to double. -/
theorem C1_counterexample :
    Engine.reportedResult 100 "(= x :int32 10) (= y :int32 (+ x 5)) (+ x y)".toList ≠
      Except.ok (25 : ℚ) := by
  intro h
  have h10 : Engine.reportedResult 100 C1srcChars = Except.ok (10 : ℚ) := by
    unfold Engine.reportedResult Engine.runModel
    rw [C1_read]
    rfl
  rw [show "(= x :int32 10) (= y :int32 (+ x 5)) (+ x y)".toList = C1srcChars from rfl,
    h10] at h
  exact absurd (Except.ok.inj h) (by norm_num)

set_option maxRecDepth 10000 in
/-- Claim C1, amended: compiling and running
`(= x :int32 10) (= y :int32 (+ x 5)) (+ x y)` reports the entry result
10 on standard output — the value of the first top-level form, the only
one the reader delivers. -/
theorem C1_amended :
    Engine.reportedResult 100 "(= x :int32 10) (= y :int32 (+ x 5)) (+ x y)".toList =
      Except.ok (10 : ℚ) := by
  show Engine.reportedResult 100 C1srcChars = Except.ok (10 : ℚ)
  unfold Engine.reportedResult Engine.runModel
  rw [C1_read]
  rfl

namespace Edn

/-- Parsing consumes only the front of the token stream: appending extra
tokens after a successful parse leaves the parsed form unchanged and
appends the extra tokens to the leftover. -/
theorem readAhead_extend :
    ∀ (fuel : Nat),
      (∀ t ts extra n rem, readAhead fuel t ts = .ok (n, rem) →
        readAhead fuel t (ts ++ extra) = .ok (n, rem ++ extra)) ∧
      (∀ tok cp L ts extra n rem, readSeq fuel tok cp L ts = .ok (n, rem) →
        readSeq fuel tok cp L (ts ++ extra) = .ok (n, rem ++ extra)) := by
  intro fuel
  induction fuel with
  | zero =>
    constructor
    · intro t ts extra n rem h
      simp [readAhead] at h
    · intro tok cp L ts extra n rem h
      simp [readSeq] at h
  | succ fuel ih =>
    obtain ⟨ihA, ihS⟩ := ih
    constructor
    · intro t ts extra n rem h
      rw [readAhead.eq_2] at h ⊢
      split at h
      · rename_i hparen
        rw [if_pos hparen]
        exact ihS _ _ _ _ _ _ _ h
      · rename_i hparen
        rw [if_neg hparen]
        split at h
        · exact absurd h (by simp)
        · rename_i hcloser
          rw [if_neg hcloser]
          split at h
          · -- tagged branch
            rename_i htag
            rw [if_pos htag]
            cases ts with
            | nil => simp at h
            | cons t1 ts1 =>
              simp only [List.cons_append, List.isEmpty_cons, List.headD_cons,
                List.tail_cons] at h ⊢
              rw [if_neg Bool.false_ne_true] at h ⊢
              split at h
              · exact absurd h (by simp)
              · rename_i pn prest hr
                rw [ihA _ _ extra _ _ hr]
                show (handleTagged t pn).map (fun x => (x, prest ++ extra)) =
                  Except.ok (n, rem ++ extra)
                rcases hht : handleTagged t pn with e | nn
                · rw [hht] at h; simp [Except.map] at h
                · rw [hht] at h
                  simp only [Except.map, Except.ok.injEq, Prod.mk.injEq] at h
                  obtain ⟨rfl, rfl⟩ := h
                  rfl
          · -- atom branch
            rename_i htag
            rw [if_neg htag]
            show (handleAtom t).map (fun x => (x, ts ++ extra)) =
              Except.ok (n, rem ++ extra)
            rcases hha : handleAtom t with e | nn
            · rw [hha] at h; simp [Except.map] at h
            · rw [hha] at h
              simp only [Except.map, Except.ok.injEq, Prod.mk.injEq] at h
              obtain ⟨rfl, rfl⟩ := h
              rfl
    · intro tok cp L ts extra n rem h
      rw [readSeq.eq_2] at h ⊢
      cases ts with
      | nil => simp at h
      | cons t1 ts1 =>
        simp only [List.cons_append, List.isEmpty_cons, List.headD_cons,
          List.tail_cons] at h ⊢
        rw [if_neg Bool.false_ne_true] at h ⊢
        split at h
        · rename_i hclose
          rw [if_pos hclose]
          simp only [Except.ok.injEq, Prod.mk.injEq] at h
          obtain ⟨rfl, rfl⟩ := h
          rfl
        · rename_i hclose
          rw [if_neg hclose]
          split at h
          · exact absurd h (by simp)
          · rename_i pn prest hr
            rw [ihA _ _ extra _ _ hr]
            exact ihS _ _ _ _ _ _ _ h

/-- Success of the parser is stable under additional fuel. -/
theorem readAhead_mono :
    ∀ (fuel fuel' : Nat), fuel ≤ fuel' →
      (∀ t ts n rem, readAhead fuel t ts = .ok (n, rem) →
        readAhead fuel' t ts = .ok (n, rem)) ∧
      (∀ tok cp L ts n rem, readSeq fuel tok cp L ts = .ok (n, rem) →
        readSeq fuel' tok cp L ts = .ok (n, rem)) := by
  intro fuel
  induction fuel with
  | zero =>
    intro fuel' _
    constructor
    · intro t ts n rem h
      simp [readAhead] at h
    · intro tok cp L ts n rem h
      simp [readSeq] at h
  | succ fuel ih =>
    intro fuel' hle
    cases fuel' with
    | zero => omega
    | succ fuel2 =>
      have hle' : fuel ≤ fuel2 := by omega
      obtain ⟨ihA, ihS⟩ := ih fuel2 hle'
      constructor
      · intro t ts n rem h
        rw [readAhead.eq_2] at h ⊢
        split at h
        · rename_i hparen
          rw [if_pos hparen]
          exact ihS _ _ _ _ _ _ h
        · rename_i hparen
          rw [if_neg hparen]
          split at h
          · exact absurd h (by simp)
          · rename_i hcloser
            rw [if_neg hcloser]
            split at h
            · rename_i htag
              rw [if_pos htag]
              split at h
              · exact absurd h (by simp)
              · rename_i hemp
                rw [if_neg hemp]
                split at h
                · exact absurd h (by simp)
                · rename_i pn prest hr
                  rw [ihA _ _ _ _ hr]
                  show (handleTagged t pn).map (fun x => (x, prest)) =
                    Except.ok (n, rem)
                  exact h
            · rename_i htag
              rw [if_neg htag]
              exact h
      · intro tok cp L ts n rem h
        rw [readSeq.eq_2] at h ⊢
        split at h
        · exact absurd h (by simp)
        · rename_i hemp
          rw [if_neg hemp]
          split at h
          · rename_i hclose
            rw [if_pos hclose]
            exact h
          · rename_i hclose
            rw [if_neg hclose]
            split at h
            · exact absurd h (by simp)
            · rename_i pn prest hr
              rw [ihA _ _ _ _ hr]
              exact ihS _ _ _ _ _ _ h

/-- Claim C2: when the lexed token stream continues past the end of the
first complete top-level form, `read` returns the syntax tree of that
first form only and silently discards all remaining tokens, raising no
error; a compile therefore never observes any top-level form after the
first. -/
theorem C2_read_first_form_only (cs : List Char) (t : EdnToken)
    (tr ts2 : List EdnToken) (n : EdnNode)
    (hlex : lex cs = t :: (tr ++ ts2))
    (hparse : readAhead (2 * (t :: tr).length + 2) t tr = .ok (n, []))
    (hne : ts2 ≠ []) :
    read cs = .ok n := by
  have hmono := (readAhead_mono (2 * (t :: tr).length + 2)
      (readFuel (lex cs)) (by rw [hlex]; simp [readFuel])).1 _ _ _ _ hparse
  have hext := (readAhead_extend (readFuel (lex cs))).1 _ _ ts2 _ _ hmono
  rw [read, hlex]
  rw [readTokens]
  rw [← hlex]
  rw [hext]
  rfl

/-- Witness for claim C2 on the source `5 6`: two atoms are lexed, the
first parses completely, the second is silently discarded. -/
theorem C2_read_first_form_only_witness :
    read "5 6".toList = .ok (EdnNode.mk .EdnInt 1 2 ['5'] [] []) := by
  refine C2_read_first_form_only "5 6".toList ⟨.TokenAtom, 1, 2, ['5']⟩
    [] [⟨.TokenAtom, 1, 4, ['6']⟩] (EdnNode.mk .EdnInt 1 2 ['5'] [] []) rfl rfl (by simp)

/-- One lexer iteration on a plain atom character (no separator, quote,
escape or semicolon) outside strings and comments with no pending
early-emission shape: the character is appended to the pending token and
the column advances. -/
theorem lexStep_plain (st : LexState) (c : Char)
    (hstr : st.inString = false) (hcom : st.inComment = false)
    (hesc : st.escaping = false) (hplain : plainAtomChar c)
    (hpend : ¬ badPending st.token) :
    lexStep st c = { st with token := st.token ++ [c], column := st.column + 1 } := by
  obtain ⟨hsep, hq, hb, hsemi⟩ := hplain
  have hn : ¬ c = '\n' := fun h => hsep (Or.inr (Or.inr (Or.inl h)))
  have hr : ¬ c = '\r' := fun h => hsep (Or.inr (Or.inr (Or.inr (Or.inl h))))
  simp only [badPending, List.headD_eq_head?_getD] at hpend
  simp [lexStep, lexStepCore, flushToken, hstr, hcom, hesc, hq, hb, hsemi, hn, hr,
    hsep, hpend]

/-- Running the lexer over a run of plain atom characters (with no prefix
of the run completing an early-emission shape) accumulates them all into
the pending token and advances the column by the run's length. -/
theorem lexRun_plain (cs : List Char) : ∀ (st : LexState),
    st.inString = false → st.inComment = false → st.escaping = false →
    (∀ c ∈ cs, plainAtomChar c) →
    (∀ i, i < cs.length → ¬ badPending (st.token ++ cs.take i)) →
    lexRun st cs = { st with token := st.token ++ cs, column := st.column + cs.length } := by
  induction cs with
  | nil =>
    intro st _ _ _ _ _
    simp [lexRun]
  | cons c cs ih =>
    intro st hstr hcom hesc hplain hpend
    have hp0 : ¬ badPending st.token := by
      have := hpend 0 (by simp)
      simpa using this
    have hstep := lexStep_plain st c hstr hcom hesc (hplain c (by simp)) hp0
    have hrun : lexRun st (c :: cs) = lexRun (lexStep st c) cs := rfl
    rw [hrun, hstep]
    have ih2 := ih { st with token := st.token ++ [c], column := st.column + 1 }
      hstr hcom hesc (fun x hx => hplain x (by simp [hx]))
      (fun i hi => by
        have := hpend (i + 1) (by simpa using Nat.succ_lt_succ hi)
        simpa [List.take_succ_cons] using this)
    rw [ih2]
    simp [LexState.mk.injEq, List.append_assoc]
    omega

/-- Claim C4, counterexample: lexing `ab ` yields one atom token recorded
at `(1, 3)`, but the source byte at line 1, column 3 is the space that
terminated the token, not the token's first byte `a` (the lexer records
the position at which the token is flushed). -/
theorem C4_counterexample :
    lex "ab ".toList = [⟨.TokenAtom, 1, 3, "ab".toList⟩] ∧
    sourceAt "ab ".toList 1 3 = some ' ' ∧
    ("ab".toList.headD ' ' = 'a' ∧ ¬ (' ' = 'a')) := by
  exact ⟨rfl, rfl, by decide⟩

/-- Claim C4, amended: the recorded position of a flushed atom token is
the position of the byte that terminated it — one column past the token's
last byte on the token's line — so the token's first byte is found at
`column - length`, not at `column`.  Stated for a run of plain atom
characters terminated by a space on line 1 (multi-line sources add a
further one-column drift, see `lexStep`). -/
theorem C4_amended (v : List Char) (hne : v ≠ [])
    (hplain : ∀ c ∈ v, plainAtomChar c)
    (hpend : ∀ i, i < v.length → ¬ badPending (v.take i)) :
    lex (v ++ [' ']) = [⟨.TokenAtom, 1, v.length + 1, v⟩] ∧
    sourceAt (v ++ [' ']) 1 (v.length + 1 - v.length) = some (v.headD ' ') := by
  constructor
  · have h1 : lexRun initLexState v =
        { initLexState with token := v, column := 1 + v.length } := by
      have := lexRun_plain v initLexState rfl rfl rfl hplain
        (fun i hi => by simpa using hpend i hi)
      simpa [initLexState] using this
    have hsplit : lexRun initLexState (v ++ [' ']) =
        lexRun (lexRun initLexState v) [' '] := by
      simp [lexRun, List.foldl_append]
    have hspace : lexRun { initLexState with token := v, column := 1 + v.length } [' '] =
        { initLexState with
            token := [],
            column := 1 + v.length + 1,
            tokens := [⟨.TokenAtom, 1, 1 + v.length, v⟩] } := by
      show lexStep _ ' ' = _
      simp [lexStep, lexStepCore, flushToken, createToken, initLexState, hne,
        isSepChar, isParenChar]
    rw [lex, hsplit, h1, hspace]
    simp [flushToken, Nat.add_comm]
  · have h1 : v.length + 1 - v.length = 1 := by omega
    rw [h1]
    cases v with
    | nil => exact absurd rfl hne
    | cons c cs => simp [sourceAt, sourceAtFrom]

/-- Witness for the amended claim C4 on the token `ab` followed by a
space: the token is recorded at column 3, and column `3 - 2 = 1` holds its
first byte. -/
theorem C4_amended_witness :
    lex ("ab".toList ++ [' ']) = [⟨.TokenAtom, 1, "ab".toList.length + 1, "ab".toList⟩] ∧
    sourceAt ("ab".toList ++ [' ']) 1 ("ab".toList.length + 1 - "ab".toList.length) =
      some ("ab".toList.headD ' ') :=
  C4_amended "ab".toList (by decide) (by decide) (by decide)

/-! ## Round trip (claim C5): the printed text and its token stream -/

/-- `escapeQuotes` is the identity on texts without quotes and
backslashes. -/
theorem escapeQuotes_id (v : List Char) (h : ∀ c ∈ v, c ≠ '"' ∧ c ≠ '\\') :
    escapeQuotes v = v := by
  induction v with
  | nil => rfl
  | cons c cs ih =>
    obtain ⟨h1, h2⟩ := h c (by simp)
    have hc : ¬ (c = '"' ∨ c = '\\') := by
      rintro (rfl | rfl)
      · exact h1 rfl
      · exact h2 rfl
    show (if c = '"' ∨ c = '\\' then '\\' else c) :: escapeQuotes cs = c :: cs
    rw [if_neg hc, ih (fun x hx => h x (by simp [hx]))]

/-- The canonical text of a well-formed node is nonempty. -/
theorem canonText_ne_nil (t : EdnNode) (h : wfNode t = true) : canonText t ≠ [] := by
  obtain ⟨ty, l, c, v, vs, m⟩ := t
  cases ty
  case EdnNil => simp [wfNode] at h; rw [canonText.eq_def]; simp; tauto
  case EdnSymbol => simp [wfNode] at h; rw [canonText.eq_def]; simp; tauto
  case EdnKeyword => simp [wfNode] at h; rw [canonText.eq_def]; simp; tauto
  case EdnBool => simp [wfNode] at h; rw [canonText.eq_def]; simp; tauto
  case EdnInt => simp [wfNode] at h; rw [canonText.eq_def]; simp; tauto
  case EdnFloat => simp [wfNode] at h; rw [canonText.eq_def]; simp; tauto
  case EdnChar =>
    rcases v with _ | ⟨c1, rest⟩
    · simp [wfNode] at h
    · rw [canonText.eq_def]; simp
  case EdnString => rw [canonText.eq_def]; simp
  case EdnList => rw [canonText.eq_def]; simp
  case EdnVector => rw [canonText.eq_def]; simp
  case EdnMap => rw [canonText.eq_def]; simp
  case EdnSet => rw [canonText.eq_def]; simp
  case EdnTagged =>
    rcases vs with _ | ⟨tagN, _ | ⟨payload, _ | ⟨z, rest⟩⟩⟩ <;>
      (rw [canonText.eq_def]; simp)
  case EdnDiscard => simp [wfNode] at h

/-- `canonJoin` on at least two children splits off the head text and one
space. -/
theorem canonJoin_cons_cons (x y : EdnNode) (rest : List EdnNode) :
    canonJoin (x :: y :: rest) = canonText x ++ ' ' :: canonJoin (y :: rest) := by
  rw [canonJoin.eq_def]

theorem canonJoin_nil : canonJoin [] = [] := by rw [canonJoin.eq_def]

theorem canonJoin_single (x : EdnNode) : canonJoin [x] = canonText x := by
  rw [canonJoin.eq_def]

/-- `pprintLoop` with `multiline = false` and a non-map collection joins
the canonical child texts with single spaces (prepending the accumulated
text and one separating space when nonempty). -/
theorem pprintLoop_join_false :
    ∀ (n : Nat) (vs : List EdnNode), vs.length ≤ n →
    (∀ x ∈ vs, ∀ ind, pprint x ind false = canonText x) →
    (∀ x ∈ vs, wfNode x = true) →
    ∀ pad ind vals,
      pprintLoop vs false pad ind false vals =
        (if vals = [] ∨ vs.isEmpty then vals else vals ++ [' ']) ++ canonJoin vs := by
  intro n
  induction n with
  | zero =>
    intro vs hlen _ _ pad ind vals
    have hv : vs = [] := by cases vs <;> simp_all
    subst hv
    rw [pprintLoop.eq_def, canonJoin.eq_def]
    simp
  | succ n ih =>
    intro vs hlen hmem hwf pad ind vals
    cases vs with
    | nil =>
      rw [pprintLoop.eq_def, canonJoin.eq_def]
      simp
    | cons x rest =>
      rw [pprintLoop.eq_def]
      simp only [Bool.false_eq_true, if_false, and_false, false_and, ite_false,
        List.isEmpty_cons]
      rw [ih rest (by simp at hlen; omega)
        (fun y hy => hmem y (by simp [hy])) (fun y hy => hwf y (by simp [hy]))]
      have hx := hmem x (by simp) (ind + 1)
      have hxne := canonText_ne_nil x (hwf x (by simp))
      rw [hx]
      cases rest with
      | nil =>
        rw [canonJoin_single]
        by_cases hv : vals = []
        · simp [hv, canonJoin_nil]
        · simp [hv, List.length_pos.mpr hv, canonJoin_nil]
      | cons y rest2 =>
        rw [canonJoin_cons_cons]
        by_cases hv : vals = []
        · simp [hv, hxne, canonJoin_nil]
        · simp [hv, List.length_pos.mpr hv, hxne, canonJoin_nil]

theorem node_sizeOf_pos (t : EdnNode) : 1 ≤ sizeOf t := by
  obtain ⟨ty, l, c, v, vs, m⟩ := t
  simp
  omega

theorem list_length_lt_sizeOf (xs : List EdnNode) : xs.length < sizeOf xs := by
  induction xs with
  | nil => simp
  | cons x rest ih =>
    have := node_sizeOf_pos x
    simp
    omega

theorem wfList_mem {vs : List EdnNode} (h : wfList vs = true) :
    ∀ x ∈ vs, wfNode x = true := by
  induction vs with
  | nil => intro x hx; simp at hx
  | cons y rest ih =>
    rw [wfList] at h
    simp at h
    intro x hx
    rcases List.mem_cons.mp hx with rfl | hx2
    · exact h.1
    · exact ih h.2 x hx2

/-- `atomClassify` only ever returns one of the seven leaf kinds. -/
theorem atomClassify_leaf (v : List Char) (ty : NodeType) (h : atomClassify v = some ty) :
    ty = .EdnNil ∨ ty = .EdnChar ∨ ty = .EdnBool ∨ ty = .EdnInt ∨ ty = .EdnFloat ∨
      ty = .EdnKeyword ∨ ty = .EdnSymbol := by
  unfold atomClassify at h
  split_ifs at h <;> simp_all

/-- `pprint` of a leaf node (any of the seven atom kinds) is its text. -/
theorem pprint_leaf (ty : NodeType) (l c : Nat) (v : List Char) (vs : List EdnNode)
    (m : List (List Char × List Char)) (ind : Nat) (ml : Bool)
    (hty : ty = .EdnNil ∨ ty = .EdnChar ∨ ty = .EdnBool ∨ ty = .EdnInt ∨ ty = .EdnFloat ∨
      ty = .EdnKeyword ∨ ty = .EdnSymbol) :
    pprint (.mk ty l c v vs m) ind ml = v := by
  rcases hty with rfl | rfl | rfl | rfl | rfl | rfl | rfl <;> (rw [pprint.eq_def]; simp)

/-- `pprintLoop` in map mode with evenly many children also joins the
canonical child texts with single spaces. -/
theorem pprintLoop_join_true :
    ∀ (n : Nat) (vs : List EdnNode), vs.length ≤ n →
    (∀ x ∈ vs, ∀ ind, pprint x ind false = canonText x) →
    (∀ x ∈ vs, wfNode x = true) →
    vs.length % 2 = 0 →
    ∀ pad ind vals,
      pprintLoop vs true pad ind false vals =
        (if vals = [] ∨ vs.isEmpty then vals else vals ++ [' ']) ++ canonJoin vs := by
  intro n
  induction n with
  | zero =>
    intro vs hlen _ _ _ pad ind vals
    have hv : vs = [] := by cases vs <;> simp_all
    subst hv
    rw [pprintLoop.eq_def, canonJoin.eq_def]
    simp
  | succ n ih =>
    intro vs hlen hmem hwf heven pad ind vals
    cases vs with
    | nil =>
      rw [pprintLoop.eq_def, canonJoin.eq_def]
      simp
    | cons x rest =>
      cases rest with
      | nil => simp at heven
      | cons y rest2 =>
        rw [pprintLoop.eq_def]
        simp only [Bool.false_eq_true, if_false, and_false, false_and, ite_false,
          ite_true, List.isEmpty_cons]
        rw [ih rest2 (by simp at hlen; omega)
          (fun z hz => hmem z (by simp [hz])) (fun z hz => hwf z (by simp [hz]))
          (by simp at heven; omega)]
        have hx := hmem x (by simp) (ind + 1)
        have hy := hmem y (by simp) 1
        have hxne := canonText_ne_nil x (hwf x (by simp))
        rw [hx, hy]
        rw [canonJoin_cons_cons]
        cases rest2 with
        | nil =>
          rw [canonJoin_single]
          by_cases hv : vals = []
          · simp [hv, hxne, canonJoin_nil]
          · simp [hv, List.length_pos.mpr hv, hxne, canonJoin_nil]
        | cons z rest3 =>
          rw [canonJoin_cons_cons]
          by_cases hv : vals = []
          · simp [hv, hxne, canonJoin_nil]
          · simp [hv, List.length_pos.mpr hv, hxne, canonJoin_nil]

/-- The single-line print of a well-formed node is its canonical text,
independently of the indent argument. -/
theorem pprint_eq_canonText :
    ∀ (n : Nat) (t : EdnNode), sizeOf t ≤ n → wfNode t = true →
    ∀ ind, pprint t ind false = canonText t := by
  intro n
  induction n with
  | zero =>
    intro t hsz _ _
    exact absurd hsz (by have := node_sizeOf_pos t; omega)
  | succ n ih =>
    intro t hsz hwf ind
    obtain ⟨ty, l, c, v, vs, m⟩ := t
    have hszvs : sizeOf vs ≤ n := by simp at hsz; omega
    have hlenvs : vs.length ≤ n := by
      have := list_length_lt_sizeOf vs
      omega
    have hmemIH : ∀ x ∈ vs, wfNode x = true → ∀ ind', pprint x ind' false = canonText x := by
      intro x hx hwx ind'
      refine ih x ?_ hwx ind'
      have := List.sizeOf_lt_of_mem hx
      omega
    cases ty
    case EdnNil | EdnChar | EdnBool | EdnInt | EdnFloat | EdnKeyword | EdnSymbol =>
      rw [pprint.eq_def, canonText.eq_def]
      simp
    case EdnString =>
      simp [wfNode, goodStringText] at hwf
      rw [pprint.eq_def, canonText.eq_def]
      simp
      exact escapeQuotes_id v (fun x hx => ⟨(hwf.1.2.1 x hx).1, (hwf.1.2.1 x hx).2.1⟩)
    case EdnList =>
      simp [wfNode] at hwf
      have hwfm := wfList_mem hwf.2
      rw [pprint.eq_def, canonText.eq_def]
      simp
      rw [pprintLoop_join_false n vs hlenvs
        (fun x hx => hmemIH x hx (hwfm x hx)) hwfm]
      simp
    case EdnVector =>
      simp [wfNode] at hwf
      have hwfm := wfList_mem hwf.2
      rw [pprint.eq_def, canonText.eq_def]
      simp
      rw [pprintLoop_join_false n vs hlenvs
        (fun x hx => hmemIH x hx (hwfm x hx)) hwfm]
      simp
    case EdnSet =>
      simp [wfNode] at hwf
      have hwfm := wfList_mem hwf.2
      rw [pprint.eq_def, canonText.eq_def]
      simp
      rw [pprintLoop_join_false n vs hlenvs
        (fun x hx => hmemIH x hx (hwfm x hx)) hwfm]
      simp
    case EdnMap =>
      simp [wfNode] at hwf
      have hwfm := wfList_mem hwf.2
      rw [pprint.eq_def, canonText.eq_def]
      simp
      rw [pprintLoop_join_true n vs hlenvs
        (fun x hx => hmemIH x hx (hwfm x hx)) hwfm hwf.1.2]
      simp
    case EdnTagged =>
      rcases vs with _ | ⟨tagN, _ | ⟨payload, _ | ⟨z, rest⟩⟩⟩
      · simp [wfNode] at hwf
      · simp [wfNode] at hwf
      · -- vs = [tagN, payload]
        have hpayIH := hmemIH payload (by simp)
        obtain ⟨tty, tl, tc, tv, tvs, tm⟩ := tagN
        simp only [wfNode, Bool.and_eq_true, decide_eq_true_eq, beq_iff_eq,
          EdnNode.value, EdnNode.values, EdnNode.metadata, EdnNode.type] at hwf
        obtain ⟨⟨⟨⟨⟨⟨⟨⟨⟨⟨ha, hb⟩, hc2⟩, hd⟩, he⟩, hf⟩, hg⟩, hh2⟩, hi⟩, hj⟩, hk⟩ := hwf
        have hleaf := atomClassify_leaf tv tty hd
        rw [pprint.eq_def, canonText.eq_def]
        simp only []
        simp
        rw [pprint_leaf tty tl tc tv tvs tm ind false hleaf]
        rw [pprintLastD.eq_def]
        simp
        rw [hpayIH hk ind]
        simp [EdnNode.value]
      · simp [wfNode] at hwf
    case EdnDiscard => simp [wfNode] at hwf

/-! ## Lexing the canonical text -/

theorem lexRun_append (st : LexState) (a b : List Char) :
    lexRun st (a ++ b) = lexRun (lexRun st a) b := by
  simp [lexRun, List.foldl_append]

theorem not_badPending_of_head {q : List Char} (h1 : q.headD ' ' ≠ '#')
    (h2 : q.headD ' ' ≠ '\\') : ¬ badPending q := by
  rintro (rfl | ⟨hlen, hh⟩)
  · exact h1 rfl
  · exact h2 hh

theorem headD_take {v : List Char} {i : Nat} (hi : 1 ≤ i) :
    (v.take i).headD ' ' = v.headD ' ' := by
  cases v with
  | nil => simp
  | cons c cs =>
    cases i with
    | zero => omega
    | succ j => simp

/-- One lexer iteration on a space with clean flags: flush the pending
token (if any) and advance. -/
theorem lexStep_space (st : LexState)
    (hstr : st.inString = false) (hcom : st.inComment = false)
    (hesc : st.escaping = false) :
    lexStep st ' ' =
      { st with token := [],
                tokens := st.tokens ++
                  (if st.token ≠ [] then [⟨.TokenAtom, st.line, st.column, st.token⟩] else []),
                column := st.column + 1 } := by
  by_cases ht : st.token = [] <;>
    simp [lexStep, lexStepCore, flushToken, createToken, hstr, hcom, hesc, ht,
      isSepChar, isParenChar]

/-- One lexer iteration on a bracket with clean flags: flush the pending
token (if any), emit the bracket token and advance. -/
theorem lexStep_paren (st : LexState) (c : Char)
    (hstr : st.inString = false) (hcom : st.inComment = false)
    (hesc : st.escaping = false) (hpar : isParenChar c) :
    lexStep st c =
      { st with token := [],
                tokens := (st.tokens ++
                  (if st.token ≠ [] then [⟨.TokenAtom, st.line, st.column, st.token⟩] else [])) ++
                  [⟨.TokenParen, st.line, st.column, [c]⟩],
                column := st.column + 1 } := by
  rcases hpar with rfl | rfl | rfl | rfl | rfl | rfl <;>
    (by_cases ht : st.token = [] <;>
      simp [lexStep, lexStepCore, flushToken, createToken, hstr, hcom, hesc, ht,
        isSepChar, isParenChar])

/-- Lexing a character literal `\\c` with a plain `c`: both bytes join the
pending token (the first also toggles the escape flag on and the second
toggles it back off). -/
theorem lexRun_char (st : LexState) (c : Char)
    (hstr : st.inString = false) (hcom : st.inComment = false)
    (hesc : st.escaping = false) (htok : st.token = [])
    (hplain : plainAtomChar c) :
    lexRun st ['\\', c] = { st with token := ['\\', c], column := st.column + 2 } := by
  obtain ⟨hsep, hq, hb, hsemi⟩ := hplain
  have hn : ¬ c = '\n' := fun h => hsep (Or.inr (Or.inr (Or.inl h)))
  have hr : ¬ c = '\r' := fun h => hsep (Or.inr (Or.inr (Or.inr (Or.inl h))))
  have h1 : lexStep st '\\' =
      { st with token := ['\\'], escaping := true, column := st.column + 1 } := by
    simp [lexStep, lexStepCore, flushToken, htok, hstr, hcom, hesc, isSepChar, isParenChar]
  show lexStep (lexStep st '\\') c = _
  rw [h1]
  simp [lexStep, lexStepCore, flushToken, createToken, hstr, hcom, hesc, hq, hb, hsemi,
    hn, hr, hsep]

/-- Opening quote with clean flags: enter string mode and clear the
content buffer. -/
theorem lexStep_quote_open (st : LexState)
    (hstr : st.inString = false) (hcom : st.inComment = false)
    (hesc : st.escaping = false) :
    lexStep st '"' =
      { st with inString := true, stringContent := [], column := st.column + 1 } := by
  simp [lexStep, lexStepCore, hstr, hcom, hesc]

/-- Closing quote: emit the string token and leave string mode. -/
theorem lexStep_quote_close (st : LexState)
    (hstr : st.inString = true) (hcom : st.inComment = false)
    (hesc : st.escaping = false) :
    lexStep st '"' =
      { st with inString := false,
                tokens := st.tokens ++ [⟨.TokenString, st.line, st.column, st.stringContent⟩],
                column := st.column + 1 } := by
  simp [lexStep, lexStepCore, createToken, hstr, hcom, hesc]

/-- One in-string iteration on a non-quote non-backslash byte: append it
to the content buffer. -/
theorem lexStep_instring (st : LexState) (c : Char)
    (hstr : st.inString = true) (hcom : st.inComment = false)
    (hesc : st.escaping = false) (hq : c ≠ '"') (hb : c ≠ '\\') :
    ∃ ln cl, lexStep st c =
      { st with stringContent := st.stringContent ++ [c], line := ln, column := cl } := by
  by_cases hnl : c = '\n' ∨ c = '\r'
  · exact ⟨st.line + 1, 2, by simp [lexStep, lexStepCore, hstr, hcom, hesc, hq, hb, hnl]⟩
  · exact ⟨st.line, st.column + 1,
      by simp [lexStep, lexStepCore, hstr, hcom, hesc, hq, hb, hnl]⟩

/-- Running the lexer in string mode over content bytes accumulates them
in the content buffer. -/
theorem lexRun_instring (cs : List Char) : ∀ (st : LexState),
    st.inString = true → st.inComment = false → st.escaping = false →
    (∀ c ∈ cs, c ≠ '"' ∧ c ≠ '\\') →
    ∃ ln cl, lexRun st cs =
      { st with stringContent := st.stringContent ++ cs, line := ln, column := cl } := by
  induction cs with
  | nil =>
    intro st h1 _ _ _
    exact ⟨st.line, st.column, by simp [lexRun]⟩
  | cons c cs ih =>
    intro st h1 h2 h3 hall
    obtain ⟨hq, hb⟩ := hall c (by simp)
    obtain ⟨ln1, cl1, hstep⟩ := lexStep_instring st c h1 h2 h3 hq hb
    have hrun : lexRun st (c :: cs) = lexRun (lexStep st c) cs := rfl
    rw [hrun, hstep]
    obtain ⟨ln2, cl2, h2run⟩ :=
      ih { st with stringContent := st.stringContent ++ [c], line := ln1, column := cl1 }
        h1 h2 h3 (fun x hx => hall x (by simp [hx]))
    refine ⟨ln2, cl2, ?_⟩
    rw [h2run]
    simp

/-- Lexing a printed string `"v"` with clean flags: one string token is
emitted, the pending token is untouched. -/
theorem lexRun_string (v : List Char) (st : LexState)
    (hstr : st.inString = false) (hcom : st.inComment = false)
    (hesc : st.escaping = false)
    (hgood : ∀ c ∈ v, c ≠ '"' ∧ c ≠ '\\') :
    ∃ ln cl tln tcl, lexRun st ('"' :: v ++ ['"']) =
      { st with tokens := st.tokens ++ [⟨.TokenString, tln, tcl, v⟩],
                stringContent := v, line := ln, column := cl } := by
  obtain ⟨l0, c0, e0, i0, s0, m0, t0, k0⟩ := st
  obtain rfl : i0 = false := hstr
  obtain rfl : m0 = false := hcom
  obtain rfl : e0 = false := hesc
  obtain ⟨ln1, cl1, hrun⟩ := lexRun_instring v
    ⟨l0, c0 + 1, false, true, [], false, t0, k0⟩ rfl rfl rfl hgood
  simp only [List.nil_append] at hrun
  refine ⟨ln1, cl1 + 1, ln1, cl1, ?_⟩
  calc lexRun ⟨l0, c0, false, false, s0, false, t0, k0⟩ ('"' :: v ++ ['"'])
      = lexRun (lexRun ⟨l0, c0 + 1, false, true, [], false, t0, k0⟩ v) ['"'] := by
        rw [show ('"' :: v ++ ['"'] : List Char) = ('"' :: v) ++ ['"'] from by simp,
          lexRun_append,
          show lexRun (⟨l0, c0, false, false, s0, false, t0, k0⟩ : LexState) ('"' :: v) =
            lexRun (lexStep ⟨l0, c0, false, false, s0, false, t0, k0⟩ '"') v from rfl,
          lexStep_quote_open ⟨l0, c0, false, false, s0, false, t0, k0⟩ rfl rfl rfl]
    _ = lexRun ⟨ln1, cl1, false, true, v, false, t0, k0⟩ ['"'] := by rw [hrun]
    _ = ⟨ln1, cl1 + 1, false, false, v, false, t0,
          k0 ++ [⟨.TokenString, ln1, cl1, v⟩]⟩ := by
        have h := lexStep_quote_close ⟨ln1, cl1, false, true, v, false, t0, k0⟩ rfl rfl rfl
        simpa using h

theorem lexRun_one (st : LexState) (c : Char) : lexRun st [c] = lexStep st c := rfl

theorem seqPend_nil : seqPend [] = [] := by rw [seqPend.eq_def]

theorem seqPend_single (x : EdnNode) : seqPend [x] = nodePend x := by rw [seqPend.eq_def]

theorem seqPend_cons_cons (x y : EdnNode) (rest : List EdnNode) :
    seqPend (x :: y :: rest) = seqPend (y :: rest) := by rw [seqPend.eq_def]

theorem bodyToks_nil : bodyToks [] = [] := by rw [bodyToks.eq_def]

theorem bodyToks_single (x : EdnNode) : bodyToks [x] = nodeToks x := by rw [bodyToks.eq_def]

theorem bodyToks_cons_cons (x y : EdnNode) (rest : List EdnNode) :
    bodyToks (x :: y :: rest) =
      nodeToks x ++ flushShape (nodePend x) ++ bodyToks (y :: rest) := by
  rw [bodyToks.eq_def]

theorem map_tokShape_flush (p : List Char) (l c : Nat) :
    (if p ≠ [] then [(⟨.TokenAtom, l, c, p⟩ : EdnToken)] else []).map tokShape =
      flushShape p := by
  by_cases hp : p = [] <;> simp [hp, flushShape, tokShape]

theorem map_tokShape_flush2 (p : List Char) (l c : Nat) :
    (if p = [] then [] else [(⟨.TokenAtom, l, c, p⟩ : EdnToken)]).map tokShape =
      flushShape p := by
  by_cases hp : p = [] <;> simp [hp, flushShape, tokShape]

/-- Lexing the joined texts of a child sequence, given the lexing lemma
for each member: all but the last pending text are flushed by the
separating spaces. -/
theorem lexJoin : ∀ (vs : List EdnNode),
    (∀ x ∈ vs, ∀ (st : LexState), st.inString = false → st.inComment = false →
      st.escaping = false → st.token = [] →
      ∃ ln cl sc newToks,
        lexRun st (canonText x) =
          { st with tokens := st.tokens ++ newToks, token := nodePend x,
                    line := ln, column := cl, stringContent := sc } ∧
        newToks.map tokShape = nodeToks x) →
    ∀ (st : LexState), st.inString = false → st.inComment = false →
      st.escaping = false → st.token = [] →
    ∃ ln cl sc newToks,
      lexRun st (canonJoin vs) =
        { st with tokens := st.tokens ++ newToks, token := seqPend vs,
                  line := ln, column := cl, stringContent := sc } ∧
      newToks.map tokShape = bodyToks vs := by
  intro vs
  induction vs with
  | nil =>
    intro _ st hstr hcom hesc htok
    refine ⟨st.line, st.column, st.stringContent, [], ?_, by simp [bodyToks_nil]⟩
    rw [canonJoin_nil]
    show st = _
    obtain ⟨l0, c0, e0, i0, s0, m0, t0, k0⟩ := st
    obtain rfl : t0 = [] := htok
    simp [seqPend_nil]
  | cons x rest ih =>
    intro hnode st hstr hcom hesc htok
    cases rest with
    | nil =>
      simp only [canonJoin_single, seqPend_single, bodyToks_single]
      exact hnode x (by simp) st hstr hcom hesc htok
    | cons y rest2 =>
      obtain ⟨l0, c0, e0, i0, s0, m0, t0, k0⟩ := st
      obtain rfl : i0 = false := hstr
      obtain rfl : m0 = false := hcom
      obtain rfl : e0 = false := hesc
      obtain rfl : t0 = [] := htok
      obtain ⟨ln1, cl1, sc1, A, hA, hAs⟩ :=
        hnode x (by simp) ⟨l0, c0, false, false, s0, false, [], k0⟩ rfl rfl rfl rfl
      dsimp only at hA
      have hs := lexStep_space ⟨ln1, cl1, false, false, sc1, false, nodePend x, k0 ++ A⟩
        rfl rfl rfl
      dsimp only at hs
      obtain ⟨ln3, cl3, sc3, B, hB, hBs⟩ := ih
        (fun z hz => hnode z (by simp [hz]))
        ⟨ln1, cl1 + 1, false, false, sc1, false, [],
          (k0 ++ A) ++ (if nodePend x ≠ [] then [⟨.TokenAtom, ln1, cl1, nodePend x⟩] else [])⟩
        rfl rfl rfl rfl
      dsimp only at hB
      refine ⟨ln3, cl3, sc3,
        A ++ (if nodePend x ≠ [] then [⟨.TokenAtom, ln1, cl1, nodePend x⟩] else []) ++ B,
        ?_, ?_⟩
      · rw [canonJoin_cons_cons,
          show (canonText x ++ ' ' :: canonJoin (y :: rest2) : List Char) =
            (canonText x ++ [' ']) ++ canonJoin (y :: rest2) from by simp,
          lexRun_append, lexRun_append, hA, lexRun_one, hs, hB]
        simp [seqPend_cons_cons, List.append_assoc]
      · simp only [List.map_append, hAs, hBs, map_tokShape_flush,
          bodyToks_cons_cons, List.append_assoc]

/-- Prefixes of a plain atom text (nonempty, head not `#`, all characters
plain) never form an early-emission shape. -/
theorem plain_prefixes_ok (v : List Char) (hhash : v.headD ' ' ≠ '#')
    (hplain : ∀ c ∈ v, plainAtomChar c) :
    ∀ i, i < v.length → ¬ badPending ([] ++ v.take i) := by
  intro i hi
  simp only [List.nil_append]
  cases i with
  | zero => simp [badPending]
  | succ j =>
    apply not_badPending_of_head
    · rw [headD_take (by omega)]
      exact hhash
    · rw [headD_take (by omega)]
      cases v with
      | nil => simp at hi
      | cons c0 cs0 =>
        simp only [List.headD_cons]
        exact (hplain c0 (by simp)).2.2.1

/-- Lexing the canonical text of a well-formed node from a state with
clean flags and no pending token: the emitted tokens' shapes are
`nodeToks` and the pending text becomes `nodePend`. -/
theorem lexNode : ∀ (n : Nat) (t : EdnNode), sizeOf t ≤ n → wfNode t = true →
    ∀ (st : LexState), st.inString = false → st.inComment = false →
      st.escaping = false → st.token = [] →
    ∃ ln cl sc newToks,
      lexRun st (canonText t) =
        { st with tokens := st.tokens ++ newToks, token := nodePend t,
                  line := ln, column := cl, stringContent := sc } ∧
      newToks.map tokShape = nodeToks t := by
  intro n
  induction n with
  | zero =>
    intro t hsz
    exact absurd hsz (by have := node_sizeOf_pos t; omega)
  | succ n ih =>
    intro t hsz hwf st hstr hcom hesc htok
    obtain ⟨ty, l, c, v, vs, m⟩ := t
    have hszvs : sizeOf vs ≤ n := by simp at hsz; omega
    have hmemIH : ∀ x ∈ vs, wfNode x = true →
        ∀ (st2 : LexState), st2.inString = false → st2.inComment = false →
          st2.escaping = false → st2.token = [] →
        ∃ ln cl sc newToks,
          lexRun st2 (canonText x) =
            { st2 with tokens := st2.tokens ++ newToks, token := nodePend x,
                       line := ln, column := cl, stringContent := sc } ∧
          newToks.map tokShape = nodeToks x := by
      intro x hx hwx
      refine ih x ?_ hwx
      have := List.sizeOf_lt_of_mem hx
      omega
    obtain ⟨l0, c0, e0, i0, s0, m0, t0, k0⟩ := st
    obtain rfl : i0 = false := hstr
    obtain rfl : m0 = false := hcom
    obtain rfl : e0 = false := hesc
    obtain rfl : t0 = [] := htok
    cases ty
    case EdnNil | EdnSymbol | EdnKeyword | EdnBool | EdnInt | EdnFloat =>
      simp [wfNode] at hwf
      obtain ⟨⟨⟨⟨hne, _⟩, hhash⟩, hplain⟩, _⟩ := hwf
      refine ⟨l0, c0 + v.length, s0, [], ?_, by rw [nodeToks.eq_def]; simp⟩
      rw [show canonText (.mk _ l c v vs m) = v from by rw [canonText.eq_def]; simp,
        show nodePend (.mk _ l c v vs m) = v from by rw [nodePend.eq_def]; simp]
      have hrun := lexRun_plain v ⟨l0, c0, false, false, s0, false, [], k0⟩
        rfl rfl rfl hplain (plain_prefixes_ok v (by simpa using hhash) hplain)
      rw [hrun]
      simp
    case EdnChar =>
      simp only [wfNode, Bool.and_eq_true, decide_eq_true_eq, beq_iff_eq] at hwf
      obtain ⟨⟨hclass, hmatch⟩, hvs⟩ := hwf
      split at hmatch
      · rename_i c2
        refine ⟨l0, c0 + 2, s0, [], ?_, by rw [nodeToks.eq_def]; simp⟩
        rw [show canonText (.mk .EdnChar l c ['\\', c2] vs m) = ['\\', c2] from by
            rw [canonText.eq_def]; simp,
          show nodePend (.mk .EdnChar l c ['\\', c2] vs m) = ['\\', c2] from by
            rw [nodePend.eq_def]; simp]
        have hrun := lexRun_char ⟨l0, c0, false, false, s0, false, [], k0⟩ c2 rfl rfl rfl rfl
          (by simpa using hmatch)
        rw [hrun]
        simp
      · simp at hmatch
    case EdnString =>
      simp [wfNode, goodStringText] at hwf
      obtain ⟨ln3, cl3, tln, tcl, hrun⟩ := lexRun_string v
        ⟨l0, c0, false, false, s0, false, [], k0⟩ rfl rfl rfl
        (fun x hx => ⟨(hwf.1.2.1 x hx).1, (hwf.1.2.1 x hx).2.1⟩)
      dsimp only at hrun
      refine ⟨ln3, cl3, v, [⟨.TokenString, tln, tcl, v⟩], ?_,
        by rw [nodeToks.eq_def]; simp [tokShape]⟩
      rw [show canonText (.mk .EdnString l c v vs m) = '"' :: v ++ ['"'] from by
          rw [canonText.eq_def]; simp,
        show nodePend (.mk .EdnString l c v vs m) = [] from by
          rw [nodePend.eq_def]; simp,
        hrun]
    case EdnDiscard => simp [wfNode] at hwf
    case EdnList =>
      simp [wfNode] at hwf
      obtain ⟨hv, hwfl⟩ := hwf
      subst hv
      have hwfm := wfList_mem hwfl
      have h2 : lexStep ⟨l0, c0, false, false, s0, false, [], k0⟩ '(' =
          ⟨l0, c0 + 1, false, false, s0, false, [], k0 ++ [⟨.TokenParen, l0, c0, ['(']⟩]⟩ := by
        simpa using lexStep_paren ⟨l0, c0, false, false, s0, false, [], k0⟩ '(' rfl rfl rfl
          (by simp [isParenChar])
      obtain ⟨ln2, cl2, sc2, B, hB, hBs⟩ := lexJoin vs
        (fun x hx => hmemIH x hx (hwfm x hx))
        ⟨l0, c0 + 1, false, false, s0, false, [], k0 ++ [⟨.TokenParen, l0, c0, ['(']⟩]⟩
        rfl rfl rfl rfl
      dsimp only at hB
      have h3 := lexStep_paren
        ⟨ln2, cl2, false, false, sc2, false, seqPend vs,
          (k0 ++ [⟨.TokenParen, l0, c0, ['(']⟩]) ++ B⟩ ')' rfl rfl rfl (by simp [isParenChar])
      dsimp only at h3
      refine ⟨ln2, cl2 + 1, sc2,
        ⟨.TokenParen, l0, c0, ['(']⟩ ::
          (B ++ (if seqPend vs ≠ [] then [⟨.TokenAtom, ln2, cl2, seqPend vs⟩] else []) ++
            [⟨.TokenParen, ln2, cl2, [')']⟩]), ?_, ?_⟩
      · rw [show canonText (.mk .EdnList l c [] vs m) = '(' :: (canonJoin vs ++ [')']) from by
            rw [canonText.eq_def]; simp,
          show nodePend (.mk .EdnList l c [] vs m) = [] from by
            rw [nodePend.eq_def]; simp,
          show lexRun ⟨l0, c0, false, false, s0, false, [], k0⟩
              ('(' :: (canonJoin vs ++ [')'])) =
            lexRun (lexStep ⟨l0, c0, false, false, s0, false, [], k0⟩ '(')
              (canonJoin vs ++ [')']) from rfl,
          h2, lexRun_append, hB, lexRun_one, h3]
        simp [List.append_assoc]
      · rw [nodeToks.eq_def]
        simp [tokShape, hBs, map_tokShape_flush, map_tokShape_flush2, List.append_assoc]
    case EdnVector =>
      simp [wfNode] at hwf
      obtain ⟨hv, hwfl⟩ := hwf
      subst hv
      have hwfm := wfList_mem hwfl
      have h2 : lexStep ⟨l0, c0, false, false, s0, false, [], k0⟩ '[' =
          ⟨l0, c0 + 1, false, false, s0, false, [], k0 ++ [⟨.TokenParen, l0, c0, ['[']⟩]⟩ := by
        simpa using lexStep_paren ⟨l0, c0, false, false, s0, false, [], k0⟩ '[' rfl rfl rfl
          (by simp [isParenChar])
      obtain ⟨ln2, cl2, sc2, B, hB, hBs⟩ := lexJoin vs
        (fun x hx => hmemIH x hx (hwfm x hx))
        ⟨l0, c0 + 1, false, false, s0, false, [], k0 ++ [⟨.TokenParen, l0, c0, ['[']⟩]⟩
        rfl rfl rfl rfl
      dsimp only at hB
      have h3 := lexStep_paren
        ⟨ln2, cl2, false, false, sc2, false, seqPend vs,
          (k0 ++ [⟨.TokenParen, l0, c0, ['[']⟩]) ++ B⟩ ']' rfl rfl rfl (by simp [isParenChar])
      dsimp only at h3
      refine ⟨ln2, cl2 + 1, sc2,
        ⟨.TokenParen, l0, c0, ['[']⟩ ::
          (B ++ (if seqPend vs ≠ [] then [⟨.TokenAtom, ln2, cl2, seqPend vs⟩] else []) ++
            [⟨.TokenParen, ln2, cl2, [']']⟩]), ?_, ?_⟩
      · rw [show canonText (.mk .EdnVector l c [] vs m) = '[' :: (canonJoin vs ++ [']']) from by
            rw [canonText.eq_def]; simp,
          show nodePend (.mk .EdnVector l c [] vs m) = [] from by
            rw [nodePend.eq_def]; simp,
          show lexRun ⟨l0, c0, false, false, s0, false, [], k0⟩
              ('[' :: (canonJoin vs ++ [']'])) =
            lexRun (lexStep ⟨l0, c0, false, false, s0, false, [], k0⟩ '[')
              (canonJoin vs ++ [']']) from rfl,
          h2, lexRun_append, hB, lexRun_one, h3]
        simp [List.append_assoc]
      · rw [nodeToks.eq_def]
        simp [tokShape, hBs, map_tokShape_flush, map_tokShape_flush2, List.append_assoc]
    case EdnMap =>
      simp [wfNode] at hwf
      obtain ⟨⟨hv, _⟩, hwfl⟩ := hwf
      subst hv
      have hwfm := wfList_mem hwfl
      have h2 : lexStep ⟨l0, c0, false, false, s0, false, [], k0⟩ '{' =
          ⟨l0, c0 + 1, false, false, s0, false, [], k0 ++ [⟨.TokenParen, l0, c0, ['{']⟩]⟩ := by
        simpa using lexStep_paren ⟨l0, c0, false, false, s0, false, [], k0⟩ '{' rfl rfl rfl
          (by simp [isParenChar])
      obtain ⟨ln2, cl2, sc2, B, hB, hBs⟩ := lexJoin vs
        (fun x hx => hmemIH x hx (hwfm x hx))
        ⟨l0, c0 + 1, false, false, s0, false, [], k0 ++ [⟨.TokenParen, l0, c0, ['{']⟩]⟩
        rfl rfl rfl rfl
      dsimp only at hB
      have h3 := lexStep_paren
        ⟨ln2, cl2, false, false, sc2, false, seqPend vs,
          (k0 ++ [⟨.TokenParen, l0, c0, ['{']⟩]) ++ B⟩ '}' rfl rfl rfl (by simp [isParenChar])
      dsimp only at h3
      refine ⟨ln2, cl2 + 1, sc2,
        ⟨.TokenParen, l0, c0, ['{']⟩ ::
          (B ++ (if seqPend vs ≠ [] then [⟨.TokenAtom, ln2, cl2, seqPend vs⟩] else []) ++
            [⟨.TokenParen, ln2, cl2, ['}']⟩]), ?_, ?_⟩
      · rw [show canonText (.mk .EdnMap l c [] vs m) = '{' :: (canonJoin vs ++ ['}']) from by
            rw [canonText.eq_def]; simp,
          show nodePend (.mk .EdnMap l c [] vs m) = [] from by
            rw [nodePend.eq_def]; simp,
          show lexRun ⟨l0, c0, false, false, s0, false, [], k0⟩
              ('{' :: (canonJoin vs ++ ['}'])) =
            lexRun (lexStep ⟨l0, c0, false, false, s0, false, [], k0⟩ '{')
              (canonJoin vs ++ ['}']) from rfl,
          h2, lexRun_append, hB, lexRun_one, h3]
        simp [List.append_assoc]
      · rw [nodeToks.eq_def]
        simp [tokShape, hBs, map_tokShape_flush, map_tokShape_flush2, List.append_assoc]
    case EdnSet =>
      simp [wfNode] at hwf
      obtain ⟨hv, hwfl⟩ := hwf
      subst hv
      have hwfm := wfList_mem hwfl
      have hh : lexStep ⟨l0, c0, false, false, s0, false, [], k0⟩ '#' =
          ⟨l0, c0 + 1, false, false, s0, false, ['#'], k0⟩ := by
        simpa using lexStep_plain ⟨l0, c0, false, false, s0, false, [], k0⟩ '#'
          rfl rfl rfl (by decide) (by simp [badPending])
      have h2 : lexStep ⟨l0, c0 + 1, false, false, s0, false, ['#'], k0⟩ '{' =
          ⟨l0, c0 + 2, false, false, s0, false, [],
            k0 ++ [⟨.TokenAtom, l0, c0 + 1, ['#']⟩, ⟨.TokenParen, l0, c0 + 1, ['{']⟩]⟩ := by
        simpa using lexStep_paren ⟨l0, c0 + 1, false, false, s0, false, ['#'], k0⟩ '{'
          rfl rfl rfl (by simp [isParenChar])
      obtain ⟨ln2, cl2, sc2, B, hB, hBs⟩ := lexJoin vs
        (fun x hx => hmemIH x hx (hwfm x hx))
        ⟨l0, c0 + 2, false, false, s0, false, [],
          k0 ++ [⟨.TokenAtom, l0, c0 + 1, ['#']⟩, ⟨.TokenParen, l0, c0 + 1, ['{']⟩]⟩
        rfl rfl rfl rfl
      dsimp only at hB
      have h3 := lexStep_paren
        ⟨ln2, cl2, false, false, sc2, false, seqPend vs,
          (k0 ++ [⟨.TokenAtom, l0, c0 + 1, ['#']⟩, ⟨.TokenParen, l0, c0 + 1, ['{']⟩]) ++ B⟩
        '}' rfl rfl rfl (by simp [isParenChar])
      dsimp only at h3
      refine ⟨ln2, cl2 + 1, sc2,
        ⟨.TokenAtom, l0, c0 + 1, ['#']⟩ :: ⟨.TokenParen, l0, c0 + 1, ['{']⟩ ::
          (B ++ (if seqPend vs ≠ [] then [⟨.TokenAtom, ln2, cl2, seqPend vs⟩] else []) ++
            [⟨.TokenParen, ln2, cl2, ['}']⟩]), ?_, ?_⟩
      · rw [show canonText (.mk .EdnSet l c [] vs m) = '#' :: '{' :: (canonJoin vs ++ ['}']) from by
            rw [canonText.eq_def]; simp,
          show nodePend (.mk .EdnSet l c [] vs m) = [] from by
            rw [nodePend.eq_def]; simp,
          show lexRun ⟨l0, c0, false, false, s0, false, [], k0⟩
              ('#' :: '{' :: (canonJoin vs ++ ['}'])) =
            lexRun (lexStep (lexStep ⟨l0, c0, false, false, s0, false, [], k0⟩ '#') '{')
              (canonJoin vs ++ ['}']) from rfl,
          hh, h2, lexRun_append, hB, lexRun_one, h3]
        simp [List.append_assoc]
      · rw [nodeToks.eq_def]
        simp [tokShape, hBs, map_tokShape_flush, map_tokShape_flush2, List.append_assoc]
    case EdnTagged =>
      rcases vs with _ | ⟨tagN, _ | ⟨payload, _ | ⟨z, rest⟩⟩⟩
      · simp [wfNode] at hwf
      · simp [wfNode] at hwf
      · -- vs = [tagN, payload]
        have hpay : ∀ (st2 : LexState), st2.inString = false → st2.inComment = false →
            st2.escaping = false → st2.token = [] →
            wfNode payload = true →
            ∃ ln cl sc newToks,
              lexRun st2 (canonText payload) =
                { st2 with tokens := st2.tokens ++ newToks, token := nodePend payload,
                           line := ln, column := cl, stringContent := sc } ∧
              newToks.map tokShape = nodeToks payload := by
          intro st2 h1 h2 h3 h4 hw
          exact hmemIH payload (by simp) hw st2 h1 h2 h3 h4
        obtain ⟨tty, tl, tc, tv, tvs, tm⟩ := tagN
        simp only [wfNode, Bool.and_eq_true, decide_eq_true_eq, beq_iff_eq,
          List.all_eq_true, EdnNode.value, EdnNode.values, EdnNode.metadata,
          EdnNode.type] at hwf
        obtain ⟨⟨⟨⟨⟨⟨⟨⟨⟨⟨ha, hb⟩, hc2⟩, hd⟩, he⟩, hf⟩, hg⟩, hh2⟩, hi2⟩, hj⟩, hk⟩ := hwf
        subst ha
        have hplainAll : ∀ x ∈ ('#' :: tv), plainAtomChar x := by
          intro x hx
          rcases List.mem_cons.mp hx with rfl | hx2
          · decide
          · exact hj x hx2
        have hpref : ∀ i, i < ('#' :: tv).length → ¬ badPending ([] ++ ('#' :: tv).take i) := by
          intro i hi
          simp only [List.nil_append]
          cases i with
          | zero => simp [badPending]
          | succ j =>
            rw [List.take_succ_cons]
            rintro (habs | ⟨hlen, hhd⟩)
            · have htk : tv.take j = ['_'] := by
                simpa using habs
              have hj1 : 1 ≤ j := by
                rcases Nat.eq_zero_or_pos j with rfl | h
                · simp at htk
                · omega
              have hhd2 := headD_take (v := tv) (i := j) hj1
              rw [htk] at hhd2
              simp at hhd2
              exact hh2 (by simpa using hhd2.symm)
            · simp at hhd
        have hrun1 := lexRun_plain ('#' :: tv) ⟨l0, c0, false, false, s0, false, [], k0⟩
          rfl rfl rfl hplainAll hpref
        simp only [List.nil_append] at hrun1
        have hsp : lexStep
            ⟨l0, c0 + ('#' :: tv).length, false, false, s0, false, '#' :: tv, k0⟩ ' ' =
            ⟨l0, c0 + ('#' :: tv).length + 1, false, false, s0, false, [],
              k0 ++ [⟨.TokenAtom, l0, c0 + ('#' :: tv).length, '#' :: tv⟩]⟩ := by
          simpa using lexStep_space
            ⟨l0, c0 + ('#' :: tv).length, false, false, s0, false, '#' :: tv, k0⟩ rfl rfl rfl
        obtain ⟨ln3, cl3, sc3, P, hP, hPs⟩ := hpay
          ⟨l0, c0 + ('#' :: tv).length + 1, false, false, s0, false, [],
            k0 ++ [⟨.TokenAtom, l0, c0 + ('#' :: tv).length, '#' :: tv⟩]⟩ rfl rfl rfl rfl hk
        dsimp only at hP
        refine ⟨ln3, cl3, sc3,
          ⟨.TokenAtom, l0, c0 + ('#' :: tv).length, '#' :: tv⟩ :: P, ?_, ?_⟩
        · rw [show canonText (.mk .EdnTagged l c [] [.mk tty tl tc tv tvs tm, payload] m) =
              '#' :: tv ++ ' ' :: canonText payload from by
              rw [canonText.eq_def]; simp [EdnNode.value],
            show nodePend (.mk .EdnTagged l c [] [.mk tty tl tc tv tvs tm, payload] m) =
              nodePend payload from by
              rw [nodePend.eq_def]; simp,
            show ('#' :: tv ++ ' ' :: canonText payload : List Char) =
              (('#' :: tv) ++ [' ']) ++ canonText payload from by simp,
            lexRun_append, lexRun_append, hrun1, lexRun_one, hsp, hP]
          simp [List.append_assoc]
        · rw [nodeToks.eq_def]
          simp [tokShape, hPs, EdnNode.value]
      · simp [wfNode] at hwf

/-! ## Parsing the token stream of a printed node -/

/-- The full token-shape stream of a child sequence splits child by
child. -/
theorem allToks_cons (x : EdnNode) (rest : List EdnNode) :
    bodyToks (x :: rest) ++ flushShape (seqPend (x :: rest)) =
      (nodeToks x ++ flushShape (nodePend x)) ++
        (bodyToks rest ++ flushShape (seqPend rest)) := by
  cases rest with
  | nil =>
    rw [bodyToks_single, seqPend_single, bodyToks_nil, seqPend_nil]
    simp [flushShape]
  | cons y rest2 =>
    rw [bodyToks_cons_cons, seqPend_cons_cons]
    simp [List.append_assoc]

/-- The token-shape stream of a well-formed node is nonempty and does not
begin with a lone closing bracket. -/
theorem stream_head_ok (t : EdnNode) (hwf : wfNode t = true) :
    ∃ tk0 tks', nodeToks t ++ flushShape (nodePend t) = tk0 :: tks' ∧
      tk0.2 ≠ [')'] ∧ tk0.2 ≠ [']'] ∧ tk0.2 ≠ ['}'] := by
  obtain ⟨ty, l, c, v, vs, m⟩ := t
  cases ty
  case EdnNil | EdnSymbol | EdnKeyword | EdnBool | EdnInt | EdnFloat =>
    simp [wfNode] at hwf
    obtain ⟨⟨⟨⟨hne, _⟩, _⟩, hplain⟩, _⟩ := hwf
    refine ⟨(.TokenAtom, v), [], ?_, ?_, ?_, ?_⟩
    · rw [nodeToks.eq_def, nodePend.eq_def]
      simp [flushShape, hne]
    · intro habs
      have hv : v = [')'] := habs
      have hmem := hplain ')' (by rw [hv]; simp)
      exact hmem.1 (by decide)
    · intro habs
      have hv : v = [']'] := habs
      have hmem := hplain ']' (by rw [hv]; simp)
      exact hmem.1 (by decide)
    · intro habs
      have hv : v = ['}'] := habs
      have hmem := hplain '}' (by rw [hv]; simp)
      exact hmem.1 (by decide)
  case EdnChar =>
    simp only [wfNode, Bool.and_eq_true, decide_eq_true_eq, beq_iff_eq] at hwf
    obtain ⟨⟨hclass, hmatch⟩, hvs⟩ := hwf
    split at hmatch
    · rename_i c2
      refine ⟨(.TokenAtom, ['\\', c2]), [], ?_, by simp, by simp, by simp⟩
      rw [nodeToks.eq_def, nodePend.eq_def]
      simp [flushShape]
    · simp at hmatch
  case EdnString =>
    simp [wfNode, goodStringText] at hwf
    refine ⟨(.TokenString, v), [], ?_, hwf.1.2.2.1, hwf.1.2.2.2.1, hwf.1.2.2.2.2.1⟩
    rw [nodeToks.eq_def, nodePend.eq_def]
    simp [flushShape]
  case EdnList =>
    refine ⟨(.TokenParen, ['(']),
      bodyToks vs ++ flushShape (seqPend vs) ++ [(.TokenParen, [')'])],
      ?_, by simp, by simp, by simp⟩
    rw [nodeToks.eq_def, nodePend.eq_def]
    simp [flushShape]
  case EdnVector =>
    refine ⟨(.TokenParen, ['[']),
      bodyToks vs ++ flushShape (seqPend vs) ++ [(.TokenParen, [']'])],
      ?_, by simp, by simp, by simp⟩
    rw [nodeToks.eq_def, nodePend.eq_def]
    simp [flushShape]
  case EdnMap =>
    refine ⟨(.TokenParen, ['{']),
      bodyToks vs ++ flushShape (seqPend vs) ++ [(.TokenParen, ['}'])],
      ?_, by simp, by simp, by simp⟩
    rw [nodeToks.eq_def, nodePend.eq_def]
    simp [flushShape]
  case EdnSet =>
    refine ⟨(.TokenAtom, ['#']),
      (.TokenParen, ['{']) :: bodyToks vs ++ flushShape (seqPend vs) ++ [(.TokenParen, ['}'])],
      ?_, by simp, by simp, by simp⟩
    rw [nodeToks.eq_def, nodePend.eq_def]
    simp [flushShape]
  case EdnTagged =>
    rcases vs with _ | ⟨tagN, _ | ⟨payload, _ | ⟨z, rest⟩⟩⟩
    · simp [wfNode] at hwf
    · simp [wfNode] at hwf
    · refine ⟨(.TokenAtom, '#' :: tagN.value),
        nodeToks payload ++ flushShape (nodePend payload),
        ?_, by simp, by simp, by simp⟩
      rw [nodeToks.eq_def, nodePend.eq_def]
      simp [flushShape]
    · simp [wfNode] at hwf
  case EdnDiscard => simp [wfNode] at hwf

/-- `handleAtom` on a plain atom token classifies exactly as
`atomClassify`. -/
theorem handleAtom_classify (l c : Nat) (v : List Char) (ty : NodeType)
    (h : atomClassify v = some ty) :
    handleAtom ⟨.TokenAtom, l, c, v⟩ = .ok (.mk ty l c v [] []) := by
  unfold atomClassify at h
  unfold handleAtom
  split_ifs at h <;> simp_all [Except.map]

/-- `handleAtom` on a string token whose text is not `nil`. -/
theorem handleAtom_string (l c : Nat) (v : List Char) (hnil : ¬ validNil v) :
    handleAtom ⟨.TokenString, l, c, v⟩ = .ok (.mk .EdnString l c v [] []) := by
  unfold handleAtom
  simp [hnil, Except.map]

/-- The collection loop `readSeq` over the token stream of a well-formed
child sequence followed by the expected closer: it rebuilds shape-equal
children and consumes exactly through the closer. -/
theorem parseSeq : ∀ (vs : List EdnNode),
    (∀ x ∈ vs, wfNode x = true) →
    (∀ x ∈ vs, ∀ (tk0 : EdnToken) (tks' rest : List EdnToken) (fuel : Nat),
      (tk0 :: tks').map tokShape = nodeToks x ++ flushShape (nodePend x) →
      2 * (tks'.length + 1) ≤ fuel →
      ∃ t', readAhead fuel tk0 (tks' ++ rest) = .ok (t', rest) ∧ shapeEq x t' = true) →
    ∀ (cs : List EdnToken) (closTok : EdnToken) (rest : List EdnToken)
      (fuel : Nat) (tok : EdnToken) (cp : List Char) (acc : List EdnNode),
      cs.map tokShape = bodyToks vs ++ flushShape (seqPend vs) →
      closTok.value = cp →
      (cp = [')'] ∨ cp = [']'] ∨ cp = ['}']) →
      2 * cs.length + 1 ≤ fuel →
      ∃ vs', readSeq fuel tok cp acc (cs ++ closTok :: rest) =
        .ok (handleCollection tok (acc ++ vs'), rest) ∧
        shapeEqList vs vs' = true := by
  intro vs
  induction vs with
  | nil =>
    intro _ _ cs closTok rest fuel tok cp acc hcs hclos hcp hfuel
    have hcs0 : cs = [] := by
      rw [bodyToks_nil, seqPend_nil] at hcs
      cases cs with
      | nil => rfl
      | cons a b => simp [flushShape] at hcs
    subst hcs0
    cases fuel with
    | zero => omega
    | succ f =>
      refine ⟨[], ?_, by simp [shapeEqList]⟩
      rw [readSeq.eq_2]
      simp only [List.nil_append, List.isEmpty_cons, List.headD_cons, List.tail_cons]
      rw [if_neg Bool.false_ne_true, if_pos hclos]
      simp
  | cons x rest2 ih =>
    intro hwfm hP cs closTok rest fuel tok cp acc hcs hclos hcp hfuel
    rw [allToks_cons x rest2] at hcs
    obtain ⟨cs1, cs2, rfl, hcs1, hcs2⟩ := List.append_eq_map_iff.mp hcs.symm
    obtain ⟨tk0s, tks's, hstream, hcv1, hcv2, hcv3⟩ := stream_head_ok x (hwfm x (by simp))
    rw [hstream] at hcs1
    rcases cs1 with _ | ⟨c0, cs1'⟩
    · simp at hcs1
    cases fuel with
    | zero => simp at hfuel
    | succ f =>
      simp only [List.map_cons, List.cons.injEq] at hcs1
      obtain ⟨hc0, hcs1'⟩ := hcs1
      obtain ⟨x', hx', hshx⟩ := hP x (by simp) c0 cs1' (cs2 ++ closTok :: rest) f
        (by rw [hstream]; simp [hc0, hcs1'])
        (by simp at hfuel ⊢; omega)
      have hval : c0.value = tk0s.2 := congrArg Prod.snd hc0
      have hnotcp : ¬ c0.value = cp := by
        rw [hval]
        rcases hcp with rfl | rfl | rfl
        · exact hcv1
        · exact hcv2
        · exact hcv3
      obtain ⟨vs2', hseq, hshl⟩ := ih (fun z hz => hwfm z (by simp [hz]))
        (fun z hz => hP z (by simp [hz])) cs2 closTok rest f tok cp (acc ++ [x'])
        hcs2 hclos hcp (by simp at hfuel ⊢; omega)
      refine ⟨x' :: vs2', ?_, ?_⟩
      · rw [readSeq.eq_2]
        simp only [List.cons_append, List.isEmpty_cons, List.headD_cons, List.tail_cons,
          List.append_assoc]
        rw [if_neg Bool.false_ne_true, if_neg hnotcp]
        rw [show (cs1' ++ (cs2 ++ closTok :: rest) : List EdnToken) =
          cs1' ++ cs2 ++ closTok :: rest from by simp] at hx'
        rw [show (cs1' ++ (cs2 ++ closTok :: rest) : List EdnToken) =
          cs1' ++ cs2 ++ closTok :: rest from by simp]
        rw [hx']
        show readSeq f tok cp (acc ++ [x']) (cs2 ++ closTok :: rest) = _
        rw [hseq]
        simp
      · simp [shapeEqList, hshx, hshl]

theorem readAhead_atom (f : Nat) (tk0 : EdnToken) (rest : List EdnToken)
    (htype : ¬ tk0.type = .TokenParen)
    (hcl : ¬ (tk0.value = [')'] ∨ tk0.value = [']'] ∨ tk0.value = ['}']))
    (hhash : ¬ (tk0.value ≠ [] ∧ tk0.value.headD ' ' = '#')) :
    readAhead (f + 1) tk0 rest = (handleAtom tk0).map (fun n => (n, rest)) := by
  rw [readAhead.eq_2, if_neg htype, if_neg hcl, if_neg hhash]

theorem readAhead_hash (f : Nat) (tk0 : EdnToken) (toks : List EdnToken)
    (htype : ¬ tk0.type = .TokenParen)
    (hcl : ¬ (tk0.value = [')'] ∨ tk0.value = [']'] ∨ tk0.value = ['}']))
    (hhash : tk0.value ≠ [] ∧ tk0.value.headD ' ' = '#') :
    readAhead (f + 1) tk0 toks =
      if toks.isEmpty then .error "shiftToken on empty token list"
      else match readAhead f (toks.headD defaultToken) toks.tail with
        | .error e => .error e
        | .ok (payload, r2) => (handleTagged tk0 payload).map (fun n => (n, r2)) := by
  rw [readAhead.eq_2, if_neg htype, if_neg hcl, if_pos hhash]

theorem readAhead_paren (f : Nat) (tk0 : EdnToken) (toks : List EdnToken)
    (htype : tk0.type = .TokenParen) :
    readAhead (f + 1) tk0 toks =
      readSeq f tk0
        (if tk0.value = ['('] then [')']
         else if tk0.value = ['['] then [']']
         else if tk0.value = ['{'] then ['}']
         else []) [] toks := by
  rw [readAhead.eq_2, if_pos htype]

/-- Parsing a well-formed atom leaf token. -/
theorem parseNode_leaf (ty : NodeType) (l c : Nat) (v : List Char) (vs : List EdnNode)
    (m : List (List Char × List Char)) (tk0 : EdnToken) (rest : List EdnToken) (f : Nat)
    (htype : tk0.type = .TokenAtom) (hval : tk0.value = v)
    (hclass : atomClassify v = some ty)
    (hvs : vs = [])
    (hcl : ¬ (v = [')'] ∨ v = [']'] ∨ v = ['}']))
    (hhash2 : ¬ (v ≠ [] ∧ v.headD ' ' = '#')) :
    ∃ t', readAhead (f + 1) tk0 rest = .ok (t', rest) ∧
      shapeEq (.mk ty l c v vs m) t' = true := by
  obtain ⟨tkty, tkl, tkc, tkv⟩ := tk0
  obtain rfl : tkty = .TokenAtom := htype
  obtain rfl : v = tkv := hval.symm
  refine ⟨.mk ty tkl tkc v [] [], ?_, ?_⟩
  · rw [readAhead_atom f _ rest (by simp) (by simpa using hcl)
      (by simpa using hhash2),
      handleAtom_classify tkl tkc v ty hclass]
    simp [Except.map]
  · subst hvs
    simp [shapeEq, shapeEqList]

/-- Parsing a well-formed string token. -/
theorem parseNode_string (l c : Nat) (v : List Char) (vs : List EdnNode)
    (m : List (List Char × List Char)) (tk0 : EdnToken) (rest : List EdnToken) (f : Nat)
    (htype : tk0.type = .TokenString) (hval : tk0.value = v)
    (hnil : ¬ validNil v)
    (hvs : vs = [])
    (hcl : ¬ (v = [')'] ∨ v = [']'] ∨ v = ['}']))
    (hhash2 : ¬ (v ≠ [] ∧ v.headD ' ' = '#')) :
    ∃ t', readAhead (f + 1) tk0 rest = .ok (t', rest) ∧
      shapeEq (.mk .EdnString l c v vs m) t' = true := by
  obtain ⟨tkty, tkl, tkc, tkv⟩ := tk0
  obtain rfl : tkty = .TokenString := htype
  obtain rfl : v = tkv := hval.symm
  refine ⟨.mk .EdnString tkl tkc v [] [], ?_, ?_⟩
  · rw [readAhead_atom f _ rest (by simp) (by simpa using hcl)
      (by simpa using hhash2),
      handleAtom_string tkl tkc v hnil]
    simp [Except.map]
  · subst hvs
    simp [shapeEq, shapeEqList]

/-- Parsing the token stream of a well-formed node rebuilds a shape-equal
node, leaving exactly the trailing tokens. -/
theorem parseNode : ∀ (n : Nat) (t : EdnNode), sizeOf t ≤ n → wfNode t = true →
    ∀ (tk0 : EdnToken) (tks' rest : List EdnToken) (fuel : Nat),
      (tk0 :: tks').map tokShape = nodeToks t ++ flushShape (nodePend t) →
      2 * (tks'.length + 1) ≤ fuel →
      ∃ t', readAhead fuel tk0 (tks' ++ rest) = .ok (t', rest) ∧
        shapeEq t t' = true := by
  intro n
  induction n with
  | zero =>
    intro t hsz
    exact absurd hsz (by have := node_sizeOf_pos t; omega)
  | succ n ih =>
    intro t hsz hwf tk0 tks' rest fuel hstream hfuel
    obtain ⟨ty, l, c, v, vs, m⟩ := t
    have hszvs : sizeOf vs ≤ n := by simp at hsz; omega
    have hmemP : ∀ x ∈ vs, wfNode x = true →
        ∀ (tk1 : EdnToken) (tks1 rest1 : List EdnToken) (fuel1 : Nat),
        (tk1 :: tks1).map tokShape = nodeToks x ++ flushShape (nodePend x) →
        2 * (tks1.length + 1) ≤ fuel1 →
        ∃ t', readAhead fuel1 tk1 (tks1 ++ rest1) = .ok (t', rest1) ∧
          shapeEq x t' = true := by
      intro x hx hwx
      refine ih x ?_ hwx
      have := List.sizeOf_lt_of_mem hx
      omega
    cases ty
    case EdnNil | EdnSymbol | EdnKeyword | EdnBool | EdnInt | EdnFloat =>
      simp [wfNode] at hwf
      obtain ⟨⟨⟨⟨hne, hclass⟩, hhash⟩, hplain⟩, hvs⟩ := hwf
      rw [show nodeToks (.mk _ l c v vs m) = [] from by rw [nodeToks.eq_def]; simp,
        show nodePend (.mk _ l c v vs m) = v from by rw [nodePend.eq_def]; simp] at hstream
      rw [show flushShape v = [(.TokenAtom, v)] from by simp [flushShape, hne]] at hstream
      rcases tks' with _ | ⟨a, b⟩
      swap
      · simp at hstream
      simp only [List.map_cons, List.map_nil, List.nil_append, List.cons.injEq,
        and_true] at hstream
      have htype : tk0.type = .TokenAtom := congrArg Prod.fst hstream
      have hval : tk0.value = v := congrArg Prod.snd hstream
      cases fuel with
      | zero => omega
      | succ f =>
        rw [show ([] ++ rest : List EdnToken) = rest from by simp]
        refine parseNode_leaf _ l c v vs m tk0 rest f htype hval hclass hvs ?_ ?_
        · rintro (rfl | rfl | rfl)
          · exact (hplain ')' (by simp)).1 (by decide)
          · exact (hplain ']' (by simp)).1 (by decide)
          · exact (hplain '}' (by simp)).1 (by decide)
        · rintro ⟨-, hh⟩
          exact hhash (by simpa using hh)
    case EdnChar =>
      simp only [wfNode, Bool.and_eq_true, decide_eq_true_eq, beq_iff_eq] at hwf
      obtain ⟨⟨hclass, hmatch⟩, hvs⟩ := hwf
      split at hmatch
      case h_2 => simp at hmatch
      rename_i c2
      rw [show nodeToks (.mk .EdnChar l c ['\\', c2] vs m) = [] from by
          rw [nodeToks.eq_def]; simp,
        show nodePend (.mk .EdnChar l c ['\\', c2] vs m) = ['\\', c2] from by
          rw [nodePend.eq_def]; simp] at hstream
      rw [show flushShape ['\\', c2] = [(.TokenAtom, ['\\', c2])] from by
          simp [flushShape]] at hstream
      rcases tks' with _ | ⟨a, b⟩
      swap
      · simp at hstream
      simp only [List.map_cons, List.map_nil, List.nil_append, List.cons.injEq,
        and_true] at hstream
      have htype : tk0.type = .TokenAtom := congrArg Prod.fst hstream
      have hval : tk0.value = ['\\', c2] := congrArg Prod.snd hstream
      cases fuel with
      | zero => omega
      | succ f =>
        rw [show ([] ++ rest : List EdnToken) = rest from by simp]
        refine parseNode_leaf _ l c ['\\', c2] vs m tk0 rest f htype hval hclass
          (by simpa using hvs) (by simp) (by simp)
    case EdnString =>
      simp [wfNode, goodStringText] at hwf
      obtain ⟨⟨hnil, hchars, hcl1, hcl2, hcl3, hhash⟩, hvs⟩ := hwf
      rw [show nodeToks (.mk .EdnString l c v vs m) = [(.TokenString, v)] from by
          rw [nodeToks.eq_def]; simp,
        show nodePend (.mk .EdnString l c v vs m) = [] from by
          rw [nodePend.eq_def]; simp] at hstream
      rw [show flushShape [] = [] from by simp [flushShape]] at hstream
      rcases tks' with _ | ⟨a, b⟩
      swap
      · simp at hstream
      simp only [List.map_cons, List.map_nil, List.append_nil, List.cons.injEq,
        and_true] at hstream
      have htype : tk0.type = .TokenString := congrArg Prod.fst hstream
      have hval : tk0.value = v := congrArg Prod.snd hstream
      cases fuel with
      | zero => omega
      | succ f =>
        rw [show ([] ++ rest : List EdnToken) = rest from by simp]
        refine parseNode_string l c v vs m tk0 rest f htype hval
          (by simpa [validNil] using hnil) hvs ?_ ?_
        · rintro (rfl | rfl | rfl)
          · exact hcl1 rfl
          · exact hcl2 rfl
          · exact hcl3 rfl
        · rintro ⟨-, hh⟩
          exact hhash (by simpa using hh)
    case EdnDiscard => simp [wfNode] at hwf
    case EdnList =>
      simp [wfNode] at hwf
      obtain ⟨hv, hwfl⟩ := hwf
      subst hv
      have hwfm := wfList_mem hwfl
      rw [show nodeToks (.mk .EdnList l c [] vs m) =
          (.TokenParen, ['(']) :: (bodyToks vs ++ flushShape (seqPend vs) ++
            [(.TokenParen, [')'])]) from by rw [nodeToks.eq_def]; simp,
        show nodePend (.mk .EdnList l c [] vs m) = [] from by
          rw [nodePend.eq_def]; simp] at hstream
      rw [show flushShape [] = [] from by simp [flushShape]] at hstream
      simp only [List.append_nil, List.map_cons, List.cons.injEq] at hstream
      obtain ⟨htk0, htks'⟩ := hstream
      obtain ⟨tkty, tkl, tkc, tkv⟩ := tk0
      simp only [tokShape, Prod.mk.injEq] at htk0
      obtain ⟨rfl, rfl⟩ := htk0
      rw [show (bodyToks vs ++ flushShape (seqPend vs) ++ [((.TokenParen : TokenType), [')'])] :
          List (TokenType × List Char)) =
          (bodyToks vs ++ flushShape (seqPend vs)) ++ [(.TokenParen, [')'])] from by
          simp [List.append_assoc]] at htks'
      obtain ⟨cs, cls, rfl, hcsm, hclsm⟩ := List.append_eq_map_iff.mp htks'.symm
      rcases cls with _ | ⟨closTok, _ | ⟨z2, z3⟩⟩
      · simp at hclsm
      swap
      · simp at hclsm
      simp only [List.map_cons, List.map_nil, List.cons.injEq, and_true] at hclsm
      have hclosv : closTok.value = [')'] := congrArg Prod.snd hclsm
      cases fuel with
      | zero => omega
      | succ f =>
        obtain ⟨vs', hseq, hshl⟩ := parseSeq vs hwfm
          (fun x hx => hmemP x hx (hwfm x hx)) cs closTok rest f
          ⟨.TokenParen, tkl, tkc, ['(']⟩ [')'] [] hcsm hclosv (by simp)
          (by simp at hfuel; omega)
        refine ⟨handleCollection ⟨.TokenParen, tkl, tkc, ['(']⟩ ([] ++ vs'), ?_, ?_⟩
        · rw [readAhead_paren f _ _ rfl]
          rw [show ((if (['('] : List Char) = ['('] then [')']
              else if (['('] : List Char) = ['['] then [']']
              else if (['('] : List Char) = ['{'] then ['}']
              else []) : List Char) = [')'] from by simp]
          rw [show ((cs ++ [closTok]) ++ rest : List EdnToken) = cs ++ closTok :: rest from by
            simp]
          exact hseq
        · simp [handleCollection, shapeEq, hshl]
    case EdnVector =>
      simp [wfNode] at hwf
      obtain ⟨hv, hwfl⟩ := hwf
      subst hv
      have hwfm := wfList_mem hwfl
      rw [show nodeToks (.mk .EdnVector l c [] vs m) =
          (.TokenParen, ['[']) :: (bodyToks vs ++ flushShape (seqPend vs) ++
            [(.TokenParen, [']'])]) from by rw [nodeToks.eq_def]; simp,
        show nodePend (.mk .EdnVector l c [] vs m) = [] from by
          rw [nodePend.eq_def]; simp] at hstream
      rw [show flushShape [] = [] from by simp [flushShape]] at hstream
      simp only [List.append_nil, List.map_cons, List.cons.injEq] at hstream
      obtain ⟨htk0, htks'⟩ := hstream
      obtain ⟨tkty, tkl, tkc, tkv⟩ := tk0
      simp only [tokShape, Prod.mk.injEq] at htk0
      obtain ⟨rfl, rfl⟩ := htk0
      rw [show (bodyToks vs ++ flushShape (seqPend vs) ++ [((.TokenParen : TokenType), [']'])] :
          List (TokenType × List Char)) =
          (bodyToks vs ++ flushShape (seqPend vs)) ++ [(.TokenParen, [']'])] from by
          simp [List.append_assoc]] at htks'
      obtain ⟨cs, cls, rfl, hcsm, hclsm⟩ := List.append_eq_map_iff.mp htks'.symm
      rcases cls with _ | ⟨closTok, _ | ⟨z2, z3⟩⟩
      · simp at hclsm
      swap
      · simp at hclsm
      simp only [List.map_cons, List.map_nil, List.cons.injEq, and_true] at hclsm
      have hclosv : closTok.value = [']'] := congrArg Prod.snd hclsm
      cases fuel with
      | zero => omega
      | succ f =>
        obtain ⟨vs', hseq, hshl⟩ := parseSeq vs hwfm
          (fun x hx => hmemP x hx (hwfm x hx)) cs closTok rest f
          ⟨.TokenParen, tkl, tkc, ['[']⟩ [']'] [] hcsm hclosv (by simp)
          (by simp at hfuel; omega)
        refine ⟨handleCollection ⟨.TokenParen, tkl, tkc, ['[']⟩ ([] ++ vs'), ?_, ?_⟩
        · rw [readAhead_paren f _ _ rfl]
          rw [show ((if (['['] : List Char) = ['('] then [')']
              else if (['['] : List Char) = ['['] then [']']
              else if (['['] : List Char) = ['{'] then ['}']
              else []) : List Char) = [']'] from by simp]
          rw [show ((cs ++ [closTok]) ++ rest : List EdnToken) = cs ++ closTok :: rest from by
            simp]
          exact hseq
        · simp [handleCollection, shapeEq, hshl]
    case EdnMap =>
      simp [wfNode] at hwf
      obtain ⟨⟨hv, _⟩, hwfl⟩ := hwf
      subst hv
      have hwfm := wfList_mem hwfl
      rw [show nodeToks (.mk .EdnMap l c [] vs m) =
          (.TokenParen, ['{']) :: (bodyToks vs ++ flushShape (seqPend vs) ++
            [(.TokenParen, ['}'])]) from by rw [nodeToks.eq_def]; simp,
        show nodePend (.mk .EdnMap l c [] vs m) = [] from by
          rw [nodePend.eq_def]; simp] at hstream
      rw [show flushShape [] = [] from by simp [flushShape]] at hstream
      simp only [List.append_nil, List.map_cons, List.cons.injEq] at hstream
      obtain ⟨htk0, htks'⟩ := hstream
      obtain ⟨tkty, tkl, tkc, tkv⟩ := tk0
      simp only [tokShape, Prod.mk.injEq] at htk0
      obtain ⟨rfl, rfl⟩ := htk0
      rw [show (bodyToks vs ++ flushShape (seqPend vs) ++ [((.TokenParen : TokenType), ['}'])] :
          List (TokenType × List Char)) =
          (bodyToks vs ++ flushShape (seqPend vs)) ++ [(.TokenParen, ['}'])] from by
          simp [List.append_assoc]] at htks'
      obtain ⟨cs, cls, rfl, hcsm, hclsm⟩ := List.append_eq_map_iff.mp htks'.symm
      rcases cls with _ | ⟨closTok, _ | ⟨z2, z3⟩⟩
      · simp at hclsm
      swap
      · simp at hclsm
      simp only [List.map_cons, List.map_nil, List.cons.injEq, and_true] at hclsm
      have hclosv : closTok.value = ['}'] := congrArg Prod.snd hclsm
      cases fuel with
      | zero => omega
      | succ f =>
        obtain ⟨vs', hseq, hshl⟩ := parseSeq vs hwfm
          (fun x hx => hmemP x hx (hwfm x hx)) cs closTok rest f
          ⟨.TokenParen, tkl, tkc, ['{']⟩ ['}'] [] hcsm hclosv (by simp)
          (by simp at hfuel; omega)
        refine ⟨handleCollection ⟨.TokenParen, tkl, tkc, ['{']⟩ ([] ++ vs'), ?_, ?_⟩
        · rw [readAhead_paren f _ _ rfl]
          rw [show ((if (['{'] : List Char) = ['('] then [')']
              else if (['{'] : List Char) = ['['] then [']']
              else if (['{'] : List Char) = ['{'] then ['}']
              else []) : List Char) = ['}'] from by simp]
          rw [show ((cs ++ [closTok]) ++ rest : List EdnToken) = cs ++ closTok :: rest from by
            simp]
          exact hseq
        · simp [handleCollection, shapeEq, hshl]
    case EdnSet =>
      simp [wfNode] at hwf
      obtain ⟨hv, hwfl⟩ := hwf
      subst hv
      have hwfm := wfList_mem hwfl
      rw [show nodeToks (.mk .EdnSet l c [] vs m) =
          (.TokenAtom, ['#']) :: ((.TokenParen, ['{']) ::
            (bodyToks vs ++ flushShape (seqPend vs) ++ [(.TokenParen, ['}'])])) from by
          rw [nodeToks.eq_def]; simp,
        show nodePend (.mk .EdnSet l c [] vs m) = [] from by
          rw [nodePend.eq_def]; simp] at hstream
      rw [show flushShape [] = [] from by simp [flushShape]] at hstream
      simp only [List.append_nil, List.map_cons, List.cons.injEq] at hstream
      obtain ⟨htk0, hrest1⟩ := hstream
      obtain ⟨tkty, tkl, tkc, tkv⟩ := tk0
      simp only [tokShape, Prod.mk.injEq] at htk0
      obtain ⟨rfl, rfl⟩ := htk0
      rcases tks' with _ | ⟨parenTok, tks''⟩
      · simp at hrest1
      simp only [List.map_cons, List.cons.injEq] at hrest1
      obtain ⟨hpar, htks''⟩ := hrest1
      obtain ⟨pty, pl, pc, pv⟩ := parenTok
      simp only [tokShape, Prod.mk.injEq] at hpar
      obtain ⟨rfl, rfl⟩ := hpar
      rw [show (bodyToks vs ++ flushShape (seqPend vs) ++ [((.TokenParen : TokenType), ['}'])] :
          List (TokenType × List Char)) =
          (bodyToks vs ++ flushShape (seqPend vs)) ++ [(.TokenParen, ['}'])] from by
          simp [List.append_assoc]] at htks''
      obtain ⟨cs, cls, rfl, hcsm, hclsm⟩ := List.append_eq_map_iff.mp htks''.symm
      rcases cls with _ | ⟨closTok, _ | ⟨z2, z3⟩⟩
      · simp at hclsm
      swap
      · simp at hclsm
      simp only [List.map_cons, List.map_nil, List.cons.injEq, and_true] at hclsm
      have hclosv : closTok.value = ['}'] := congrArg Prod.snd hclsm
      have hfuel2 : ∃ f2, fuel = f2 + 2 := ⟨fuel - 2, by simp at hfuel; omega⟩
      obtain ⟨f2, rfl⟩ := hfuel2
      obtain ⟨vs', hseq, hshl⟩ := parseSeq vs hwfm
        (fun x hx => hmemP x hx (hwfm x hx)) cs closTok rest f2
        ⟨.TokenParen, pl, pc, ['{']⟩ ['}'] [] hcsm hclosv (by simp)
        (by simp at hfuel; omega)
      refine ⟨.mk .EdnSet tkl tkc [] ([] ++ vs') [], ?_, ?_⟩
      · rw [show (f2 + 2) = (f2 + 1) + 1 from rfl,
          readAhead_hash (f2 + 1) _ _ (by simp) (by simp) (by simp)]
        simp only [List.cons_append, List.isEmpty_cons, Bool.false_eq_true, if_false,
          List.headD_cons, List.tail_cons]
        rw [readAhead_paren f2 _ _ rfl]
        rw [show ((if (['{'] : List Char) = ['('] then [')']
            else if (['{'] : List Char) = ['['] then [']']
            else if (['{'] : List Char) = ['{'] then ['}']
            else []) : List Char) = ['}'] from by simp]
        rw [show ((cs ++ [closTok]) ++ rest : List EdnToken) = cs ++ closTok :: rest from by
          simp]
        rw [hseq]
        show (handleTagged ⟨.TokenAtom, tkl, tkc, ['#']⟩
            (handleCollection ⟨.TokenParen, pl, pc, ['{']⟩ ([] ++ vs'))).map
            (fun n => (n, rest)) = _
        simp [handleTagged, handleCollection, cppSubstr, EdnNode.type, EdnNode.values,
          Except.map]
      · simp [shapeEq, hshl]
    case EdnTagged =>
      rcases vs with _ | ⟨tagN, _ | ⟨payload, _ | ⟨z, zrest⟩⟩⟩
      · simp [wfNode] at hwf
      · simp [wfNode] at hwf
      · obtain ⟨tty, tl, tc, tv, tvs, tm⟩ := tagN
        simp only [wfNode, Bool.and_eq_true, decide_eq_true_eq, beq_iff_eq,
          List.all_eq_true, EdnNode.value, EdnNode.values, EdnNode.metadata,
          EdnNode.type] at hwf
        obtain ⟨⟨⟨⟨⟨⟨⟨⟨⟨⟨ha, hb⟩, hc2⟩, hd⟩, he⟩, hf⟩, hg⟩, hh2⟩, hi2⟩, hj⟩, hk⟩ := hwf
        subst ha
        rw [show nodeToks (.mk .EdnTagged l c []
              [.mk tty tl tc tv tvs tm, payload] m) =
            (.TokenAtom, '#' :: tv) :: nodeToks payload from by
            rw [nodeToks.eq_def]; simp [EdnNode.value],
          show nodePend (.mk .EdnTagged l c []
              [.mk tty tl tc tv tvs tm, payload] m) = nodePend payload from by
            rw [nodePend.eq_def]; simp] at hstream
        simp only [List.map_cons, List.cons_append, List.cons.injEq] at hstream
        obtain ⟨htk0, hptoks⟩ := hstream
        obtain ⟨tkty, tkl, tkc, tkv⟩ := tk0
        simp only [tokShape, Prod.mk.injEq] at htk0
        obtain ⟨rfl, rfl⟩ := htk0
        obtain ⟨p0s, ptks's, hpstream, -, -, -⟩ := stream_head_ok payload hk
        rw [hpstream] at hptoks
        rcases tks' with _ | ⟨p0, ptks'⟩
        · simp at hptoks
        cases fuel with
        | zero => omega
        | succ f =>
          obtain ⟨p', hp', hshp⟩ := hmemP payload (by simp) hk p0 ptks' rest f
            (by rw [hpstream]; exact hptoks) (by simp at hfuel ⊢; omega)
          refine ⟨.mk .EdnTagged tkl tkc [] [.mk tty tkl 0 tv [] [], p'] [], ?_, ?_⟩
          · rw [readAhead_hash f _ _ (by simp) (by simp) (by simp)]
            simp only [List.cons_append, List.isEmpty_cons, Bool.false_eq_true, if_false,
              List.headD_cons, List.tail_cons]
            rw [hp']
            show (handleTagged ⟨.TokenAtom, tkl, tkc, '#' :: tv⟩ p').map
              (fun n => (n, rest)) = _
            rw [show handleTagged ⟨.TokenAtom, tkl, tkc, '#' :: tv⟩ p' =
                .ok (.mk .EdnTagged tkl tkc [] [.mk tty tkl 0 tv [] [], p'] []) from ?_]
            · simp [Except.map]
            · unfold handleTagged
              rw [show cppSubstr ('#' :: tv) 1 (('#' :: tv).length - 1) = tv from by
                simp [cppSubstr]]
              rw [if_neg hf, if_neg (by simpa using he),
                handleAtom_classify tkl 0 tv tty hd]
              simp [Except.map, if_neg hg]
          · have htvs : tvs = [] := by simpa using hb
            subst htvs
            simp [shapeEq, shapeEqList, hshp]
      · simp [wfNode] at hwf

/-- Claim C5, counterexample: the source `#_ 5` parses to a `Discard`
node, whose canonical single-line print is the EMPTY string (`pprint`
falls through to the node's empty `value`), and reparsing the printed
text fails outright — so the round trip does not return a structurally
identical tree for every parseable source. -/
theorem C5_counterexample :
    ∃ nd, read "#_ 5".toList = .ok nd ∧ nd.type = .EdnDiscard ∧ pprintSL nd = [] ∧
      read (pprintSL nd) = .error "No parsable tokens found in string" :=
  ⟨.mk .EdnDiscard 1 3 [] [.mk .EdnSymbol 1 0 ['_'] [] [], .mk .EdnInt 1 5 ['5'] [] []] [],
    rfl, rfl, rfl, rfl⟩

/-- Claim C5, amended: for every WELL-FORMED tree (`wfNode`: leaf texts
nonempty, plain and classifying back to their own kind; strings
`goodStringText`; maps with evenly many children; tagged nodes with a
valid non-`_` tag; no `Discard`), printing in canonical single-line mode
and reparsing yields a tree with the same kinds, texts and child
structure. -/
theorem C5_amended (t : EdnNode) (hwf : wfNode t = true) :
    ∃ t', read (pprintSL t) = .ok t' ∧ shapeEq t t' = true := by
  have hprint : pprintSL t = canonText t := pprint_eq_canonText (sizeOf t) t le_rfl hwf 0
  obtain ⟨ln, cl, sc, newToks, hlex, hshapes⟩ :=
    lexNode (sizeOf t) t le_rfl hwf initLexState rfl rfl rfl rfl
  have hlex2 : lex (canonText t) =
      newToks ++ (if nodePend t ≠ [] then [⟨.TokenAtom, ln, cl, nodePend t⟩] else []) := by
    rw [lex, hlex]
    by_cases hp : nodePend t = [] <;>
      simp [flushToken, createToken, initLexState, hp]
  have hSmap : (lex (canonText t)).map tokShape =
      nodeToks t ++ flushShape (nodePend t) := by
    rw [hlex2]
    by_cases hp : nodePend t = [] <;>
      simp [hp, flushShape, tokShape, hshapes]
  obtain ⟨tk0s, tks's, hstream, -, -, -⟩ := stream_head_ok t hwf
  rcases hS : lex (canonText t) with _ | ⟨tk0, tks'⟩
  · rw [hS, hstream] at hSmap
    simp at hSmap
  · rw [hS] at hSmap
    obtain ⟨t', hread, hshape⟩ := parseNode (sizeOf t) t le_rfl hwf tk0 tks' []
      (readFuel (tk0 :: tks')) hSmap (by simp [readFuel])
    refine ⟨t', ?_, hshape⟩
    rw [hprint]
    have hrt : read (canonText t) =
        (readAhead (readFuel (tk0 :: tks')) tk0 tks').map Prod.fst := by
      unfold read
      rw [hS]
      rfl
    rw [show (tks' ++ [] : List EdnToken) = tks' from by simp] at hread
    rw [hrt, hread]
    rfl

/-- Witness for the amended claim C5 on the tree of `(+ 42)`: printing
and reparsing reproduces its shape. -/
theorem C5_amended_witness :
    ∃ t', read (pprintSL (.mk .EdnList 1 1 []
        [.mk .EdnSymbol 1 3 ['+'] [] [], .mk .EdnInt 1 5 ['4','2'] [] []] [])) = .ok t' ∧
      shapeEq (.mk .EdnList 1 1 []
        [.mk .EdnSymbol 1 3 ['+'] [] [], .mk .EdnInt 1 5 ['4','2'] [] []] []) t' = true :=
  C5_amended _ (by decide)

end Edn

namespace Engine

/-- Applied form of `EngM.pure` (rewrites only applied occurrences). -/
theorem EngM_pure_apply {α : Type} (a : α) (s : EngState) :
    EngM.pure a s = Except.ok (a, s) := rfl

/-- A successful `CreateICmp*` always yields an `i1` value. -/
theorem createICmp_ok_ty (p : String) (cmp : Int → Int → Bool) (a b : Value)
    (s s' : EngState) (v : Value)
    (h : createICmp p cmp a b s = Except.ok (v, s')) : v.ty = .int 1 := by
  unfold createICmp at h
  split at h
  · simp [throwE] at h
  · split at h
    all_goals
      simp only [EngM_bind_def, EngM_pure_def, freshId, emit, Except.ok.injEq,
        Prod.mk.injEq] at h
      obtain ⟨rfl, -⟩ := h
      rfl

/-- A successful `CreateUIToFP` yields a value of the requested type. -/
theorem createUIToFP_ok_ty (a : Value) (ty : LTy) (s s' : EngState) (v : Value)
    (h : createUIToFP a ty s = Except.ok (v, s')) : v.ty = ty := by
  unfold createUIToFP at h
  split at h
  · simp [throwE] at h
  · split at h
    · simp [throwE] at h
    · split at h
      all_goals
        simp only [EngM_bind_def, EngM_pure_def, freshId, emit, Except.ok.injEq,
          Prod.mk.injEq] at h
        obtain ⟨rfl, -⟩ := h
        rfl

/-- A successful `CreateSIToFP` yields a value of the requested type. -/
theorem createSIToFP_ok_ty (a : Value) (ty : LTy) (s s' : EngState) (v : Value)
    (h : createSIToFP a ty s = Except.ok (v, s')) : v.ty = ty := by
  unfold createSIToFP at h
  split at h
  · simp [throwE] at h
  · split at h
    · simp [throwE] at h
    · split at h
      all_goals
        simp only [EngM_bind_def, EngM_pure_def, freshId, emit, Except.ok.injEq,
          Prod.mk.injEq] at h
        obtain ⟨rfl, -⟩ := h
        rfl

/-- A successful `CreateIntCast` yields a value of the requested type. -/
theorem createIntCast_ok_ty (a : Value) (ty : LTy) (s s' : EngState) (v : Value)
    (h : createIntCast a ty s = Except.ok (v, s')) : v.ty = ty := by
  unfold createIntCast at h
  split at h
  · simp [throwE] at h
  · split at h
    · rename_i hveq
      simp only [EngM_pure_def, Except.ok.injEq, Prod.mk.injEq] at h
      obtain ⟨rfl, -⟩ := h
      exact hveq
    · split at h
      all_goals
        simp only [EngM_bind_def, EngM_pure_def, freshId, emit, Except.ok.injEq,
          Prod.mk.injEq] at h
        obtain ⟨rfl, -⟩ := h
        rfl

/-- A successful integer arithmetic builder call yields a value of the left
operand's type. -/
theorem createIntArith_ok_ty (op : String) (a b : Value)
    (fold : Option (Int → Int → Int)) (s s' : EngState) (v : Value)
    (h : createIntArith op a b fold s = Except.ok (v, s')) : v.ty = a.ty := by
  unfold createIntArith at h
  split at h
  · simp [throwE] at h
  · split at h
    all_goals
      simp only [EngM_bind_def, EngM_pure_def, freshId, emit, Except.ok.injEq,
        Prod.mk.injEq] at h
      obtain ⟨rfl, -⟩ := h
      rfl

/-- A successful float arithmetic builder call yields a value of the left
operand's type. -/
theorem createFloatArith_ok_ty (op : String) (a b : Value)
    (fold : Option (ℚ → ℚ → ℚ)) (s s' : EngState) (v : Value)
    (h : createFloatArith op a b fold s = Except.ok (v, s')) : v.ty = a.ty := by
  unfold createFloatArith at h
  split at h
  · simp [throwE] at h
  · split at h
    all_goals
      simp only [EngM_bind_def, EngM_pure_def, freshId, emit, Except.ok.injEq,
        Prod.mk.injEq] at h
      obtain ⟨rfl, -⟩ := h
      rfl

/-- A successful `CreateSDiv` yields a value of the left operand's type. -/
theorem createSDiv_ok_ty (a b : Value) (s s' : EngState) (v : Value)
    (h : createSDiv a b s = Except.ok (v, s')) : v.ty = a.ty := by
  unfold createSDiv at h
  split at h
  · simp [throwE] at h
  · split at h
    · split at h
      all_goals
        simp only [EngM_bind_def, EngM_pure_def, freshId, emit, Except.ok.injEq,
          Prod.mk.injEq] at h
        obtain ⟨rfl, -⟩ := h
        rfl
    · simp only [EngM_bind_def, EngM_pure_def, freshId, emit, Except.ok.injEq,
        Prod.mk.injEq] at h
      obtain ⟨rfl, -⟩ := h
      rfl

/-- A successful `CreateFDiv` yields a value of the left operand's type. -/
theorem createFDiv_ok_ty (a b : Value) (s s' : EngState) (v : Value)
    (h : createFDiv a b s = Except.ok (v, s')) : v.ty = a.ty := by
  unfold createFDiv at h
  split at h
  · simp [throwE] at h
  · split at h
    · split at h
      all_goals
        simp only [EngM_bind_def, EngM_pure_def, freshId, emit, Except.ok.injEq,
          Prod.mk.injEq] at h
        obtain ⟨rfl, -⟩ := h
        rfl
    · simp only [EngM_bind_def, EngM_pure_def, freshId, emit, Except.ok.injEq,
        Prod.mk.injEq] at h
      obtain ⟨rfl, -⟩ := h
      rfl

/-- A comparison wrapped in `CreateUIToFP` to `double` yields a `float64`
value whenever it succeeds. -/
theorem bind_uitofp_ty (x : EngM Value) (s s' : EngState) (v : Value)
    (h : (x >>= fun c => createUIToFP c LTy.f64) s = Except.ok (v, s')) :
    v.ty = LTy.f64 := by
  rw [EngM_bind_def] at h
  rcases hx : x s with e | ⟨c, s1⟩
  · rw [hx] at h
    simp at h
  · rw [hx] at h
    dsimp only at h
    exact createUIToFP_ok_ty _ _ _ _ _ h

/-- Typing of the integer operator dispatch of `codegenBinop`: on success a
comparison yields `i1` and an arithmetic operator yields the (promoted)
left operand's type. -/
theorem intBinopOps_ok_ty (op : List Char) (lhs rhs : Value) (s s' : EngState)
    (v : Value) (h : intBinopOps op lhs rhs s = Except.ok (v, s')) :
    (isCmpOp op = true → v.ty = .int 1) ∧ (isArithOp op = true → v.ty = lhs.ty) := by
  unfold intBinopOps at h
  by_cases h1 : op = "==".toList
  · rw [if_pos h1] at h
    exact ⟨fun _ => createICmp_ok_ty _ _ _ _ _ _ _ h,
      fun hA => absurd (h1 ▸ hA) (by decide)⟩
  · rw [if_neg h1] at h
    by_cases h2 : op = "!=".toList
    · rw [if_pos h2] at h
      exact ⟨fun _ => createICmp_ok_ty _ _ _ _ _ _ _ h,
        fun hA => absurd (h2 ▸ hA) (by decide)⟩
    · rw [if_neg h2] at h
      by_cases h3 : op = "<".toList
      · rw [if_pos h3] at h
        exact ⟨fun _ => createICmp_ok_ty _ _ _ _ _ _ _ h,
          fun hA => absurd (h3 ▸ hA) (by decide)⟩
      · rw [if_neg h3] at h
        by_cases h4 : op = "<=".toList
        · rw [if_pos h4] at h
          exact ⟨fun _ => createICmp_ok_ty _ _ _ _ _ _ _ h,
            fun hA => absurd (h4 ▸ hA) (by decide)⟩
        · rw [if_neg h4] at h
          by_cases h5 : op = ">".toList
          · rw [if_pos h5] at h
            exact ⟨fun _ => createICmp_ok_ty _ _ _ _ _ _ _ h,
              fun hA => absurd (h5 ▸ hA) (by decide)⟩
          · rw [if_neg h5] at h
            by_cases h6 : op = ">=".toList
            · rw [if_pos h6] at h
              exact ⟨fun _ => createICmp_ok_ty _ _ _ _ _ _ _ h,
                fun hA => absurd (h6 ▸ hA) (by decide)⟩
            · rw [if_neg h6] at h
              by_cases h7 : op = "+".toList
              · rw [if_pos h7] at h
                exact ⟨fun hC => absurd (h7 ▸ hC) (by decide),
                  fun _ => createIntArith_ok_ty _ _ _ _ _ _ _ h⟩
              · rw [if_neg h7] at h
                by_cases h8 : op = "-".toList
                · rw [if_pos h8] at h
                  exact ⟨fun hC => absurd (h8 ▸ hC) (by decide),
                    fun _ => createIntArith_ok_ty _ _ _ _ _ _ _ h⟩
                · rw [if_neg h8] at h
                  by_cases h9 : op = "*".toList
                  · rw [if_pos h9] at h
                    exact ⟨fun hC => absurd (h9 ▸ hC) (by decide),
                      fun _ => createIntArith_ok_ty _ _ _ _ _ _ _ h⟩
                  · rw [if_neg h9] at h
                    by_cases h10 : op = "/".toList
                    · rw [if_pos h10] at h
                      exact ⟨fun hC => absurd (h10 ▸ hC) (by decide),
                        fun _ => createSDiv_ok_ty _ _ _ _ _ h⟩
                    · rw [if_neg h10] at h
                      simp [throwE] at h

/-- Typing of the floating operator dispatch of `codegenBinop`: when the
left operand is `float64`, every successful result is `float64` (the
comparisons through `CreateUIToFP`, the arithmetic operators directly). -/
theorem floatBinopOps_ok_ty (op : List Char) (lhs rhs : Value) (s s' : EngState)
    (v : Value) (hl : lhs.ty = LTy.f64)
    (h : floatBinopOps op lhs rhs s = Except.ok (v, s')) : v.ty = LTy.f64 := by
  unfold floatBinopOps at h
  by_cases h1 : op = "==".toList
  · rw [if_pos h1] at h
    exact bind_uitofp_ty _ _ _ _ h
  · rw [if_neg h1] at h
    by_cases h2 : op = "!=".toList
    · rw [if_pos h2] at h
      exact bind_uitofp_ty _ _ _ _ h
    · rw [if_neg h2] at h
      by_cases h3 : op = "<".toList
      · rw [if_pos h3] at h
        exact bind_uitofp_ty _ _ _ _ h
      · rw [if_neg h3] at h
        by_cases h4 : op = "<=".toList
        · rw [if_pos h4] at h
          exact bind_uitofp_ty _ _ _ _ h
        · rw [if_neg h4] at h
          by_cases h5 : op = ">".toList
          · rw [if_pos h5] at h
            exact bind_uitofp_ty _ _ _ _ h
          · rw [if_neg h5] at h
            by_cases h6 : op = ">=".toList
            · rw [if_pos h6] at h
              exact bind_uitofp_ty _ _ _ _ h
            · rw [if_neg h6] at h
              by_cases h7 : op = "+".toList
              · rw [if_pos h7] at h
                exact (createFloatArith_ok_ty _ _ _ _ _ _ _ h).trans hl
              · rw [if_neg h7] at h
                by_cases h8 : op = "-".toList
                · rw [if_pos h8] at h
                  exact (createFloatArith_ok_ty _ _ _ _ _ _ _ h).trans hl
                · rw [if_neg h8] at h
                  by_cases h9 : op = "*".toList
                  · rw [if_pos h9] at h
                    exact (createFloatArith_ok_ty _ _ _ _ _ _ _ h).trans hl
                  · rw [if_neg h9] at h
                    by_cases h10 : op = "/".toList
                    · rw [if_pos h10] at h
                      exact (createFDiv_ok_ty _ _ _ _ _ h).trans hl
                    · rw [if_neg h10] at h
                      simp [throwE] at h

/-- Claim C6, counterexample: the comparison `(== 1 2)` has two operands
of declared type `int32` (width 32 on both sides), yet the resulting IR
value has type `i1` — not an integer of the larger operand width, and not
`float64`.  The integer comparison path returns the raw `CreateICmp`
result without any cast. -/
theorem C6_counterexample :
    codegenBinop 2 C6cmpNode initEngState = Except.ok (Value.cint 1 0, initEngState) ∧
    getLLVMType (binopOperandType C6one initEngState.llvmSymbolTable) =
      Except.ok (LTy.int 32) ∧
    getLLVMType (binopOperandType C6two initEngState.llvmSymbolTable) =
      Except.ok (LTy.int 32) ∧
    (Value.cint 1 0).ty ≠ LTy.int 32 ∧ (Value.cint 1 0).ty ≠ LTy.f64 :=
  ⟨rfl, rfl, rfl, by decide, by decide⟩

/-- Claim C6, amended: for a binary operator application whose operands
lower successfully and whose declared operand types resolve, and whose
lowered operand values actually carry the declared left type (with
floating declared types being `float64`, the only floating type the
literal and `:float64` paths produce): if either declared operand type is
floating the result value is `float64` (comparisons included, via
`CreateUIToFP`); if both are integer types the result of a comparison is
`i1` — not the larger operand width — and the result of an arithmetic
operator is the larger operand width. -/
theorem C6_amended (fuel : Nat) (node opNode aN bN : Edn.EdnNode)
    (st s1 s2 st' : EngState) (la lb v : Value) (ta tb : LTy)
    (hvals : node.values = [opNode, aN, bN])
    (h1 : codegenExpr fuel aN st = Except.ok (some la, s1))
    (h2 : codegenExpr fuel bN s1 = Except.ok (some lb, s2))
    (hta : getLLVMType (binopOperandType aN s2.llvmSymbolTable) = Except.ok ta)
    (htb : getLLVMType (binopOperandType bN s2.llvmSymbolTable) = Except.ok tb)
    (hla : la.ty = ta)
    (h64a : ta.isFloatingPointTy = true → ta = LTy.f64)
    (hrun : codegenBinop (fuel + 1) node st = Except.ok (v, st')) :
    ((ta.isFloatingPointTy || tb.isFloatingPointTy) = true → v.ty = LTy.f64) ∧
    (∀ wa wb : Nat, ta = LTy.int wa → tb = LTy.int wb →
      ((isCmpOp opNode.value = true → v.ty = LTy.int 1) ∧
       (isArithOp opNode.value = true → v.ty = LTy.int (max wa wb)))) := by
  unfold codegenBinop at hrun
  rw [hvals] at hrun
  simp only [EngM_bind_def, h1, h2, getS, liftE, hta, htb, need, EngM_pure_apply] at hrun
  constructor
  · intro hf
    rw [if_neg (by simp [hf])] at hrun
    by_cases hfa : ta.isFloatingPointTy = false
    · rw [if_pos hfa] at hrun
      simp only [EngM_bind_def] at hrun
      rcases hL : createSIToFP la LTy.f64 s2 with e | ⟨lhs, s3⟩
      · rw [hL] at hrun
        simp at hrun
      · have hlty : lhs.ty = LTy.f64 := createSIToFP_ok_ty _ _ _ _ _ hL
        rw [hL] at hrun
        dsimp only at hrun
        by_cases hfb : tb.isFloatingPointTy = false
        · rw [if_pos hfb] at hrun
          simp only [EngM_bind_def] at hrun
          rcases hR : createSIToFP lb LTy.f64 s3 with e | ⟨rhs, s4⟩
          · rw [hR] at hrun
            simp at hrun
          · rw [hR] at hrun
            dsimp only at hrun
            exact floatBinopOps_ok_ty _ _ _ _ _ _ hlty hrun
        · rw [if_neg hfb] at hrun
          simp only [EngM_bind_def, EngM_pure_apply] at hrun
          exact floatBinopOps_ok_ty _ _ _ _ _ _ hlty hrun
    · rw [if_neg hfa] at hrun
      simp only [EngM_bind_def, EngM_pure_apply] at hrun
      have hlty : la.ty = LTy.f64 := by
        rw [hla]
        refine h64a ?_
        cases hx : ta.isFloatingPointTy
        · exact absurd hx hfa
        · rfl
      by_cases hfb : tb.isFloatingPointTy = false
      · rw [if_pos hfb] at hrun
        simp only [EngM_bind_def] at hrun
        rcases hR : createSIToFP lb LTy.f64 s2 with e | ⟨rhs, s4⟩
        · rw [hR] at hrun
          simp at hrun
        · rw [hR] at hrun
          dsimp only at hrun
          exact floatBinopOps_ok_ty _ _ _ _ _ _ hlty hrun
      · rw [if_neg hfb] at hrun
        simp only [EngM_bind_def, EngM_pure_apply] at hrun
        exact floatBinopOps_ok_ty _ _ _ _ _ _ hlty hrun
  · intro wa wb hwa hwb
    subst hwa
    subst hwb
    rw [if_pos (by simp [LTy.isFloatingPointTy])] at hrun
    simp only [EngM_bind_def, liftE, LTy.getIntegerBitWidth] at hrun
    by_cases hw : max wa wb = 8 ∨ max wa wb = 16 ∨ max wa wb = 32 ∨ max wa wb = 64
    · rw [if_pos hw] at hrun
      simp only [EngM_bind_def, EngM_pure_apply] at hrun
      by_cases hca : LTy.int wa ≠ LTy.int (max wa wb)
      · rw [if_pos hca] at hrun
        simp only [EngM_bind_def] at hrun
        rcases hL : createIntCast la (LTy.int (max wa wb)) s2 with e | ⟨lhs, s3⟩
        · rw [hL] at hrun
          simp at hrun
        · have hlty : lhs.ty = LTy.int (max wa wb) := createIntCast_ok_ty _ _ _ _ _ hL
          rw [hL] at hrun
          dsimp only at hrun
          by_cases hcb : LTy.int wb ≠ LTy.int (max wa wb)
          · rw [if_pos hcb] at hrun
            simp only [EngM_bind_def] at hrun
            rcases hR : createIntCast lb (LTy.int (max wa wb)) s3 with e | ⟨rhs, s4⟩
            · rw [hR] at hrun
              simp at hrun
            · rw [hR] at hrun
              dsimp only at hrun
              obtain ⟨hc, ha⟩ := intBinopOps_ok_ty _ _ _ _ _ _ hrun
              exact ⟨hc, fun hA => (ha hA).trans hlty⟩
          · rw [if_neg hcb] at hrun
            simp only [EngM_bind_def, EngM_pure_apply] at hrun
            obtain ⟨hc, ha⟩ := intBinopOps_ok_ty _ _ _ _ _ _ hrun
            exact ⟨hc, fun hA => (ha hA).trans hlty⟩
      · rw [if_neg hca] at hrun
        simp only [EngM_bind_def, EngM_pure_apply] at hrun
        have hlty : la.ty = LTy.int (max wa wb) := by
          rw [hla]
          exact not_not.mp hca
        by_cases hcb : LTy.int wb ≠ LTy.int (max wa wb)
        · rw [if_pos hcb] at hrun
          simp only [EngM_bind_def] at hrun
          rcases hR : createIntCast lb (LTy.int (max wa wb)) s2 with e | ⟨rhs, s4⟩
          · rw [hR] at hrun
            simp at hrun
          · rw [hR] at hrun
            dsimp only at hrun
            obtain ⟨hc, ha⟩ := intBinopOps_ok_ty _ _ _ _ _ _ hrun
            exact ⟨hc, fun hA => (ha hA).trans hlty⟩
        · rw [if_neg hcb] at hrun
          simp only [EngM_bind_def, EngM_pure_apply] at hrun
          obtain ⟨hc, ha⟩ := intBinopOps_ok_ty _ _ _ _ _ _ hrun
          exact ⟨hc, fun hA => (ha hA).trans hlty⟩
    · rw [if_neg hw] at hrun
      simp [EngM_bind_def, throwE] at hrun

/-- Witness for the amended claim C6 on `(+ 1 2)`: both operands are
declared `int32`, and the folded result is a 32-bit integer — the larger
(here equal) operand width. -/
theorem C6_amended_witness :
    codegenBinop 2 C6addNode initEngState = Except.ok (Value.cint 32 3, initEngState) ∧
    (Value.cint 32 3).ty = LTy.int (max 32 32) :=
  ⟨rfl,
    ((C6_amended 1 C6addNode C6plusSym C6one C6two initEngState initEngState initEngState
        initEngState (Value.cint 32 1) (Value.cint 32 2) (Value.cint 32 3)
        (LTy.int 32) (LTy.int 32) rfl rfl rfl rfl rfl rfl
        (fun hx => absurd hx (by decide)) rfl).2 32 32 rfl rfl).2 rfl⟩

end Engine

namespace Engine

/-- A successful `CreateFPExt` yields a value of the requested type. -/
theorem createFPExt_ok_ty (a : Value) (ty : LTy) (s s' : EngState) (v : Value)
    (h : createFPExt a ty s = Except.ok (v, s')) : v.ty = ty := by
  unfold createFPExt at h
  split at h
  · simp [throwE] at h
  · split at h
    all_goals
      simp only [EngM_bind_def, EngM_pure_def, freshId, emit, Except.ok.injEq,
        Prod.mk.injEq] at h
      obtain ⟨rfl, -⟩ := h
      rfl

/-- A type that is neither an integer type nor a 32-bit-float-but-not-double
type is neither integer nor `float32`. -/
theorem passthrough_ty_prop (t : LTy) (hint : ¬ t.isIntegerTy = true)
    (hflt : ¬ (t.isFloatTy = true ∧ ¬ t.isDoubleTy = true)) :
    t.isIntegerTy = false ∧ t.isFloatTy = false := by
  cases t with
  | int w => exact absurd rfl hint
  | f32 => exact absurd (by decide) hflt
  | f64 => exact ⟨rfl, rfl⟩
  | voidT => exact ⟨rfl, rfl⟩
  | ptr p => exact ⟨rfl, rfl⟩
  | structT n => exact ⟨rfl, rfl⟩

/-- Every phi incoming collected by the fill loop of `codegenCond` has a
type that is neither an integer type nor the 32-bit float type: integer
and `float32` clause values are converted to `float64`, while every other
clause value (a `float64`, but also a pointer or void value) is passed
through unchanged. -/
theorem condFill_incomings : ∀ (fuel : Nat) (entries : List (Edn.EdnNode × Nat))
    (afterBB : Nat) (s0 : EngState) (incs : List (Value × Nat)) (s1 : EngState),
    condFill fuel entries afterBB s0 = Except.ok (incs, s1) →
    ∀ p ∈ incs, p.1.ty.isIntegerTy = false ∧ p.1.ty.isFloatTy = false := by
  intro fuel
  induction fuel with
  | zero =>
    intro entries afterBB s0 incs s1 h
    simp [condFill, throwE] at h
  | succ fuel ih =>
    intro entries afterBB s0 incs s1 h
    unfold condFill at h
    cases entries with
    | nil =>
      simp only [EngM_pure_apply, Except.ok.injEq, Prod.mk.injEq] at h
      obtain ⟨rfl, -⟩ := h
      intro p hp
      simp at hp
    | cons e rest =>
      obtain ⟨clause, bb⟩ := e
      simp only [EngM_bind_def, getS, setInsertPoint] at h
      cases hLast : clause.values.getLast? with
      | none =>
        rw [hLast] at h
        simp [throwE] at h
      | some exprNode =>
        rw [hLast] at h
        dsimp only at h
        simp only [EngM_bind_def] at h
        split at h
        · simp at h
        · rename_i vO s2 hE
          cases vO with
          | none => simp [need, throwE] at h
          | some v0 =>
            simp only [need, EngM_pure_apply] at h
            by_cases hint : v0.ty.isIntegerTy = true
            · rw [if_pos hint] at h
              simp only [EngM_bind_def] at h
              split at h
              · simp at h
              · rename_i cv s3 hSI
                have hcv : cv.ty = LTy.f64 := createSIToFP_ok_ty _ _ _ _ _ hSI
                simp only [EngM_bind_def, createBr, emit] at h
                split at h
                · simp at h
                · rename_i restInc s5 hRest
                  simp only [EngM_pure_apply, Except.ok.injEq, Prod.mk.injEq] at h
                  obtain ⟨rfl, -⟩ := h
                  intro p hp
                  rcases List.mem_cons.mp hp with rfl | hp2
                  · exact ⟨by simp [hcv, LTy.isIntegerTy], by simp [hcv, LTy.isFloatTy]⟩
                  · exact ih rest afterBB _ restInc s5 hRest p hp2
            · rw [if_neg hint] at h
              by_cases hflt : v0.ty.isFloatTy = true ∧ ¬ v0.ty.isDoubleTy = true
              · rw [if_pos hflt] at h
                simp only [EngM_bind_def] at h
                split at h
                · simp at h
                · rename_i cv s3 hFE
                  have hcv : cv.ty = LTy.f64 := createFPExt_ok_ty _ _ _ _ _ hFE
                  simp only [EngM_bind_def, createBr, emit] at h
                  split at h
                  · simp at h
                  · rename_i restInc s5 hRest
                    simp only [EngM_pure_apply, Except.ok.injEq, Prod.mk.injEq] at h
                    obtain ⟨rfl, -⟩ := h
                    intro p hp
                    rcases List.mem_cons.mp hp with rfl | hp2
                    · exact ⟨by simp [hcv, LTy.isIntegerTy], by simp [hcv, LTy.isFloatTy]⟩
                    · exact ih rest afterBB _ restInc s5 hRest p hp2
              · rw [if_neg hflt] at h
                simp only [EngM_bind_def, EngM_pure_apply, createBr, emit] at h
                split at h
                · simp at h
                · rename_i restInc s5 hRest
                  simp only [EngM_pure_apply, Except.ok.injEq, Prod.mk.injEq] at h
                  obtain ⟨rfl, -⟩ := h
                  intro p hp
                  rcases List.mem_cons.mp hp with rfl | hp2
                  · exact passthrough_ty_prop v0.ty hint hflt
                  · exact ih rest afterBB _ restInc s5 hRest p hp2

/-- Claim C7, counterexample: lowering `(cond (else (ref x)))` in a state
where `x` is bound to an `i32*` storage slot succeeds and joins through a
`double`-typed phi — but the phi's single incoming is the POINTER value
itself, not converted to `float64` (the fill loop converts only integer
and `float32` clause values). -/
theorem C7_counterexample :
    codegenCond 5 C7condNode C7st = Except.ok (Value.inst 1 LTy.f64, C7stOut) ∧
    C7stOut.instrs.getLast? = some ("calc".toList, 1,
      Instr.phi 1 LTy.f64 [(Value.inst 0 (LTy.ptr (LTy.int 32)), 2)]) ∧
    (Value.inst 0 (LTy.ptr (LTy.int 32))).ty ≠ LTy.f64 :=
  ⟨rfl, rfl, by decide⟩

/-- Claim C7, amended: a successful `cond` lowering always yields the join
phi's value, of type `float64` (the phi is created with `double` type and
is the value of every path into the join block); but each incoming is the
clause value converted only when it is an integer (`CreateSIToFP`) or a
32-bit float (`CreateFPExt`) — any other clause value joins unconverted,
so an incoming's type is merely "not integer and not `float32`", not
necessarily `float64`. -/
theorem C7_amended (fuel : Nat) (node : Edn.EdnNode) (st st' : EngState) (v : Value)
    (h : codegenCond fuel node st = Except.ok (v, st')) :
    ∃ id incs, v = Value.inst id LTy.f64 ∧
      st'.instrs.getLast? = some (st'.curFunc, st'.curBlock, Instr.phi id LTy.f64 incs) ∧
      ∀ p ∈ incs, p.1.ty.isIntegerTy = false ∧ p.1.ty.isFloatTy = false := by
  cases fuel with
  | zero => simp [codegenCond, throwE] at h
  | succ fuel =>
    unfold codegenCond at h
    by_cases hlen : node.values.length < 2
    · rw [if_pos hlen] at h
      simp [throwE] at h
    · rw [if_neg hlen] at h
      simp only [EngM_bind_def, createBasicBlock, getS] at h
      split at h
      · simp at h
      · rename_i entries s3 hD
        split at h
        · simp at h
        · rename_i incs s4 hF
          simp only [EngM_bind_def, getS, setInsertPoint, createPhi, freshId, emit,
            EngM_pure_def, EngM_pure_apply, Except.ok.injEq, Prod.mk.injEq] at h
          obtain ⟨rfl, rfl⟩ := h
          refine ⟨s4.nextId, incs, rfl, ?_, ?_⟩
          · simp [List.getLast?_concat]
          · exact condFill_incomings fuel entries st.nextBlock s3 incs s4 hF

/-- Witness for the amended claim C7 on the counterexample instance: the
lowering of `(cond (else (ref x)))` yields the phi value of type
`float64`, the phi is the last emitted instruction, and its incomings are
all non-integer non-`float32` values. -/
theorem C7_amended_witness :
    ∃ id incs, (Value.inst 1 LTy.f64) = Value.inst id LTy.f64 ∧
      C7stOut.instrs.getLast? = some (C7stOut.curFunc, C7stOut.curBlock,
        Instr.phi id LTy.f64 incs) ∧
      ∀ p ∈ incs, p.1.ty.isIntegerTy = false ∧ p.1.ty.isFloatTy = false :=
  C7_amended 5 C7condNode C7st C7stOut (Value.inst 1 LTy.f64) rfl

end Engine

namespace Engine

/-- Claim C8: lazy-emission idempotence of `codegenCall`.  For a call to a
recorded user function whose return and argument types resolve: (1) when
the function is already present in the module (as it is after its first
call site), the call lowers its arguments and then adds ONLY a call
instruction — the result is the fresh call value, the final state appends
exactly one `call` instruction to the argument-lowering state, and the
emission log and module contents are untouched; (2) when the function is
not yet present, the call appends the function to the module and to the
emission log FIRST and only then lowers its body code — so any call site
reached while emitting (including recursive ones) already finds the
function present and cannot emit it a second time. -/
theorem C8_lazy_emission (fuel : Nat) (node opNode : Edn.EdnNode)
    (argNodes : List Edn.EdnNode) (st : EngState)
    (args : List (List Char × List Char)) (body : List Edn.EdnNode)
    (llvmRetType : LTy) (argTypes : List LTy)
    (hvals : node.values = opNode :: argNodes)
    (hfound : lookupA opNode.value st.yeetFunctionTable = some (args, body))
    (hlen : argNodes.length = args.length)
    (hret : getLLVMType ((lookupA opNode.value st.yeetFunctionReturnTypes).getD
      "double".toList) = Except.ok llvmRetType)
    (hargty : args.mapM (fun a => getLLVMType a.2) = Except.ok argTypes) :
    ((st.moduleFuncs.find? (fun p => p.1 == opNode.value)).isSome = true →
      ∀ (callArgs : List Value) (s2 : EngState) (v : Value) (st' : EngState),
        codegenCallArgs (fuel + 1) argNodes argTypes st = Except.ok (callArgs, s2) →
        codegenCall (fuel + 2) node st = Except.ok (v, st') →
        v = Value.inst s2.nextId llvmRetType ∧
        st' = { s2 with
                  nextId := s2.nextId + 1,
                  instrs := s2.instrs ++
                    [(s2.curFunc, s2.curBlock,
                      Instr.call s2.nextId opNode.value callArgs)] } ∧
        st'.emissionLog = s2.emissionLog ∧ st'.moduleFuncs = s2.moduleFuncs) ∧
    ((st.moduleFuncs.find? (fun p => p.1 == opNode.value)).isSome = false →
      codegenCall (fuel + 2) node st =
        (do emitFunctionCode fuel opNode.value args body
              ((lookupA opNode.value st.yeetFunctionReturnTypes).getD "double".toList)
              llvmRetType argTypes
            setInsertPoint st.curFunc st.curBlock
            let callArgs ← codegenCallArgs (fuel + 1) argNodes argTypes
            createCall opNode.value llvmRetType callArgs)
          { st with
              moduleFuncs := st.moduleFuncs ++ [(opNode.value, llvmRetType)],
              emissionLog := st.emissionLog ++ [opNode.value] }) := by
  constructor
  · intro hpres callArgs s2 v st' hcargs hrun
    have hnone : (st.moduleFuncs.find? (fun p => p.1 == opNode.value)).isNone = false := by
      cases hfind : st.moduleFuncs.find? (fun p => p.1 == opNode.value) with
      | none => rw [hfind] at hpres; simp at hpres
      | some p => rfl
    unfold codegenCall at hrun
    rw [hvals] at hrun
    simp only [EngM_bind_def, getS] at hrun
    rw [hfound] at hrun
    dsimp only at hrun
    rw [if_neg (by simp [hlen])] at hrun
    simp only [EngM_bind_def, liftE] at hrun
    rw [hret] at hrun
    dsimp only at hrun
    rw [hargty] at hrun
    dsimp only at hrun
    simp only [EngM_bind_def, getS] at hrun
    rw [if_neg (by simp [hnone])] at hrun
    simp only [EngM_bind_def, EngM_pure_apply] at hrun
    rw [hcargs] at hrun
    dsimp only at hrun
    simp only [createCall, EngM_bind_def, freshId, emit, EngM_pure_def,
      Except.ok.injEq, Prod.mk.injEq] at hrun
    obtain ⟨rfl, rfl⟩ := hrun
    exact ⟨rfl, rfl, rfl, rfl⟩
  · intro habsent
    have hnone : (st.moduleFuncs.find? (fun p => p.1 == opNode.value)).isNone = true := by
      cases hfind : st.moduleFuncs.find? (fun p => p.1 == opNode.value) with
      | none => rfl
      | some p => rw [hfind] at habsent; simp at habsent
    unfold codegenCall
    rw [hvals]
    simp only [EngM_bind_def, getS]
    rw [hfound]
    dsimp only
    rw [if_neg (by simp [hlen])]
    simp only [EngM_bind_def, liftE]
    rw [hret]
    dsimp only
    rw [hargty]
    dsimp only
    simp only [EngM_bind_def, getS]
    rw [if_pos hnone]
    simp only [emitFunctionPhase, EngM_bind_def, modifyS]

/-- Witness for claim C8 on a second call to the already-emitted zero-
argument function `f`: the call produces only the `call` instruction, and
the emission log and module are unchanged. -/
theorem C8_lazy_emission_witness :
    Value.inst 0 LTy.f64 = Value.inst C8st.nextId LTy.f64 ∧
    C8stOut = { C8st with
                  nextId := C8st.nextId + 1,
                  instrs := C8st.instrs ++
                    [(C8st.curFunc, C8st.curBlock,
                      Instr.call C8st.nextId "f".toList [])] } ∧
    C8stOut.emissionLog = C8st.emissionLog ∧ C8stOut.moduleFuncs = C8st.moduleFuncs :=
  (C8_lazy_emission 0 C8callNode C8fSym [] C8st [] C8body LTy.f64 []
    rfl rfl rfl rfl rfl).1 rfl [] C8st (Value.inst 0 LTy.f64) C8stOut rfl rfl

end Engine
